import Mathlib

/-! Brute-force demagnetisation kernel (`mag/demagkernel.go`).

A shallow embedding of `BruteKernel` and its helpers `delta`, `wrap` and `padSize`.

Modelling conventions.

* Go `int` is modelled by `Int`.  Go's `/` and `%` on `int` truncate toward zero and are
  rendered by `Int.tdiv` and `Int.tmod`.  `BruteKernel` and its helpers `delta`, `wrap`,
  `padSize` compute on unbounded integers: they describe the runs in which no intermediate
  value leaves the 64-bit range.  `delta64` and `wrap64` are `delta` and `wrap` with the
  wrap-around of Go's 64-bit `int` made explicit (`int64`); they agree with `delta` and `wrap`
  wherever the source does not overflow (`delta64_eq_delta`, `wrap64_eq_wrap`) and are the ones
  to consult for statements about every `int`.
* Go `float64` and `float32` are modelled by one linearly ordered field `F` (exact arithmetic),
  so the conversions `float64(n)` and `float32(v)` are the cast from `Int` and the identity.
  `math.Sqrt` and `math.Pi` are supplied by a `MathEnv`; `math.Max` is `max` and `int(v)` is
  truncation toward zero (`toInt`).
* A Go `for` loop whose number of iterations is not bounded by its text (the two loops of `wrap`)
  runs on `fuel`, the number of loop-body executions it may perform.
* Panics are the `error` results of `Except Failure`.
-/

namespace Mag

/-! ## Data model -/

/-- Index of the X axis (`const X = 0`). -/
abbrev X : Fin 3 := 0

/-- Index of the Y axis (`const Y = 1`). -/
abbrev Y : Fin 3 := 1

/-- Index of the Z axis (`const Z = 2`). -/
abbrev Z : Fin 3 := 2

/-- Modelled from the spec: the mesh descriptor `data.Mesh` (grid size, cell size and periodicity
per axis), whose declaration is outside the two source files. -/
structure Mesh (F : Type) where
  /-- Mesh size in cells, as returned by `mesh.Size()`. -/
  size : Fin 3 → Int
  /-- Cell size, as returned by `mesh.CellSize()`. -/
  cellSize : Fin 3 → F
  /-- Periodic repeats per axis, as returned by `mesh.PBC()`; 0 means an open axis. -/
  pbc : Fin 3 → Int

/-- Modelled from the spec: the scalar 3-D array `data.Slice` with one component, addressed as
`[z][y][x]`; `size` gives the extent along each axis. -/
structure Slice (F : Type) where
  /-- Extent per axis. -/
  size : Fin 3 → Int
  /-- Element at `[z][y][x]`. -/
  data : Int → Int → Int → F

/-- The 3x3 tensor of arrays `[3][3]*data.Slice`; `none` is a nil entry. -/
abbrev Kernel (F : Type) := Fin 3 → Fin 3 → Option (Slice F)

/-- The library functions of package `math` used by the build. -/
structure MathEnv (F : Type) where
  /-- Stands for `math.Sqrt`. -/
  sqrt : F → F
  /-- Stands for `math.Pi`. -/
  pi : F

/-- Ways in which a run of `BruteKernel` stops without returning a tensor. -/
inductive Failure where
  /-- A failed `util.Assert` or `util.AssertMsg`, tagged with its source line. -/
  | assertFailed (line : Nat)
  /-- An index outside the bounds of an array (also an index into a nil array). -/
  | indexOutOfRange
  /-- A loop of `wrap` used up its fuel. -/
  | outOfFuel
  deriving DecidableEq

/-- What a call of `BruteKernel` did: the `data.NewSlice` calls it performed, in order, named by
the tensor entry they were stored in, and the tensor it returned or the failure that stopped it. -/
structure Run (F : Type) where
  /-- Tensor entries for which `data.NewSlice` was called. -/
  allocated : List (Fin 3 × Fin 3)
  /-- Returned tensor, or the failure. -/
  result : Except Failure (Kernel F)

/-! ## Helpers `delta`, `wrap`, `padSize` -/

section Helpers

variable {F : Type} [LinearOrderedField F]

/-- Closest distance between cells, given center distance `d`:
```go
func delta(d int) float64 {
	if d < 0 { d = -d }
	if d > 0 { d -= 1 }
	return float64(d)
}
```
on unbounded integers; it is the source's function for every `int` other than `math.MinInt64`,
where `-d` wraps around (see `delta64`). -/
def delta (d : Int) : F :=
  let d := if d < 0 then -d else d
  let d := if d > 0 then d - 1 else d
  (d : F)

/-- First loop of `wrap`, `for number < 0 { number += max }`, allowed at most `fuel` executions of
its body.  Returns the value of `number` at exit and the unused fuel, or `none` when the fuel does
not suffice.  The addition is on unbounded integers: for `max > 0` it cannot overflow in the
source; for `max < 0` the source wraps around (see `wrapUp64`). -/
def wrapUp : Nat → Int → Int → Option (Int × Nat)
  | 0, number, _ => if number < 0 then none else some (number, 0)
  | fuel + 1, number, max =>
    if number < 0 then wrapUp fuel (number + max) max else some (number, fuel + 1)

/-- Second loop of `wrap`, `for number >= max { number -= max }`, allowed at most `fuel`
executions of its body.  The subtraction is on unbounded integers: for `max > 0` it cannot
overflow in the source (see `wrapDown64`). -/
def wrapDown : Nat → Int → Int → Option Int
  | 0, number, max => if number ≥ max then none else some number
  | fuel + 1, number, max =>
    if number ≥ max then wrapDown fuel (number - max) max else some number

/-- Wraps an index by adding/subtracting a multiple of `max`:
```go
func wrap(number, max int) int {
	for number < 0 { number += max }
	for number >= max { number -= max }
	return number
}
```
`fuel` bounds the total number of loop-body executions of the two loops; the result is `none`
when more would be needed.  This is the source's function for `max > 0`, the only way
`BruteKernel` calls it; `wrap64` is the function for every `max`. -/
def wrap (fuel : Nat) (number max : Int) : Option Int :=
  match wrapUp fuel number max with
  | none => none
  | some (number, fuel) => wrapDown fuel number max

/-- The value held by Go's 64-bit `int` after an operation whose exact result is `v`: the
representative of `v` modulo `2^64` in `[-2^63, 2^63)`. -/
def int64 (v : Int) : Int :=
  (v + 2 ^ 63) % 2 ^ 64 - 2 ^ 63

/-- The function `delta` of lines 215-223 on Go's 64-bit `int`, for `-2^63 <= d < 2^63`: the
negation `d = -d` and the decrement `d -= 1` wrap around. -/
def delta64 (d : Int) : F :=
  let d := if d < 0 then int64 (-d) else d
  let d := if d > 0 then int64 (d - 1) else d
  (d : F)

/-- First loop of `wrap` on Go's 64-bit `int`, `for number < 0 { number += max }`, allowed at
most `fuel` executions of its body; the addition wraps around. -/
def wrapUp64 : Nat → Int → Int → Option (Int × Nat)
  | 0, number, _ => if number < 0 then none else some (number, 0)
  | fuel + 1, number, max =>
    if number < 0 then wrapUp64 fuel (int64 (number + max)) max else some (number, fuel + 1)

/-- Second loop of `wrap` on Go's 64-bit `int`, `for number >= max { number -= max }`, allowed at
most `fuel` executions of its body; the subtraction wraps around. -/
def wrapDown64 : Nat → Int → Int → Option Int
  | 0, number, max => if number ≥ max then none else some number
  | fuel + 1, number, max =>
    if number ≥ max then wrapDown64 fuel (int64 (number - max)) max else some number

/-- The function `wrap` of lines 226-234 on Go's 64-bit `int`, for `number` and `max` in
`[-2^63, 2^63)`; `fuel` bounds the total number of loop-body executions of the two loops. -/
def wrap64 (fuel : Nat) (number max : Int) : Option Int :=
  match wrapUp64 fuel number max with
  | none => none
  | some (number, fuel) => wrapDown64 fuel number max

/-- Size after zero-padding, taking into account periodic boundary conditions:
```go
func padSize(size, periodic [3]int) [3]int {
	for i := range size {
		if periodic[i] == 0 && size[i] > 1 { size[i] *= 2 }
	}
	return size
}
```
`size` is the function's own copy of the array; the loop visits the indices 0, 1, 2. -/
def padSize (size periodic : Fin 3 → Int) : Fin 3 → Int :=
  (List.finRange 3).foldl
    (fun size i =>
      if periodic i = 0 ∧ size i > 1 then Function.update size i (size i * 2) else size)
    size

end Helpers

/-! ## Loops -/

/-- The values taken by `v` in `for v := lo; v <= hi; v++`. -/
def intRange (lo hi : Int) : List Int :=
  (List.range (hi - lo + 1).toNat).map (fun (k : Nat) => lo + (k : Int))

/-- The values taken by `d` in `for d := s; d < 3; d++`. -/
def upFrom (s : Fin 3) : List (Fin 3) :=
  (List.finRange 3).filter (fun d => s ≤ d)

/-- A loop over the values `xs` whose body may fail: the state is threaded through the iterations
and the first failure ends the loop. -/
def forEach {α σ : Type} : List α → (α → σ → Except Failure σ) → σ → Except Failure σ
  | [], _, st => .ok st
  | a :: rest, body, st =>
    match body a st with
    | .error e => .error e
    | .ok st' => forEach rest body st'

/-- The loop `for i := 0; i < n; i++` with a body that cannot fail. -/
def forN {σ : Type} (n : Int) (body : Int → σ → σ) (init : σ) : σ :=
  (List.range n.toNat).foldl (fun st (i : Nat) => body (i : Int) st) init

/-! ## `BruteKernel` -/

section Build

variable {F : Type} [LinearOrderedField F] [FloorRing F]

/-- The conversion `int(v)` of a `float64`: truncation toward zero. -/
def toInt (v : F) : Int :=
  if 0 ≤ v then ⌊v⌋ else ⌈v⌉

/-- The triple `(a, b, c)` as an array indexed by `X`, `Y`, `Z`. -/
def vec3 {α : Type} (a b c : α) : Fin 3 → α :=
  fun i => if i = X then a else if i = Y then b else c

/-- Modelled from the spec: `data.NewSlice(1, mesh)`, a zero-filled array of the size of the
mesh. -/
def NewSlice (size : Fin 3 → Int) : Slice F :=
  { size := size, data := fun _ _ _ => 0 }

/-- The assignment `kernel[i][j] = v`. -/
def setEntry (kernel : Kernel F) (i j : Fin 3) (v : Option (Slice F)) : Kernel F :=
  fun a b => if a = i ∧ b = j then v else kernel a b

/-- The kernel mesh of lines 15-20: the input mesh with its size replaced by `padSize`. -/
def paddedMesh (mesh : Mesh F) : Mesh F :=
  let pbc := mesh.pbc
  let sz := padSize mesh.size pbc
  let cs := mesh.cellSize
  { size := vec3 (sz X) (sz Y) (sz Z), cellSize := vec3 (cs X) (cs Y) (cs Z), pbc := pbc }

/-- The sanity check of lines 28-38, on the kernel mesh:
```go
util.Assert(size[Z] >= 1 && size[Y] >= 2 && size[X] >= 2)
util.Assert(cellsize[X] > 0 && cellsize[Y] > 0 && cellsize[Z] > 0)
util.Assert(pbc[X] >= 0 && pbc[Y] >= 0 && pbc[Z] >= 0)
util.Assert(accuracy > 0)
util.AssertMsg(size[X]%2 == 0 && size[Y]%2 == 0, "Even kernel size needed")
if size[Z] > 1 {
	util.AssertMsg(size[Z]%2 == 0, "Even kernel size needed")
}
``` -/
def sanityCheck (size : Fin 3 → Int) (cellsize : Fin 3 → F) (pbc : Fin 3 → Int) (accuracy : F) :
    Except Failure Unit :=
  if ¬ (size Z ≥ 1 ∧ size Y ≥ 2 ∧ size X ≥ 2) then .error (.assertFailed 30)
  else if ¬ (cellsize X > 0 ∧ cellsize Y > 0 ∧ cellsize Z > 0) then .error (.assertFailed 31)
  else if ¬ (pbc X ≥ 0 ∧ pbc Y ≥ 0 ∧ pbc Z ≥ 0) then .error (.assertFailed 32)
  else if ¬ (accuracy > 0) then .error (.assertFailed 33)
  else if ¬ (Int.tmod (size X) 2 = 0 ∧ Int.tmod (size Y) 2 = 0) then .error (.assertFailed 34)
  else if size Z > 1 then
    if ¬ (Int.tmod (size Z) 2 = 0) then .error (.assertFailed 36) else .ok ()
  else .ok ()

/-- The allocation loop of lines 40-47, which fills the upper triangle of the tensor:
```go
for i := 0; i < 3; i++ {
	for j := i; j < 3; j++ {
		kernel[i][j] = data.NewSlice(1, mesh)
		array[i][j] = kernel[i][j].Scalars()
	}
}
```
`array[i][j]` is a view of the storage of `kernel[i][j]`, so the tensor itself is the store the
integration writes to.  The second component logs the `data.NewSlice` calls. -/
def allocate (size : Fin 3 → Int) : Kernel F × List (Fin 3 × Fin 3) :=
  (List.finRange 3).foldl
    (fun st i =>
      (upFrom i).foldl
        (fun st j => (setEntry st.1 i j (some (NewSlice size)), st.2 ++ [(i, j)]))
        st)
    (fun _ _ => none, [])

/-- The destination loop ranges of lines 60-84. -/
structure Ranges where
  /-- First X offset. -/
  x1 : Int
  /-- Last X offset. -/
  x2 : Int
  /-- First Y offset. -/
  y1 : Int
  /-- Last Y offset. -/
  y2 : Int
  /-- First Z offset. -/
  z1 : Int
  /-- Last Z offset. -/
  z2 : Int
  deriving DecidableEq

/-- Field (destination) loop ranges, lines 60-84:
```go
if pbc[X] == 0 {
	x1, x2 = -(size[X]-1)/2, (size[X]-1)/2
} else {
	x1, x2 = -(size[X]*pbc[X] - 1), (size[X]*pbc[X] - 1)
}
... // the same for Y and Z
if size[Z] == 1 && pbc[Z] == 0 {
	z2 = 0
}
```
In Go the unary minus binds tighter than `/`, and `/` truncates toward zero. -/
def ranges (size pbc : Fin 3 → Int) : Ranges :=
  let (x1, x2) :=
    if pbc X = 0 then (Int.tdiv (-(size X - 1)) 2, Int.tdiv (size X - 1) 2)
    else (-(size X * pbc X - 1), size X * pbc X - 1)
  let (y1, y2) :=
    if pbc Y = 0 then (Int.tdiv (-(size Y - 1)) 2, Int.tdiv (size Y - 1) 2)
    else (-(size Y * pbc Y - 1), size Y * pbc Y - 1)
  let (z1, z2) :=
    if pbc Z = 0 then (Int.tdiv (-(size Z - 1)) 2, Int.tdiv (size Z - 1) 2)
    else (-(size Z * pbc Z - 1), size Z * pbc Z - 1)
  let z2 := if size Z = 1 ∧ pbc Z = 0 then 0 else z2
  { x1 := x1, x2 := x2, y1 := y1, y2 := y2, z1 := z1, z2 := z2 }

/-- The typical length scale of lines 86-95, the smallest cell dimension. -/
def lengthScale (cellsize : Fin 3 → F) : F :=
  let L := cellsize X
  let L := if cellsize Y < L then cellsize Y else L
  let L := if cellsize Z < L then cellsize Z else L
  L

/-- The reference distance of lines 121-126 for the destination offset `(x, y, z)`:
```go
dx, dy, dz := delta(x)*cellsize[X], delta(y)*cellsize[Y], delta(z)*cellsize[Z]
d := math.Sqrt(dx*dx + dy*dy + dz*dz)
if d == 0 { d = L }
``` -/
def refDistance (env : MathEnv F) (cellsize : Fin 3 → F) (L : F) (x y z : Int) : F :=
  let dx := delta x * cellsize X
  let dy := delta y * cellsize Y
  let dz := delta z * cellsize Z
  let d := env.sqrt (dx * dx + dy * dy + dz * dz)
  if d = 0 then L else d

/-- The number of integration points along an axis of cell size `c`, lines 128-132:
`int(math.Max(c/maxSize, 1) + 0.5)`. -/
def subdivisions (c maxSize : F) : Int :=
  toInt (max (c / maxSize) 1 + 1 / 2)

/-- The innermost statements, lines 166-180: the field of the positive and of the negative pole at
the destination point `(rx, ry, rz)`, added to `B`.  `pole` holds the `v` and `w` coordinates
of the point charge; its `u` entry is overwritten with `pu1`, then with `pu2`. -/
def addPoles (env : MathEnv F) (u : Fin 3) (charge pu1 pu2 : F) (pole : Fin 3 → F)
    (rx ry rz : F) (B : Fin 3 → F) : Fin 3 → F :=
  let pole := Function.update pole u pu1
  let R2 : Fin 3 → F := vec3 (rx - pole X) (ry - pole Y) (rz - pole Z)
  let r := env.sqrt (R2 X * R2 X + R2 Y * R2 Y + R2 Z * R2 Z)
  let qr := charge / (4 * env.pi * r * r * r)
  let bx := R2 X * qr
  let by' := R2 Y * qr
  let bz := R2 Z * qr
  let pole := Function.update pole u pu2
  let R2 : Fin 3 → F := vec3 (rx - pole X) (ry - pole Y) (rz - pole Z)
  let r := env.sqrt (R2 X * R2 X + R2 Y * R2 Y + R2 Z * R2 Z)
  let qr := -charge / (4 * env.pi * r * r * r)
  vec3 (B X + (bx + R2 X * qr)) (B Y + (by' + R2 Y * qr)) (B Z + (bz + R2 Z * qr))

/-- The surface and volume integral of lines 140-186 for source direction `s`, destination cell
centre `(RX, RY, RZ)` and the integration counts `nv nw nx ny nz`: the field `B`.
The arrays `R`, `R2` and `pole` of the source are shared by all iterations; every entry that is
read was written earlier in the same iteration (`u`, `v`, `w` are the three axes), so the stale
contents of `pole`, here zero, are never used. -/
def integral (env : MathEnv F) (cellsize : Fin 3 → F) (s : Fin 3) (RX RY RZ : F)
    (nv nw nx ny nz : Int) : Fin 3 → F :=
  let u := s
  let v := s + 1
  let w := s + 2
  let scale := 1 / ((nv * nw * nx * ny * nz : Int) : F)
  let surface := cellsize v * cellsize w
  let charge := surface * scale
  let pu1 := cellsize u / 2
  let pu2 := -pu1
  forN nv (fun i B =>
    let pv := -(cellsize v / 2) + cellsize v / ((2 * nv : Int) : F)
      + ((i : Int) : F) * (cellsize v / ((nv : Int) : F))
    let pole : Fin 3 → F := Function.update (fun _ => 0) v pv
    forN nw (fun j B =>
      let pw := -(cellsize w / 2) + cellsize w / ((2 * nw : Int) : F)
        + ((j : Int) : F) * (cellsize w / ((nw : Int) : F))
      let pole := Function.update pole w pw
      forN nx (fun α B =>
        let rx := RX - cellsize X / 2 + cellsize X / ((2 * nx : Int) : F)
          + (cellsize X / ((nx : Int) : F)) * ((α : Int) : F)
        forN ny (fun β B =>
          let ry := RY - cellsize Y / 2 + cellsize Y / ((2 * ny : Int) : F)
            + (cellsize Y / ((ny : Int) : F)) * ((β : Int) : F)
          forN nz (fun γ B =>
            let rz := RZ - cellsize Z / 2 + cellsize Z / ((2 * nz : Int) : F)
              + (cellsize Z / ((nz : Int) : F)) * ((γ : Int) : F)
            addPoles env u charge pu1 pu2 pole rx ry rz B) B) B) B) B)
    (fun _ => 0)

/-- Lines 119-186 for one source direction `s` and one destination offset `(x, y, z)`: the choice
of the number of integration points, the assertion of line 138 and the integral. -/
def cellField (env : MathEnv F) (cellsize : Fin 3 → F) (L accuracy : F) (s : Fin 3)
    (x y z : Int) : Except Failure (Fin 3 → F) :=
  let v := s + 1
  let w := s + 2
  let RZ := (z : F) * cellsize Z
  let RY := (y : F) * cellsize Y
  let RX := (x : F) * cellsize X
  let d := refDistance env cellsize L x y z
  let maxSize := d / accuracy
  let nv := subdivisions (cellsize v) maxSize
  let nw := subdivisions (cellsize w) maxSize
  let nx := subdivisions (cellsize X) maxSize
  let ny := subdivisions (cellsize Y) maxSize
  let nz := subdivisions (cellsize Z) maxSize
  let nv := nv * 2
  let nw := nw * 2
  if ¬ (nv > 0 ∧ nw > 0 ∧ nx > 0 ∧ ny > 0 ∧ nz > 0) then .error (.assertFailed 138)
  else .ok (integral env cellsize s RX RY RZ nv nw nx ny nz)

/-- The statement `array[s][d][zw][yw][xw] += float32(v)` of line 188, with the bounds checks of
the Go runtime. -/
def addAt (kernel : Kernel F) (s d : Fin 3) (zw yw xw : Int) (v : F) :
    Except Failure (Kernel F) :=
  match kernel s d with
  | none => .error .indexOutOfRange
  | some sl =>
    if 0 ≤ zw ∧ zw < sl.size Z ∧ 0 ≤ yw ∧ yw < sl.size Y ∧ 0 ≤ xw ∧ xw < sl.size X then
      .ok (setEntry kernel s d (some
        { sl with
          data := fun z y x =>
            if z = zw ∧ y = yw ∧ x = xw then sl.data z y x + v else sl.data z y x }))
    else .error .indexOutOfRange

/-- The body of the `x` loop, lines 118-189. -/
def xBody (fuel : Nat) (env : MathEnv F) (size : Fin 3 → Int) (cellsize : Fin 3 → F)
    (L accuracy : F) (s : Fin 3) (z zw y yw x : Int) (kernel : Kernel F) :
    Except Failure (Kernel F) :=
  match wrap fuel x (size X) with
  | none => .error .outOfFuel
  | some xw =>
    match cellField env cellsize L accuracy s x y z with
    | .error e => .error e
    | .ok B => forEach (upFrom s) (fun d kernel => addAt kernel s d zw yw xw (B d)) kernel

/-- The body of the `y` loop, lines 114-190. -/
def yBody (fuel : Nat) (env : MathEnv F) (size : Fin 3 → Int) (cellsize : Fin 3 → F)
    (L accuracy : F) (rg : Ranges) (s : Fin 3) (z zw y : Int) (kernel : Kernel F) :
    Except Failure (Kernel F) :=
  match wrap fuel y (size Y) with
  | none => .error .outOfFuel
  | some yw =>
    forEach (intRange rg.x1 rg.x2) (xBody fuel env size cellsize L accuracy s z zw y yw) kernel

/-- The body of the `z` loop, lines 111-191. -/
def zBody (fuel : Nat) (env : MathEnv F) (size : Fin 3 → Int) (cellsize : Fin 3 → F)
    (L accuracy : F) (rg : Ranges) (s : Fin 3) (z : Int) (kernel : Kernel F) :
    Except Failure (Kernel F) :=
  match wrap fuel z (size Z) with
  | none => .error .outOfFuel
  | some zw =>
    forEach (intRange rg.y1 rg.y2) (yBody fuel env size cellsize L accuracy rg s z zw) kernel

/-- The body of the loop over the source direction `s`, lines 107-192. -/
def sBody (fuel : Nat) (env : MathEnv F) (size : Fin 3 → Int) (cellsize : Fin 3 → F)
    (L accuracy : F) (rg : Ranges) (s : Fin 3) (kernel : Kernel F) :
    Except Failure (Kernel F) :=
  forEach (intRange rg.z1 rg.z2) (zBody fuel env size cellsize L accuracy rg s) kernel

/-- The brute integration of lines 97-193: the nine nested loops. -/
def integrate (fuel : Nat) (env : MathEnv F) (size : Fin 3 → Int) (cellsize : Fin 3 → F)
    (pbc : Fin 3 → Int) (accuracy : F) (kernel : Kernel F) : Except Failure (Kernel F) :=
  let rg := ranges size pbc
  let L := lengthScale cellsize
  forEach (List.finRange 3) (sBody fuel env size cellsize L accuracy rg) kernel

/-- The last statements, lines 195-204:
```go
if size[0] == 1 {
	kernel[0][1] = nil
	kernel[0][2] = nil
}
kernel[1][0] = kernel[0][1]
kernel[2][0] = kernel[0][2]
kernel[2][1] = kernel[1][2]
return kernel
``` -/
def finish (size : Fin 3 → Int) (kernel : Kernel F) : Kernel F :=
  let kernel :=
    if size 0 = 1 then setEntry (setEntry kernel 0 1 none) 0 2 none else kernel
  let kernel := setEntry kernel 1 0 (kernel 0 1)
  let kernel := setEntry kernel 2 0 (kernel 0 2)
  let kernel := setEntry kernel 2 1 (kernel 1 2)
  kernel

/-- Calculates the magnetostatic kernel by brute-force integration of magnetic charges over the
faces and averages over cell volumes, `func BruteKernel(mesh *data.Mesh, accuracy float64)`.
`fuel` is the budget of each call of `wrap`. -/
def BruteKernel (fuel : Nat) (env : MathEnv F) (mesh : Mesh F) (accuracy : F) : Run F :=
  let mesh := paddedMesh mesh
  let size := mesh.size
  let cellsize := mesh.cellSize
  let pbc := mesh.pbc
  match sanityCheck size cellsize pbc accuracy with
  | .error e => { allocated := [], result := .error e }
  | .ok _ =>
    let (kernel, log) := allocate (F := F) size
    match integrate fuel env size cellsize pbc accuracy kernel with
    | .error e => { allocated := log, result := .error e }
    | .ok kernel => { allocated := log, result := .ok (finish size kernel) }

/-- First offset of the destination loop along axis `a`. -/
def Ranges.lo (rg : Ranges) : Fin 3 → Int :=
  vec3 rg.x1 rg.y1 rg.z1

/-- Last offset of the destination loop along axis `a`. -/
def Ranges.hi (rg : Ranges) : Fin 3 → Int :=
  vec3 rg.x2 rg.y2 rg.z2

/-! ## Example inputs -/

/-- The mesh of 4 x 4 x 1 cells of size (1, 1, 1) without periodicity. -/
def mesh441 : Mesh F :=
  { size := vec3 4 4 1, cellSize := vec3 1 1 1, pbc := vec3 0 0 0 }

/-- The mesh of 8 x 8 x 8 cells of size (1, 1, 1) without periodicity. -/
def mesh888 : Mesh F :=
  { size := vec3 8 8 8, cellSize := vec3 1 1 1, pbc := vec3 0 0 0 }

/-- The mesh of 2 x 2 x 1 cells of size (1, 1, 1) with one periodic repeat along X. -/
def meshPeriodicX : Mesh F :=
  { size := vec3 2 2 1, cellSize := vec3 1 1 1, pbc := vec3 1 0 0 }

/-! ## Reading the tensor -/

/-- Invariant of the integration: every entry of the upper triangle of the tensor holds an array of
the size of the kernel mesh. -/
def Allocated (size : Fin 3 → Int) (kernel : Kernel F) : Prop :=
  ∀ s d : Fin 3, s ≤ d → ∃ sl, kernel s d = some sl ∧ sl.size = size

/-- The value of the tensor component `(i, j)` at the array index `[z][y][x]`; a nil entry reads as
zero everywhere. -/
def valueAt (kernel : Kernel F) (i j : Fin 3) (z y x : Int) : F :=
  match kernel i j with
  | some sl => sl.data z y x
  | none => 0

/-- The field `B` computed for source direction `s` at the destination offset `(x, y, z)`, read
off `cellField`; zero where `cellField` fails. -/
def fieldAt [FloorRing F] (env : MathEnv F) (cellsize : Fin 3 → F) (L accuracy : F) (s : Fin 3)
    (x y z : Int) : Fin 3 → F :=
  match cellField env cellsize L accuracy s x y z with
  | .ok B => B
  | .error _ => fun _ => 0

/-! ## The sample points of the integration -/

/-- The coordinate `pv` (or `pw`) of the source-face sample point `i` of `n` along an axis of cell
size `c`, lines 149 and 152: `-(c / 2.) + c/float64(2*n) + float64(i)*(c/float64(n))`. -/
def facePoint (c : F) (n i : Int) : F :=
  -(c / 2) + c / ((2 * n : Int) : F) + ((i : Int) : F) * (c / ((n : Int) : F))

/-- The coordinate `rx` (or `ry`, `rz`) of the destination-volume sample point `k` of `n` along an
axis of cell size `c`, for the cell centre `R`, lines 157, 160 and 163:
`R - c/2 + c/float64(2*n) + (c/float64(n))*float64(k)`. -/
def volumePoint (R c : F) (n k : Int) : F :=
  R - c / 2 + c / ((2 * n : Int) : F) + (c / ((n : Int) : F)) * ((k : Int) : F)

/-- The distance `r` of lines 167-168 and 175-176 between the destination point `(rx, ry, rz)`
and the point charge at `pole`. -/
def poleDistance (env : MathEnv F) (pole : Fin 3 → F) (rx ry rz : F) : F :=
  let R2 : Fin 3 → F := vec3 (rx - pole X) (ry - pole Y) (rz - pole Z)
  env.sqrt (R2 X * R2 X + R2 Y * R2 Y + R2 Z * R2 Z)

/-! ## The spec's wording of the integration counts -/

/-- Rounding to the nearest integer, halves rounded up. -/
def roundHalfUp [FloorRing F] (q : F) : Int :=
  ⌊q + 1 / 2⌋

/-- The number of sub-divisions along an axis in the words of the spec,
`max(1, round(cell_size_axis / target_sub_cell_size))`, as a function of the quotient `q`. -/
def subdivisionsSpec [FloorRing F] (q : F) : Int :=
  max 1 (roundHalfUp q)

end Build

end Mag

namespace Mag

/-! ## The helper `wrap` -/

theorem wrapUp_of_nonneg (fuel : Nat) (number max : Int) (h : 0 ≤ number) :
    wrapUp fuel number max = some (number, fuel) := by
  cases fuel <;> simp [wrapUp, not_lt.mpr h]

theorem wrapUp_sub_mul (max r : Int) (hr : 0 ≤ r) (hr' : r < max) (fuel j : Nat) :
    wrapUp (fuel + j) (r - j * max) max = some (r, fuel) := by
  induction j with
  | zero => simpa using wrapUp_of_nonneg fuel r max hr
  | succ j ih =>
    have hmax : 0 < max := lt_of_le_of_lt hr hr'
    have hj : (0 : Int) ≤ (j : Int) * max := mul_nonneg (Int.ofNat_nonneg j) hmax.le
    have hneg : r - ((j + 1 : Nat) : Int) * max < 0 := by
      push_cast
      nlinarith
    have hstep : r - ((j + 1 : Nat) : Int) * max + max = r - (j : Int) * max := by
      push_cast
      ring
    rw [← Nat.add_assoc, wrapUp, if_pos hneg, hstep, ih]

theorem wrapDown_of_lt (fuel : Nat) (number max : Int) (h : number < max) :
    wrapDown fuel number max = some number := by
  cases fuel <;> simp [wrapDown, not_le.mpr h]

theorem wrapDown_add_mul (max r : Int) (hr : 0 ≤ r) (hr' : r < max) (fuel j : Nat) :
    wrapDown (fuel + j) (r + j * max) max = some r := by
  induction j with
  | zero => simpa using wrapDown_of_lt fuel r max hr'
  | succ j ih =>
    have hmax : 0 < max := lt_of_le_of_lt hr hr'
    have hj : (0 : Int) ≤ (j : Int) * max := mul_nonneg (Int.ofNat_nonneg j) hmax.le
    have hge : r + ((j + 1 : Nat) : Int) * max ≥ max := by
      push_cast
      nlinarith
    have hstep : r + ((j + 1 : Nat) : Int) * max - max = r + (j : Int) * max := by
      push_cast
      ring
    rw [← Nat.add_assoc, wrapDown, if_pos hge, hstep, ih]

/-- With `max > 0` and at least `|number / max|` loop-body executions allowed (`/` rounding down),
`wrap` returns the non-negative remainder of `number` modulo `max`. -/
theorem wrap_eq_emod (fuel : Nat) (number max : Int) (hmax : 0 < max)
    (hfuel : (number / max).natAbs ≤ fuel) : wrap fuel number max = some (number % max) := by
  have hr : 0 ≤ number % max := Int.emod_nonneg _ hmax.ne'
  have hr' : number % max < max := Int.emod_lt_of_pos _ hmax
  obtain ⟨extra, rfl⟩ := Nat.exists_eq_add_of_le' hfuel
  rcases le_total 0 (number / max) with hq | hq
  · have hnum : number = number % max + ((number / max).natAbs : Int) * max := by
      rw [Int.natAbs_of_nonneg hq]
      have := Int.emod_add_ediv number max
      linarith [mul_comm max (number / max)]
    have h0 : 0 ≤ number := by
      rw [hnum]
      exact add_nonneg hr (mul_nonneg (Int.ofNat_nonneg _) hmax.le)
    unfold wrap
    rw [wrapUp_of_nonneg _ _ _ h0]
    have key := wrapDown_add_mul max (number % max) hr hr' extra (number / max).natAbs
    rw [← hnum] at key
    exact key
  · have hnum : number = number % max - ((number / max).natAbs : Int) * max := by
      rw [Int.ofNat_natAbs_of_nonpos hq]
      have := Int.emod_add_ediv number max
      linarith [mul_comm max (number / max)]
    unfold wrap
    have hup : wrapUp (extra + (number / max).natAbs) number max = some (number % max, extra) := by
      have key := wrapUp_sub_mul max (number % max) hr hr' extra (number / max).natAbs
      rw [← hnum] at key
      exact key
    rw [hup]
    exact wrapDown_of_lt _ _ _ hr'

theorem wrapUp_some (max : Int) (fuel : Nat) :
    ∀ (number r : Int) (f : Nat), wrapUp fuel number max = some (r, f) →
      0 ≤ r ∧ r % max = number % max ∧ (number < 0 → r < max) ∧ (0 ≤ number → r = number) := by
  induction fuel with
  | zero =>
    intro number r f h
    by_cases hn : number < 0
    · simp [wrapUp, hn] at h
    · simp only [wrapUp, if_neg hn, Option.some.injEq, Prod.mk.injEq] at h
      obtain ⟨rfl, -⟩ := h
      exact ⟨not_lt.mp hn, rfl, fun h => absurd h hn, fun _ => rfl⟩
  | succ fuel ih =>
    intro number r f h
    by_cases hn : number < 0
    · rw [wrapUp, if_pos hn] at h
      obtain ⟨h1, h2, h3, h4⟩ := ih _ _ _ h
      refine ⟨h1, ?_, fun _ => ?_, fun h0 => absurd hn (not_lt.mpr h0)⟩
      · rw [h2, Int.add_emod_self]
      · rcases lt_or_le (number + max) 0 with hlt | hge
        · exact h3 hlt
        · rw [h4 hge]
          linarith
    · simp only [wrapUp, if_neg hn, Option.some.injEq, Prod.mk.injEq] at h
      obtain ⟨rfl, -⟩ := h
      exact ⟨not_lt.mp hn, rfl, fun h => absurd h hn, fun _ => rfl⟩

theorem wrapDown_some (max : Int) (fuel : Nat) :
    ∀ (number r : Int), wrapDown fuel number max = some r →
      r < max ∧ r % max = number % max ∧ (0 < max → 0 ≤ number → 0 ≤ r) := by
  induction fuel with
  | zero =>
    intro number r h
    by_cases hn : number ≥ max
    · simp [wrapDown, hn] at h
    · simp only [wrapDown, if_neg hn, Option.some.injEq] at h
      subst h
      exact ⟨not_le.mp hn, rfl, fun _ h => h⟩
  | succ fuel ih =>
    intro number r h
    by_cases hn : number ≥ max
    · rw [wrapDown, if_pos hn] at h
      obtain ⟨h1, h2, h3⟩ := ih _ _ h
      refine ⟨h1, ?_, fun hmax h0 => h3 hmax (by linarith)⟩
      rw [h2, Int.sub_emod, Int.emod_self, sub_zero, Int.emod_emod]
    · simp only [wrapDown, if_neg hn, Option.some.injEq] at h
      subst h
      exact ⟨not_le.mp hn, rfl, fun _ h => h⟩

/-- Whatever `wrap` returns for `max > 0` is the non-negative remainder modulo `max`. -/
theorem wrap_some (fuel : Nat) (number max r : Int) (hmax : 0 < max)
    (h : wrap fuel number max = some r) : r = number % max := by
  unfold wrap at h
  cases hup : wrapUp fuel number max with
  | none => simp [hup] at h
  | some p =>
    obtain ⟨n1, f1⟩ := p
    simp only [hup] at h
    obtain ⟨a1, a2, -, -⟩ := wrapUp_some max fuel number n1 f1 hup
    obtain ⟨b1, b2, b3⟩ := wrapDown_some max f1 n1 r h
    rw [← a2, ← b2]
    exact (Int.emod_eq_of_lt (b3 hmax a1) b1).symm

end Mag
namespace Mag

theorem finRange_three : List.finRange 3 = [0, 1, 2] := by decide

theorem padSize_apply (size periodic : Fin 3 → Int) (i : Fin 3) :
    padSize size periodic i = if periodic i = 0 ∧ size i > 1 then size i * 2 else size i := by
  unfold padSize
  rw [finRange_three]
  simp only [List.foldl_cons, List.foldl_nil]
  by_cases h0 : periodic 0 = 0 ∧ size 0 > 1 <;> by_cases h1 : periodic 1 = 0 ∧ size 1 > 1 <;>
    by_cases h2 : periodic 2 = 0 ∧ size 2 > 1 <;> fin_cases i <;>
    simp [Function.update_apply, h0, h1, h2]

end Mag
namespace Mag

/-! ## Claims on the helpers -/

/-- C4: on each axis `i`, `padSize` returns `2 * size[i]` when `periodic[i] == 0` and
`size[i] > 1`, and `size[i]` unchanged when `periodic[i] != 0` or `size[i] <= 1`; sizes (4,4,1)
and (8,8,8) without periodicity give (8,8,1) and (16,16,16). -/
theorem padSize_spec :
    (∀ (size periodic : Fin 3 → Int) (i : Fin 3),
      (periodic i = 0 ∧ size i > 1 → padSize size periodic i = 2 * size i) ∧
      (periodic i ≠ 0 ∨ size i ≤ 1 → padSize size periodic i = size i)) ∧
    padSize (vec3 4 4 1) (vec3 0 0 0) = vec3 8 8 1 ∧
    padSize (vec3 8 8 8) (vec3 0 0 0) = vec3 16 16 16 := by
  refine ⟨fun size periodic i => ⟨fun h => ?_, fun h => ?_⟩, by decide, by decide⟩
  · rw [padSize_apply, if_pos h, mul_comm]
  · rw [padSize_apply, if_neg]
    rintro ⟨h1, h2⟩
    rcases h with h | h
    · exact h h1
    · exact absurd h2 (not_lt.mpr h)

/-- C5: for `n > 0`, the calls `wrap(k, n)`, `wrap(k + n, n)` and `wrap(k + m*n, n)` all return,
and return the same index `r`; each call returns as soon as it is allowed `|j / n|` loop-body
executions, `j` its first argument. -/
theorem wrap_add_mul (k n m : Int) (hn : 0 < n) :
    ∃ r : Int,
      (∀ fuel, (k / n).natAbs ≤ fuel → wrap fuel k n = some r) ∧
      (∀ fuel, ((k + n) / n).natAbs ≤ fuel → wrap fuel (k + n) n = some r) ∧
      (∀ fuel, ((k + m * n) / n).natAbs ≤ fuel → wrap fuel (k + m * n) n = some r) := by
  refine ⟨k % n, fun fuel h => wrap_eq_emod fuel k n hn h, fun fuel h => ?_, fun fuel h => ?_⟩
  · rw [wrap_eq_emod fuel (k + n) n hn h, Int.add_emod_self]
  · rw [wrap_eq_emod fuel (k + m * n) n hn h, Int.add_mul_emod_self]

/-- Witness for C5 at `k = -3`, `n = 8`, `m = 2`. -/
theorem wrap_add_mul_witness :
    ∃ r : Int,
      (∀ fuel, ((-3 : Int) / 8).natAbs ≤ fuel → wrap fuel (-3) 8 = some r) ∧
      (∀ fuel, (((-3 : Int) + 8) / 8).natAbs ≤ fuel → wrap fuel (-3 + 8) 8 = some r) ∧
      (∀ fuel, (((-3 : Int) + 2 * 8) / 8).natAbs ≤ fuel → wrap fuel (-3 + 2 * 8) 8 = some r) :=
  wrap_add_mul (-3) 8 2 (by decide)

/-- C6: for `n > 0`, `wrap(k, n)` returns (as soon as it is allowed `|k / n|` loop-body
executions, and never anything else) an index `r` with `0 <= r < n` that differs from `k` by a
multiple of `n`: the non-negative remainder `k mod n`. -/
theorem wrap_spec (k n : Int) (hn : 0 < n) :
    ∃ r : Int,
      (∀ fuel, (k / n).natAbs ≤ fuel → wrap fuel k n = some r) ∧
      (∀ fuel r', wrap fuel k n = some r' → r' = r) ∧
      0 ≤ r ∧ r < n ∧ (∃ q : Int, k - r = q * n) ∧ r = k % n := by
  refine ⟨k % n, fun fuel h => wrap_eq_emod fuel k n hn h, fun fuel r' h => wrap_some fuel k n r' hn h,
    Int.emod_nonneg _ hn.ne', Int.emod_lt_of_pos _ hn, ⟨k / n, ?_⟩, rfl⟩
  have := Int.emod_add_ediv k n
  linarith [mul_comm n (k / n)]

/-- Witness for C6 at `k = -3`, `n = 8`. -/
theorem wrap_spec_witness :
    ∃ r : Int,
      (∀ fuel, ((-3 : Int) / 8).natAbs ≤ fuel → wrap fuel (-3) 8 = some r) ∧
      (∀ fuel r', wrap fuel (-3) 8 = some r' → r' = r) ∧
      0 ≤ r ∧ r < 8 ∧ (∃ q : Int, -3 - r = q * 8) ∧ r = -3 % 8 :=
  wrap_spec (-3) 8 (by decide)

section

variable {F : Type} [LinearOrderedField F]

/-- On unbounded integers `delta d` is `max(|d| - 1, 0)`. -/
theorem delta_eq_max (d : Int) : (delta d : F) = ((max (|d| - 1) 0 : Int) : F) := by
  simp only [delta]
  congr 1
  rcases lt_trichotomy d 0 with h | h | h
  · have h1 : -d > 0 := by omega
    rw [if_pos h, if_pos h1, abs_of_neg h, max_eq_left (by omega)]
  · subst h
    simp
  · have h1 : ¬ d < 0 := by omega
    rw [if_neg h1, if_pos h, abs_of_pos h, max_eq_left (by omega)]

end

end Mag
namespace Mag

/-! ## Loops and ranges -/

theorem mem_intRange (lo hi x : Int) : x ∈ intRange lo hi ↔ lo ≤ x ∧ x ≤ hi := by
  unfold intRange
  simp only [List.mem_map, List.mem_range]
  constructor
  · rintro ⟨k, hk, rfl⟩
    omega
  · rintro ⟨h1, h2⟩
    exact ⟨(x - lo).toNat, by omega, by omega⟩

theorem nodup_intRange (lo hi : Int) : (intRange lo hi).Nodup := by
  unfold intRange
  refine (List.nodup_range _).map ?_
  intro a b h
  simpa using h

theorem upFrom_eq (s : Fin 3) :
    upFrom s = if s = 0 then [0, 1, 2] else if s = 1 then [1, 2] else [2] := by
  fin_cases s <;> decide

theorem mem_upFrom (s d : Fin 3) : d ∈ upFrom s ↔ s ≤ d := by
  simp [upFrom, List.mem_filter]

/-- A loop returns, in a state satisfying `P`, when `P` holds at entry and every iteration
started in a state satisfying `P` returns in such a state. -/
theorem forEach_ok {α σ : Type} (P : σ → Prop) (body : α → σ → Except Failure σ) :
    ∀ (xs : List α) (init : σ), P init →
      (∀ a ∈ xs, ∀ st, P st → ∃ st', body a st = .ok st' ∧ P st') →
      ∃ fin, forEach xs body init = .ok fin ∧ P fin := by
  intro xs
  induction xs with
  | nil => exact fun init h0 _ => ⟨init, rfl, h0⟩
  | cons a rest ih =>
    intro init h0 hstep
    obtain ⟨st', hb, hP⟩ := hstep a (List.mem_cons_self _ _) init h0
    obtain ⟨fin, hf, hPf⟩ := ih st' hP (fun b hb st hst => hstep b (List.mem_cons_of_mem _ hb) st hst)
    exact ⟨fin, by simp [forEach, hb, hf], hPf⟩

/-- A property of the state that every iteration preserves holds when the loop returns. -/
theorem forEach_inv {α σ : Type} (P : σ → Prop) (body : α → σ → Except Failure σ) :
    ∀ (xs : List α) (init fin : σ), P init →
      (∀ a ∈ xs, ∀ st st', P st → body a st = .ok st' → P st') →
      forEach xs body init = .ok fin → P fin := by
  intro xs
  induction xs with
  | nil =>
    intro init fin h0 _ h
    simp only [forEach, Except.ok.injEq] at h
    exact h ▸ h0
  | cons a rest ih =>
    intro init fin h0 hstep h
    cases hb : body a init with
    | error e => simp [forEach, hb] at h
    | ok st' =>
      simp only [forEach, hb] at h
      exact ih st' fin (hstep a (List.mem_cons_self _ _) init st' h0 hb)
        (fun b hb st st'' hst => hstep b (List.mem_cons_of_mem _ hb) st st'' hst) h

end Mag
namespace Mag

/-! ## Entry checks, allocation and termination of the build -/

theorem vec3_eta {α : Type} (f : Fin 3 → α) : vec3 (f X) (f Y) (f Z) = f := by
  funext i
  fin_cases i <;> simp [vec3, X, Y, Z]

theorem quot_bound (n x b : Int) (hn : 0 < n) (h1 : -(n * b) < x) (h2 : x < n * b) :
    (x / n).natAbs ≤ b.natAbs := by
  have hr := Int.emod_nonneg x hn.ne'
  have hr' := Int.emod_lt_of_pos x hn
  have hx := Int.emod_add_ediv x n
  have hq1 : x / n < b := by
    by_contra hc
    have : n * b ≤ n * (x / n) := mul_le_mul_of_nonneg_left (not_lt.mp hc) hn.le
    linarith
  have hq2 : -b - 1 < x / n := by
    by_contra hc
    have : n * (x / n) ≤ n * (-b - 1) := mul_le_mul_of_nonneg_left (not_lt.mp hc) hn.le
    nlinarith
  omega

theorem tdiv_open (n : Int) (hn : 1 ≤ n) :
    Int.tdiv (-(n - 1)) 2 = -((n - 1) / 2) ∧ Int.tdiv (n - 1) 2 = (n - 1) / 2 := by
  have h : Int.tdiv (n - 1) 2 = (n - 1) / 2 := Int.tdiv_eq_ediv (by omega) (by decide)
  exact ⟨by rw [Int.neg_tdiv, h], h⟩

theorem paddedMesh_size {F : Type} (mesh : Mesh F) :
    (paddedMesh mesh).size = padSize mesh.size mesh.pbc := by
  simp [paddedMesh, vec3_eta]

theorem paddedMesh_cellSize {F : Type} (mesh : Mesh F) : (paddedMesh mesh).cellSize = mesh.cellSize := by
  simp [paddedMesh, vec3_eta]

theorem paddedMesh_pbc {F : Type} (mesh : Mesh F) : (paddedMesh mesh).pbc = mesh.pbc := rfl

section

variable {F : Type} [LinearOrderedField F]

theorem sanityCheck_ok_iff (size : Fin 3 → Int) (cellsize : Fin 3 → F) (pbc : Fin 3 → Int)
    (accuracy : F) :
    sanityCheck size cellsize pbc accuracy = .ok () ↔
      (size Z ≥ 1 ∧ size Y ≥ 2 ∧ size X ≥ 2) ∧
      (cellsize X > 0 ∧ cellsize Y > 0 ∧ cellsize Z > 0) ∧
      (pbc X ≥ 0 ∧ pbc Y ≥ 0 ∧ pbc Z ≥ 0) ∧ accuracy > 0 ∧
      (Int.tmod (size X) 2 = 0 ∧ Int.tmod (size Y) 2 = 0) ∧
      (size Z > 1 → Int.tmod (size Z) 2 = 0) := by
  unfold sanityCheck
  constructor
  · intro h
    split_ifs at h with h1 h2 h3 h4 h5 h6 h7
    · exact ⟨h1, h2, h3, h4, h5, fun _ => h7⟩
    · exact ⟨h1, h2, h3, h4, h5, fun h' => absurd h' h6⟩
  · rintro ⟨h1, h2, h3, h4, h5, h6⟩
    rw [if_neg (not_not.mpr h1), if_neg (not_not.mpr h2), if_neg (not_not.mpr h3),
      if_neg (not_not.mpr h4), if_neg (not_not.mpr h5)]
    split_ifs with h7 h8
    · rfl
    · exact absurd (h6 h7) h8
    · rfl

theorem allocate_fst (size : Fin 3 → Int) (i j : Fin 3) :
    (allocate (F := F) size).1 i j = if i ≤ j then some (NewSlice size) else none := by
  unfold allocate
  rw [finRange_three]
  simp only [List.foldl_cons, List.foldl_nil, upFrom_eq]
  fin_cases i <;> fin_cases j <;> simp [setEntry]

theorem allocate_snd (size : Fin 3 → Int) :
    (allocate (F := F) size).2 = [(0, 0), (0, 1), (0, 2), (1, 1), (1, 2), (2, 2)] := by
  unfold allocate
  rw [finRange_three]
  simp [upFrom_eq]

theorem subdivisions_pos [FloorRing F] (c m : F) : 1 ≤ subdivisions c m := by
  unfold subdivisions toInt
  have h : (1 : F) ≤ max (c / m) 1 + 1 / 2 := by
    have h1 := le_max_right (c / m) 1
    have h2 : (0 : F) ≤ 1 / 2 := by positivity
    linarith
  rw [if_pos (by linarith)]
  exact Int.le_floor.mpr (by simpa using h)

end

end Mag
namespace Mag

theorem ranges_eq (size pbc : Fin 3 → Int) :
    ranges size pbc =
      { x1 := if pbc X = 0 then Int.tdiv (-(size X - 1)) 2 else -(size X * pbc X - 1)
        x2 := if pbc X = 0 then Int.tdiv (size X - 1) 2 else size X * pbc X - 1
        y1 := if pbc Y = 0 then Int.tdiv (-(size Y - 1)) 2 else -(size Y * pbc Y - 1)
        y2 := if pbc Y = 0 then Int.tdiv (size Y - 1) 2 else size Y * pbc Y - 1
        z1 := if pbc Z = 0 then Int.tdiv (-(size Z - 1)) 2 else -(size Z * pbc Z - 1)
        z2 := if size Z = 1 ∧ pbc Z = 0 then 0
          else if pbc Z = 0 then Int.tdiv (size Z - 1) 2 else size Z * pbc Z - 1 } := by
  unfold ranges
  by_cases hx : pbc X = 0 <;> by_cases hy : pbc Y = 0 <;> by_cases hz : pbc Z = 0 <;>
    simp [hx, hy, hz]

/-- Along an axis of `n >= 1` cells with `p >= 0` repeats, every offset between the loop bounds
needs at most `max 1 p` loop-body executions of `wrap`. -/
theorem axis_fuel (n p x : Int) (fuel : Nat) (hn : 1 ≤ n) (hp : 0 ≤ p) (h1 : 1 ≤ fuel)
    (hpf : p ≤ fuel)
    (hlo : (if p = 0 then Int.tdiv (-(n - 1)) 2 else -(n * p - 1)) ≤ x)
    (hhi : x ≤ if p = 0 then Int.tdiv (n - 1) 2 else n * p - 1) :
    (x / n).natAbs ≤ fuel := by
  by_cases h0 : p = 0
  · rw [if_pos h0, (tdiv_open n hn).1] at hlo
    rw [if_pos h0, (tdiv_open n hn).2] at hhi
    have := quot_bound n x 1 (by omega) (by omega) (by omega)
    simpa using le_trans this h1
  · rw [if_neg h0] at hlo hhi
    have := quot_bound n x p (by omega) (by omega) (by omega)
    omega

end Mag
namespace Mag

section

variable {F : Type} [LinearOrderedField F]

theorem allocated_allocate (size : Fin 3 → Int) : Allocated size (allocate (F := F) size).1 := by
  intro s d hsd
  exact ⟨NewSlice size, by rw [allocate_fst, if_pos hsd], rfl⟩

/-- The effect of `array[s][d][zw][yw][xw] += v` on the values of the tensor. -/
theorem addAt_value (kernel kernel' : Kernel F) (s d : Fin 3) (zw yw xw : Int) (v : F)
    (h : addAt kernel s d zw yw xw v = .ok kernel') (i j : Fin 3) (z y x : Int) :
    valueAt kernel' i j z y x =
      valueAt kernel i j z y x +
        (if i = s ∧ j = d ∧ z = zw ∧ y = yw ∧ x = xw then v else 0) := by
  unfold addAt at h
  cases hk : kernel s d with
  | none => simp [hk] at h
  | some sl =>
    simp only [hk] at h
    split_ifs at h with hb
    simp only [Except.ok.injEq] at h
    subst h
    unfold valueAt setEntry
    by_cases hij : i = s ∧ j = d
    · obtain ⟨rfl, rfl⟩ := hij
      by_cases hidx : z = zw ∧ y = yw ∧ x = xw
      · simp [hk, hidx]
      · simp [hk, hidx]
    · have hij' : ¬ (i = s ∧ j = d ∧ z = zw ∧ y = yw ∧ x = xw) := fun hc => hij ⟨hc.1, hc.2.1⟩
      simp [hij, hij']

theorem addAt_allocated (size : Fin 3 → Int) (kernel kernel' : Kernel F) (s d : Fin 3)
    (zw yw xw : Int) (v : F) (hk : Allocated size kernel)
    (h : addAt kernel s d zw yw xw v = .ok kernel') : Allocated size kernel' := by
  unfold addAt at h
  cases hsd : kernel s d with
  | none => simp [hsd] at h
  | some sl =>
    simp only [hsd] at h
    split_ifs at h with hb
    simp only [Except.ok.injEq] at h
    subst h
    intro a b hab
    obtain ⟨sl', h1, h2⟩ := hk a b hab
    unfold setEntry
    by_cases hij : a = s ∧ b = d
    · obtain ⟨rfl, rfl⟩ := hij
      rw [hsd] at h1
      simp only [Option.some.injEq] at h1
      subst h1
      exact ⟨_, if_pos ⟨rfl, rfl⟩, h2⟩
    · exact ⟨sl', by simp [hij, h1], h2⟩

theorem addAt_ok (size : Fin 3 → Int) (kernel : Kernel F) (s d : Fin 3) (zw yw xw : Int) (v : F)
    (hk : Allocated size kernel) (hsd : s ≤ d) (hz : 0 ≤ zw ∧ zw < size Z)
    (hy : 0 ≤ yw ∧ yw < size Y) (hx : 0 ≤ xw ∧ xw < size X) :
    ∃ kernel', addAt kernel s d zw yw xw v = .ok kernel' ∧ Allocated size kernel' := by
  obtain ⟨sl, h1, h2⟩ := hk s d hsd
  have hb : 0 ≤ zw ∧ zw < sl.size Z ∧ 0 ≤ yw ∧ yw < sl.size Y ∧ 0 ≤ xw ∧ xw < sl.size X := by
    rw [h2]
    exact ⟨hz.1, hz.2, hy.1, hy.2, hx.1, hx.2⟩
  have h : addAt kernel s d zw yw xw v = .ok (setEntry kernel s d (some
        { sl with
          data := fun z y x =>
            if z = zw ∧ y = yw ∧ x = xw then sl.data z y x + v else sl.data z y x })) := by
    unfold addAt
    simp only [h1]
    rw [if_pos hb]
  exact ⟨_, h, addAt_allocated size kernel _ s d zw yw xw v hk h⟩

variable [FloorRing F]

/-- The assertion of line 138 never fails: every count is at least one. -/
theorem cellField_eq (env : MathEnv F) (cellsize : Fin 3 → F) (L accuracy : F) (s : Fin 3)
    (x y z : Int) :
    cellField env cellsize L accuracy s x y z =
      .ok (integral env cellsize s ((x : F) * cellsize X) ((y : F) * cellsize Y)
        ((z : F) * cellsize Z)
        (subdivisions (cellsize (s + 1)) (refDistance env cellsize L x y z / accuracy) * 2)
        (subdivisions (cellsize (s + 2)) (refDistance env cellsize L x y z / accuracy) * 2)
        (subdivisions (cellsize X) (refDistance env cellsize L x y z / accuracy))
        (subdivisions (cellsize Y) (refDistance env cellsize L x y z / accuracy))
        (subdivisions (cellsize Z) (refDistance env cellsize L x y z / accuracy))) := by
  have hv := subdivisions_pos (cellsize (s + 1)) (refDistance env cellsize L x y z / accuracy)
  have hw := subdivisions_pos (cellsize (s + 2)) (refDistance env cellsize L x y z / accuracy)
  have hx := subdivisions_pos (cellsize X) (refDistance env cellsize L x y z / accuracy)
  have hy := subdivisions_pos (cellsize Y) (refDistance env cellsize L x y z / accuracy)
  have hz := subdivisions_pos (cellsize Z) (refDistance env cellsize L x y z / accuracy)
  unfold cellField
  simp only []
  rw [if_neg]
  rw [not_not]
  refine ⟨?_, ?_, ?_, ?_, ?_⟩ <;> omega

end

end Mag
namespace Mag

section

variable {F : Type} [LinearOrderedField F] [FloorRing F]

theorem xBody_ok (fuel : Nat) (env : MathEnv F) (size : Fin 3 → Int) (cellsize : Fin 3 → F)
    (L accuracy : F) (s : Fin 3) (z zw y yw x : Int) (kernel : Kernel F)
    (hk : Allocated size kernel) (hn : 0 < size X) (hf : (x / size X).natAbs ≤ fuel)
    (hz : 0 ≤ zw ∧ zw < size Z) (hy : 0 ≤ yw ∧ yw < size Y) :
    ∃ kernel', xBody fuel env size cellsize L accuracy s z zw y yw x kernel = .ok kernel' ∧
      Allocated size kernel' := by
  unfold xBody
  rw [wrap_eq_emod fuel x (size X) hn hf, cellField_eq]
  refine forEach_ok (Allocated size) _ _ kernel hk (fun d hd st hst => ?_)
  exact addAt_ok size st s d zw yw (x % size X) _ hst ((mem_upFrom s d).mp hd) hz hy
    ⟨Int.emod_nonneg _ hn.ne', Int.emod_lt_of_pos _ hn⟩

theorem yBody_ok (fuel : Nat) (env : MathEnv F) (size : Fin 3 → Int) (cellsize : Fin 3 → F)
    (L accuracy : F) (rg : Ranges) (s : Fin 3) (z zw y : Int) (kernel : Kernel F)
    (hk : Allocated size kernel) (hnx : 0 < size X) (hny : 0 < size Y)
    (hfx : ∀ x ∈ intRange rg.x1 rg.x2, (x / size X).natAbs ≤ fuel)
    (hf : (y / size Y).natAbs ≤ fuel) (hz : 0 ≤ zw ∧ zw < size Z) :
    ∃ kernel', yBody fuel env size cellsize L accuracy rg s z zw y kernel = .ok kernel' ∧
      Allocated size kernel' := by
  unfold yBody
  rw [wrap_eq_emod fuel y (size Y) hny hf]
  refine forEach_ok (Allocated size) _ _ kernel hk (fun x hx st hst => ?_)
  exact xBody_ok fuel env size cellsize L accuracy s z zw y _ x st hst hnx (hfx x hx) hz
    ⟨Int.emod_nonneg _ hny.ne', Int.emod_lt_of_pos _ hny⟩

theorem zBody_ok (fuel : Nat) (env : MathEnv F) (size : Fin 3 → Int) (cellsize : Fin 3 → F)
    (L accuracy : F) (rg : Ranges) (s : Fin 3) (z : Int) (kernel : Kernel F)
    (hk : Allocated size kernel) (hnx : 0 < size X) (hny : 0 < size Y) (hnz : 0 < size Z)
    (hfx : ∀ x ∈ intRange rg.x1 rg.x2, (x / size X).natAbs ≤ fuel)
    (hfy : ∀ y ∈ intRange rg.y1 rg.y2, (y / size Y).natAbs ≤ fuel)
    (hf : (z / size Z).natAbs ≤ fuel) :
    ∃ kernel', zBody fuel env size cellsize L accuracy rg s z kernel = .ok kernel' ∧
      Allocated size kernel' := by
  unfold zBody
  rw [wrap_eq_emod fuel z (size Z) hnz hf]
  refine forEach_ok (Allocated size) _ _ kernel hk (fun y hy st hst => ?_)
  exact yBody_ok fuel env size cellsize L accuracy rg s z _ y st hst hnx hny hfx (hfy y hy)
    ⟨Int.emod_nonneg _ hnz.ne', Int.emod_lt_of_pos _ hnz⟩

theorem sBody_ok (fuel : Nat) (env : MathEnv F) (size : Fin 3 → Int) (cellsize : Fin 3 → F)
    (L accuracy : F) (rg : Ranges) (s : Fin 3) (kernel : Kernel F)
    (hk : Allocated size kernel) (hnx : 0 < size X) (hny : 0 < size Y) (hnz : 0 < size Z)
    (hfx : ∀ x ∈ intRange rg.x1 rg.x2, (x / size X).natAbs ≤ fuel)
    (hfy : ∀ y ∈ intRange rg.y1 rg.y2, (y / size Y).natAbs ≤ fuel)
    (hfz : ∀ z ∈ intRange rg.z1 rg.z2, (z / size Z).natAbs ≤ fuel) :
    ∃ kernel', sBody fuel env size cellsize L accuracy rg s kernel = .ok kernel' ∧
      Allocated size kernel' := by
  unfold sBody
  refine forEach_ok (Allocated size) _ _ kernel hk (fun z hz st hst => ?_)
  exact zBody_ok fuel env size cellsize L accuracy rg s z st hst hnx hny hnz hfx hfy (hfz z hz)

/-- Offsets inside the loop ranges need at most `fuel` loop-body executions of `wrap` when `fuel`
is at least one and at least every number of repeats. -/
theorem ranges_fuel (size pbc : Fin 3 → Int) (fuel : Nat)
    (hsize : ∀ a, 1 ≤ size a) (hpbc : ∀ a, 0 ≤ pbc a) (h1 : 1 ≤ fuel)
    (hp : ∀ a, pbc a ≤ fuel) :
    (∀ x ∈ intRange (ranges size pbc).x1 (ranges size pbc).x2, (x / size X).natAbs ≤ fuel) ∧
    (∀ y ∈ intRange (ranges size pbc).y1 (ranges size pbc).y2, (y / size Y).natAbs ≤ fuel) ∧
    (∀ z ∈ intRange (ranges size pbc).z1 (ranges size pbc).z2, (z / size Z).natAbs ≤ fuel) := by
  rw [ranges_eq]
  refine ⟨fun x hx => ?_, fun y hy => ?_, fun z hz => ?_⟩
  · rw [mem_intRange] at hx
    exact axis_fuel (size X) (pbc X) x fuel (hsize X) (hpbc X) h1 (hp X) hx.1 hx.2
  · rw [mem_intRange] at hy
    exact axis_fuel (size Y) (pbc Y) y fuel (hsize Y) (hpbc Y) h1 (hp Y) hy.1 hy.2
  · rw [mem_intRange] at hz
    refine axis_fuel (size Z) (pbc Z) z fuel (hsize Z) (hpbc Z) h1 (hp Z) hz.1 (le_trans hz.2 ?_)
    show (if size Z = 1 ∧ pbc Z = 0 then 0
      else if pbc Z = 0 then Int.tdiv (size Z - 1) 2 else size Z * pbc Z - 1) ≤ _
    by_cases h : size Z = 1 ∧ pbc Z = 0
    · rw [if_pos h, if_pos h.2, h.1]
      decide
    · rw [if_neg h]

theorem integrate_ok (fuel : Nat) (env : MathEnv F) (size : Fin 3 → Int) (cellsize : Fin 3 → F)
    (pbc : Fin 3 → Int) (accuracy : F) (kernel : Kernel F) (hk : Allocated size kernel)
    (hsize : ∀ a, 1 ≤ size a) (hpbc : ∀ a, 0 ≤ pbc a) (h1 : 1 ≤ fuel)
    (hp : ∀ a, pbc a ≤ fuel) :
    ∃ kernel', integrate fuel env size cellsize pbc accuracy kernel = .ok kernel' ∧
      Allocated size kernel' := by
  obtain ⟨hfx, hfy, hfz⟩ := ranges_fuel size pbc fuel hsize hpbc h1 hp
  unfold integrate
  refine forEach_ok (Allocated size) _ _ kernel hk (fun s _ st hst => ?_)
  exact sBody_ok fuel env size cellsize _ accuracy _ s st hst (hsize X) (hsize Y) (hsize Z)
    hfx hfy hfz

theorem forall_fin3 (P : Fin 3 → Prop) (hx : P X) (hy : P Y) (hz : P Z) : ∀ a, P a := by
  intro a
  fin_cases a
  · exact hx
  · exact hy
  · exact hz

/-- A run that passes the sanity check returns a tensor when every call of `wrap` is allowed
`fuel >= 1` loop-body executions, `fuel` at least every number of periodic repeats: the tensor
is `finish` applied to the result of the integration, and the six arrays of the upper triangle
were allocated. -/
theorem BruteKernel_returns (fuel : Nat) (env : MathEnv F) (mesh : Mesh F) (accuracy : F)
    (hs : sanityCheck (paddedMesh mesh).size (paddedMesh mesh).cellSize (paddedMesh mesh).pbc
      accuracy = .ok ())
    (h1 : 1 ≤ fuel) (hp : ∀ a, mesh.pbc a ≤ fuel) :
    ∃ kernel,
      integrate fuel env (paddedMesh mesh).size (paddedMesh mesh).cellSize (paddedMesh mesh).pbc
        accuracy (allocate (paddedMesh mesh).size).1 = .ok kernel ∧
      Allocated (paddedMesh mesh).size kernel ∧
      (BruteKernel fuel env mesh accuracy).result = .ok (finish (paddedMesh mesh).size kernel) ∧
      (BruteKernel fuel env mesh accuracy).allocated =
        [(0, 0), (0, 1), (0, 2), (1, 1), (1, 2), (2, 2)] := by
  have hc := (sanityCheck_ok_iff _ _ _ _).mp hs
  obtain ⟨⟨hz, hy, hx⟩, -, ⟨px, py, pz⟩, -⟩ := hc
  have hsize : ∀ a, 1 ≤ (paddedMesh mesh).size a :=
    forall_fin3 _ (by omega) (by omega) (by omega)
  have hpbc : ∀ a, 0 ≤ (paddedMesh mesh).pbc a := forall_fin3 _ px py pz
  obtain ⟨kernel, hk, hal⟩ := integrate_ok fuel env (paddedMesh mesh).size
    (paddedMesh mesh).cellSize (paddedMesh mesh).pbc accuracy _
    (allocated_allocate (paddedMesh mesh).size) hsize hpbc h1 hp
  refine ⟨kernel, hk, hal, ?_, ?_⟩
  · unfold BruteKernel
    simp only [hs, hk]
  · unfold BruteKernel
    simp only [hs, hk, allocate_snd]

end

end Mag
namespace Mag

/-! ## Claims on the entry checks and on the returned tensor -/

theorem finish_symm {F : Type} (size : Fin 3 → Int) (kernel : Kernel F) (i j : Fin 3) :
    finish size kernel i j = finish size kernel j i := by
  unfold finish
  by_cases h : size 0 = 1 <;> fin_cases i <;> fin_cases j <;> simp [h, setEntry]

theorem finish_upper {F : Type} (size : Fin 3 → Int) (kernel : Kernel F) (h : size 0 ≠ 1) (i j : Fin 3)
    (hij : i ≤ j) : finish size kernel i j = kernel i j := by
  unfold finish
  fin_cases i <;> fin_cases j <;> simp [h, setEntry] <;> exact absurd hij (by decide)

theorem finish_lower {F : Type} (size : Fin 3 → Int) (kernel : Kernel F) (h : size 0 ≠ 1) (i j : Fin 3)
    (hij : i ≤ j) : finish size kernel j i = kernel i j := by
  rw [finish_symm, finish_upper size kernel h i j hij]

section

variable {F : Type} [LinearOrderedField F]

/-- When a cell size or the accuracy is not positive, one of the assertions of lines 30-33
fails. -/
theorem sanityCheck_rejects (size : Fin 3 → Int) (cellsize : Fin 3 → F) (pbc : Fin 3 → Int)
    (accuracy : F) (h : accuracy ≤ 0 ∨ ∃ c, cellsize c ≤ 0) :
    ∃ line, line ≤ 33 ∧ sanityCheck size cellsize pbc accuracy = .error (.assertFailed line) := by
  unfold sanityCheck
  by_cases h1 : size Z ≥ 1 ∧ size Y ≥ 2 ∧ size X ≥ 2
  · by_cases h2 : cellsize X > 0 ∧ cellsize Y > 0 ∧ cellsize Z > 0
    · by_cases h3 : pbc X ≥ 0 ∧ pbc Y ≥ 0 ∧ pbc Z ≥ 0
      · have h4 : ¬ accuracy > 0 := by
          rcases h with h | ⟨c, hc⟩
          · exact not_lt.mpr h
          · exfalso
            obtain ⟨cx, cy, cz⟩ := h2
            fin_cases c
            · exact absurd hc (not_le.mpr cx)
            · exact absurd hc (not_le.mpr cy)
            · exact absurd hc (not_le.mpr cz)
        exact ⟨33, by decide, by
          rw [if_neg (not_not.mpr h1), if_neg (not_not.mpr h2), if_neg (not_not.mpr h3),
            if_pos h4]⟩
      · exact ⟨32, by decide, by
          rw [if_neg (not_not.mpr h1), if_neg (not_not.mpr h2), if_pos h3]⟩
    · exact ⟨31, by decide, by rw [if_neg (not_not.mpr h1), if_pos h2]⟩
  · exact ⟨30, by decide, by rw [if_pos h1]⟩

theorem size_mesh441 : (paddedMesh (mesh441 (F := F))).size = vec3 8 8 1 := by
  rw [paddedMesh_size]
  funext a
  rw [padSize_apply]
  fin_cases a <;> simp [mesh441, vec3, X, Y, Z]

theorem size_mesh888 : (paddedMesh (mesh888 (F := F))).size = vec3 16 16 16 := by
  rw [paddedMesh_size]
  funext a
  rw [padSize_apply]
  fin_cases a <;> simp [mesh888, vec3, X, Y, Z]

theorem sanityCheck_mesh441 (accuracy : F) (h : 0 < accuracy) :
    sanityCheck (paddedMesh (mesh441 (F := F))).size (paddedMesh (mesh441 (F := F))).cellSize
      (paddedMesh (mesh441 (F := F))).pbc accuracy = .ok () := by
  rw [sanityCheck_ok_iff, size_mesh441, paddedMesh_cellSize, paddedMesh_pbc]
  refine ⟨by simp [vec3, X, Y, Z], by simp [mesh441, vec3, X, Y, Z],
    by simp [mesh441, vec3, X, Y, Z], h, ?_, by simp [vec3, X, Y, Z]⟩
  simp only [vec3, X, Y, Z]
  decide

theorem pbc_mesh441 (a : Fin 3) : (mesh441 (F := F)).pbc a = 0 := by
  fin_cases a <;> rfl

end

end Mag
namespace Mag

section

variable {F : Type} [LinearOrderedField F] [FloorRing F]

/-- Every tensor returned by `BruteKernel` is `finish` applied to the result of the integration on
a mesh that passed the sanity check. -/
theorem BruteKernel_result (fuel : Nat) (env : MathEnv F) (mesh : Mesh F) (accuracy : F)
    (kernel : Kernel F) (h : (BruteKernel fuel env mesh accuracy).result = .ok kernel) :
    sanityCheck (paddedMesh mesh).size (paddedMesh mesh).cellSize (paddedMesh mesh).pbc
      accuracy = .ok () ∧
    ∃ kernel0,
      integrate fuel env (paddedMesh mesh).size (paddedMesh mesh).cellSize (paddedMesh mesh).pbc
        accuracy (allocate (paddedMesh mesh).size).1 = .ok kernel0 ∧
      kernel = finish (paddedMesh mesh).size kernel0 := by
  unfold BruteKernel at h
  cases hs : sanityCheck (paddedMesh mesh).size (paddedMesh mesh).cellSize (paddedMesh mesh).pbc
      accuracy with
  | error e => simp [hs] at h
  | ok u =>
    cases hi : integrate fuel env (paddedMesh mesh).size (paddedMesh mesh).cellSize
        (paddedMesh mesh).pbc accuracy (allocate (paddedMesh mesh).size).1 with
    | error e => simp [hs, hi] at h
    | ok kernel0 =>
      simp only [hs, hi, Except.ok.injEq] at h
      exact ⟨rfl, kernel0, rfl, h.symm⟩

/-- C1: whenever `BruteKernel` passes its entry checks and returns, the returned 3x3 tensor is
symmetric: `kernel[i][j]` and `kernel[j][i]` are the same array (both nil, or equal at every
index) for every pair `i`, `j`. -/
theorem BruteKernel_symmetric (fuel : Nat) (env : MathEnv F) (mesh : Mesh F) (accuracy : F)
    (kernel : Kernel F) (h : (BruteKernel fuel env mesh accuracy).result = .ok kernel) :
    ∀ i j : Fin 3, kernel i j = kernel j i := by
  obtain ⟨-, kernel0, -, rfl⟩ := BruteKernel_result fuel env mesh accuracy kernel h
  exact fun i j => finish_symm _ kernel0 i j

/-- Witness for C1: on the 4 x 4 x 1 mesh with accuracy 4, in real arithmetic, `BruteKernel`
returns a tensor, and the tensor is symmetric. -/
theorem BruteKernel_symmetric_witness :
    ∃ kernel : Kernel ℝ,
      (BruteKernel 1 ⟨Real.sqrt, Real.pi⟩ mesh441 4).result = .ok kernel ∧
      ∀ i j : Fin 3, kernel i j = kernel j i := by
  obtain ⟨kernel0, -, -, hres, -⟩ := BruteKernel_returns 1 ⟨Real.sqrt, Real.pi⟩ (mesh441 (F := ℝ)) 4
    (sanityCheck_mesh441 4 (by norm_num)) le_rfl (fun a => by rw [pbc_mesh441]; decide)
  exact ⟨_, hres, BruteKernel_symmetric 1 _ _ 4 _ hres⟩

/-- C2, evaluated on the code: on the 4 x 4 x 1 mesh (cell size (1,1,1), no periodicity, accuracy
4) `BruteKernel` returns a tensor whose components (0,1), (0,2), (1,0) and (2,0) are all present.
The test `size[0] == 1` of line 196 reads the X size of the kernel mesh, here 8. -/
theorem BruteKernel_flat_cross_present :
    ∃ kernel : Kernel ℝ,
      (BruteKernel 1 ⟨Real.sqrt, Real.pi⟩ mesh441 4).result = .ok kernel ∧
      (kernel 0 1).isSome = true ∧ (kernel 0 2).isSome = true ∧
      (kernel 1 0).isSome = true ∧ (kernel 2 0).isSome = true := by
  obtain ⟨kernel0, -, hal, hres, -⟩ := BruteKernel_returns 1 ⟨Real.sqrt, Real.pi⟩
    (mesh441 (F := ℝ)) 4 (sanityCheck_mesh441 4 (by norm_num)) le_rfl
    (fun a => by rw [pbc_mesh441]; decide)
  have hne : (paddedMesh (mesh441 (F := ℝ))).size 0 ≠ 1 := by
    rw [size_mesh441]
    decide
  obtain ⟨s1, h1, -⟩ := hal 0 1 (by decide)
  obtain ⟨s2, h2, -⟩ := hal 0 2 (by decide)
  refine ⟨_, hres, ?_, ?_, ?_, ?_⟩
  · rw [finish_upper _ _ hne 0 1 (by decide), h1]
    rfl
  · rw [finish_upper _ _ hne 0 2 (by decide), h2]
    rfl
  · rw [finish_lower _ _ hne 0 1 (by decide), h1]
    rfl
  · rw [finish_lower _ _ hne 0 2 (by decide), h2]
    rfl

/-- C3: when `accuracy <= 0` or some cell size is `<= 0`, `BruteKernel` stops at one of the entry
assertions (lines 30-33) and returns no tensor, and no `data.NewSlice` call was made (the arrays
are allocated at line 44 and written at line 188). -/
theorem BruteKernel_rejects (fuel : Nat) (env : MathEnv F) (mesh : Mesh F) (accuracy : F)
    (h : accuracy ≤ 0 ∨ ∃ c, mesh.cellSize c ≤ 0) :
    ∃ line, line ≤ 33 ∧
      (BruteKernel fuel env mesh accuracy).result = .error (.assertFailed line) ∧
      (BruteKernel fuel env mesh accuracy).allocated = [] := by
  have h' : accuracy ≤ 0 ∨ ∃ c, (paddedMesh mesh).cellSize c ≤ 0 := by
    rw [paddedMesh_cellSize]
    exact h
  obtain ⟨line, hl, hs⟩ := sanityCheck_rejects (paddedMesh mesh).size (paddedMesh mesh).cellSize
    (paddedMesh mesh).pbc accuracy h'
  refine ⟨line, hl, ?_, ?_⟩ <;>
  · unfold BruteKernel
    simp only [hs]

/-- Witness for C3: accuracy 0 on the 4 x 4 x 1 mesh, and a mesh with the cell size (1, 0, 1). -/
theorem BruteKernel_rejects_witness :
    (∃ line, line ≤ 33 ∧
      (BruteKernel 1 ⟨Real.sqrt, Real.pi⟩ (mesh441 (F := ℝ)) 0).result
        = .error (.assertFailed line) ∧
      (BruteKernel 1 ⟨Real.sqrt, Real.pi⟩ (mesh441 (F := ℝ)) 0).allocated = []) ∧
    (∃ line, line ≤ 33 ∧
      (BruteKernel 1 ⟨Real.sqrt, Real.pi⟩
        { size := vec3 4 4 1, cellSize := vec3 1 0 1, pbc := vec3 0 0 0 } (4 : ℝ)).result
        = .error (.assertFailed line) ∧
      (BruteKernel 1 ⟨Real.sqrt, Real.pi⟩
        { size := vec3 4 4 1, cellSize := vec3 1 0 1, pbc := vec3 0 0 0 } (4 : ℝ)).allocated
        = []) :=
  ⟨BruteKernel_rejects 1 _ _ 0 (Or.inl le_rfl),
    BruteKernel_rejects 1 _ _ 4 (Or.inr ⟨Y, by simp [vec3, X, Y]⟩)⟩

end

end Mag
namespace Mag

section

variable {F : Type} [LinearOrderedField F] [FloorRing F]

/-- C10: for an unpadded mesh without periodicity, of width and height at least 2 and depth at
least 1, with positive cell sizes, and a positive accuracy, no entry assertion of `BruteKernel`
fails: the kernel mesh has even width and height, both at least 2, and a depth that is 1 or even,
the sanity check passes, and (with one loop-body execution allowed to each `wrap`) the run returns
a tensor. -/
theorem BruteKernel_accepts_open (env : MathEnv F) (mesh : Mesh F) (accuracy : F)
    (hpbc : ∀ a, mesh.pbc a = 0) (hx : 2 ≤ mesh.size X) (hy : 2 ≤ mesh.size Y)
    (hz : 1 ≤ mesh.size Z) (hcs : ∀ a, 0 < mesh.cellSize a) (hacc : 0 < accuracy) :
    (2 ≤ (paddedMesh mesh).size X ∧ Int.tmod ((paddedMesh mesh).size X) 2 = 0) ∧
    (2 ≤ (paddedMesh mesh).size Y ∧ Int.tmod ((paddedMesh mesh).size Y) 2 = 0) ∧
    ((paddedMesh mesh).size Z = 1 ∨ Int.tmod ((paddedMesh mesh).size Z) 2 = 0) ∧
    sanityCheck (paddedMesh mesh).size (paddedMesh mesh).cellSize (paddedMesh mesh).pbc
      accuracy = .ok () ∧
    ∀ fuel, 1 ≤ fuel → ∃ kernel, (BruteKernel fuel env mesh accuracy).result = .ok kernel := by
  have sX : (paddedMesh mesh).size X = mesh.size X * 2 := by
    rw [paddedMesh_size, padSize_apply, if_pos ⟨hpbc X, by omega⟩]
  have sY : (paddedMesh mesh).size Y = mesh.size Y * 2 := by
    rw [paddedMesh_size, padSize_apply, if_pos ⟨hpbc Y, by omega⟩]
  have sZ : (paddedMesh mesh).size Z = if mesh.size Z > 1 then mesh.size Z * 2 else mesh.size Z := by
    rw [paddedMesh_size, padSize_apply]
    simp [hpbc Z]
  have eX : Int.tmod ((paddedMesh mesh).size X) 2 = 0 := by
    rw [sX, Int.mul_tmod_left]
  have eY : Int.tmod ((paddedMesh mesh).size Y) 2 = 0 := by
    rw [sY, Int.mul_tmod_left]
  have eZ : (paddedMesh mesh).size Z > 1 → Int.tmod ((paddedMesh mesh).size Z) 2 = 0 := by
    intro h
    rw [sZ] at h ⊢
    split_ifs at h ⊢ with h1
    · exact Int.mul_tmod_left _ _
    · exact absurd h h1
  have gZ : 1 ≤ (paddedMesh mesh).size Z := by
    rw [sZ]
    split_ifs <;> omega
  have hs : sanityCheck (paddedMesh mesh).size (paddedMesh mesh).cellSize (paddedMesh mesh).pbc
      accuracy = .ok () := by
    rw [sanityCheck_ok_iff]
    refine ⟨⟨gZ, by omega, by omega⟩, ?_, ?_, hacc, ⟨eX, eY⟩, eZ⟩
    · rw [paddedMesh_cellSize]
      exact ⟨hcs X, hcs Y, hcs Z⟩
    · rw [paddedMesh_pbc, hpbc X, hpbc Y, hpbc Z]
      exact ⟨le_rfl, le_rfl, le_rfl⟩
  refine ⟨⟨by omega, eX⟩, ⟨by omega, eY⟩, ?_, hs, fun fuel h1 => ?_⟩
  · rcases eq_or_lt_of_le gZ with h | h
    · exact Or.inl h.symm
    · exact Or.inr (eZ h)
  · obtain ⟨kernel0, -, -, hres, -⟩ := BruteKernel_returns fuel env mesh accuracy hs h1
      (fun a => by rw [hpbc a]; exact Int.ofNat_nonneg fuel)
    exact ⟨_, hres⟩

end

section

variable {F : Type} [LinearOrderedField F]

theorem pbc_mesh888 (a : Fin 3) : (mesh888 (F := F)).pbc a = 0 := by
  fin_cases a <;> rfl

theorem cellSize_mesh441 (a : Fin 3) : 0 < (mesh441 (F := F)).cellSize a := by
  fin_cases a <;> simp [mesh441, vec3, X, Y, Z]

theorem cellSize_mesh888 (a : Fin 3) : 0 < (mesh888 (F := F)).cellSize a := by
  fin_cases a <;> simp [mesh888, vec3, X, Y, Z]

end

/-- Witness for C10: the 4 x 4 x 1 mesh with accuracy 4 and the 8 x 8 x 8 mesh with accuracy 6
are accepted, with kernel meshes of 8 x 8 x 1 and 16 x 16 x 16 cells. -/
theorem BruteKernel_accepts_open_witness :
    ((paddedMesh (mesh441 (F := ℝ))).size = vec3 8 8 1 ∧
      sanityCheck (paddedMesh (mesh441 (F := ℝ))).size (paddedMesh (mesh441 (F := ℝ))).cellSize
        (paddedMesh (mesh441 (F := ℝ))).pbc 4 = .ok () ∧
      ∃ kernel, (BruteKernel 1 ⟨Real.sqrt, Real.pi⟩ (mesh441 (F := ℝ)) 4).result = .ok kernel) ∧
    ((paddedMesh (mesh888 (F := ℝ))).size = vec3 16 16 16 ∧
      sanityCheck (paddedMesh (mesh888 (F := ℝ))).size (paddedMesh (mesh888 (F := ℝ))).cellSize
        (paddedMesh (mesh888 (F := ℝ))).pbc 6 = .ok () ∧
      ∃ kernel, (BruteKernel 1 ⟨Real.sqrt, Real.pi⟩ (mesh888 (F := ℝ)) 6).result = .ok kernel) := by
  have h1 := BruteKernel_accepts_open ⟨Real.sqrt, Real.pi⟩ (mesh441 (F := ℝ)) 4 pbc_mesh441
    (by simp [mesh441, vec3, X]) (by simp [mesh441, vec3, X, Y]) (by simp [mesh441, vec3, X, Y, Z])
    cellSize_mesh441 (by norm_num)
  have h2 := BruteKernel_accepts_open ⟨Real.sqrt, Real.pi⟩ (mesh888 (F := ℝ)) 6 pbc_mesh888
    (by simp [mesh888, vec3, X]) (by simp [mesh888, vec3, X, Y]) (by simp [mesh888, vec3, X, Y, Z])
    cellSize_mesh888 (by norm_num)
  exact ⟨⟨size_mesh441, h1.2.2.2.1, h1.2.2.2.2 1 le_rfl⟩,
    ⟨size_mesh888, h2.2.2.2.1, h2.2.2.2.2 1 le_rfl⟩⟩

/-! ## The destination ranges -/

theorem ranges_lo (size pbc : Fin 3 → Int) (a : Fin 3) :
    (ranges size pbc).lo a =
      if pbc a = 0 then Int.tdiv (-(size a - 1)) 2 else -(size a * pbc a - 1) := by
  rw [ranges_eq]
  fin_cases a <;> simp [Ranges.lo, vec3, X, Y, Z]

theorem ranges_hi (size pbc : Fin 3 → Int) (a : Fin 3) (hn : 1 ≤ size a) :
    (ranges size pbc).hi a =
      if pbc a = 0 then Int.tdiv (size a - 1) 2 else size a * pbc a - 1 := by
  rw [ranges_eq]
  fin_cases a
  · simp [Ranges.hi, vec3, X, Y, Z]
  · simp [Ranges.hi, vec3, X, Y, Z]
  · by_cases h : size Z = 1 ∧ pbc Z = 0
    · simp [Ranges.hi, vec3, X, Y, Z] at h ⊢
      simp [h.1, h.2]
    · simp [Ranges.hi, vec3, X, Y, Z] at h ⊢
      intro h1 h2
      exact absurd h2 (h h1)

/-- C8 as stated fails on the kernel mesh of the 4 x 4 x 1 example: along X, of 8 cells and open,
the first offset is -3, not `floor(-(8-1)/2) = -4`. -/
theorem ranges_lo_not_floor :
    (ranges (paddedMesh (mesh441 (F := ℚ))).size (paddedMesh (mesh441 (F := ℚ))).pbc).lo X = -3 ∧
    (paddedMesh (mesh441 (F := ℚ))).size X = 8 ∧
    (paddedMesh (mesh441 (F := ℚ))).pbc X = 0 ∧
    ¬ ((ranges (paddedMesh (mesh441 (F := ℚ))).size (paddedMesh (mesh441 (F := ℚ))).pbc).lo X =
        Int.fdiv (-((paddedMesh (mesh441 (F := ℚ))).size X - 1)) 2) := by
  rw [size_mesh441, paddedMesh_pbc]
  decide

/-- C8, amended: along an axis of the kernel mesh with `n >= 1` cells, the destination offsets
run from `lo` to `hi` where, for an open axis, `hi = floor((n-1)/2)` and `lo = -hi`, the
quotient `-(n-1)/2` rounded toward zero, and for a periodic axis with `p` repeats
`lo = -(n*p - 1)` and `hi = n*p - 1`. -/
theorem ranges_spec (size pbc : Fin 3 → Int) (a : Fin 3) (hn : 1 ≤ size a) :
    (pbc a = 0 →
      (ranges size pbc).hi a = Int.fdiv (size a - 1) 2 ∧
      (ranges size pbc).lo a = -(Int.fdiv (size a - 1) 2) ∧
      (ranges size pbc).lo a = Int.tdiv (-(size a - 1)) 2) ∧
    (pbc a ≠ 0 →
      (ranges size pbc).lo a = -(size a * pbc a - 1) ∧
      (ranges size pbc).hi a = size a * pbc a - 1) := by
  rw [ranges_lo, ranges_hi size pbc a hn]
  refine ⟨fun h => ?_, fun h => ?_⟩
  · rw [if_pos h, if_pos h, (tdiv_open _ hn).1, (tdiv_open _ hn).2,
      Int.fdiv_eq_ediv _ (by decide : (0 : Int) ≤ 2)]
    exact ⟨rfl, rfl, rfl⟩
  · rw [if_neg h, if_neg h]
    exact ⟨rfl, rfl⟩

/-- Witness for C8, amended: the open X axis of a kernel mesh of 8 x 8 x 1 cells, and the Z axis,
of 4 cells with 2 repeats, of a kernel mesh of 8 x 8 x 4 cells. -/
theorem ranges_spec_witness :
    ((ranges (vec3 8 8 1) (vec3 0 0 0)).hi X = Int.fdiv (8 - 1) 2 ∧
      (ranges (vec3 8 8 1) (vec3 0 0 0)).lo X = -(Int.fdiv (8 - 1) 2) ∧
      (ranges (vec3 8 8 1) (vec3 0 0 0)).lo X = Int.tdiv (-(8 - 1)) 2) ∧
    ((ranges (vec3 8 8 4) (vec3 0 0 2)).lo Z = -(4 * 2 - 1) ∧
      (ranges (vec3 8 8 4) (vec3 0 0 2)).hi Z = 4 * 2 - 1) :=
  ⟨(ranges_spec (vec3 8 8 1) (vec3 0 0 0) X (by decide)).1 (by decide),
    (ranges_spec (vec3 8 8 4) (vec3 0 0 2) Z (by decide)).2 (by decide)⟩

end Mag
namespace Mag

/-! ## What the integration writes -/

section

variable {F : Type} [LinearOrderedField F]

/-- A loop whose every iteration adds `c a` to a quantity `val` of the state adds the sum of the
`c a` in total. -/
theorem forEach_sum {α σ : Type} (val : σ → F) (c : α → F) (body : α → σ → Except Failure σ) :
    ∀ (xs : List α) (init fin : σ),
      (∀ a ∈ xs, ∀ st st', body a st = .ok st' → val st' = val st + c a) →
      forEach xs body init = .ok fin → val fin = val init + (xs.map c).sum := by
  intro xs
  induction xs with
  | nil =>
    intro init fin _ h
    simp only [forEach, Except.ok.injEq] at h
    simp [h]
  | cons a rest ih =>
    intro init fin hstep h
    cases hb : body a init with
    | error e => simp [forEach, hb] at h
    | ok st' =>
      simp only [forEach, hb] at h
      rw [ih st' fin (fun b hb st st'' => hstep b (List.mem_cons_of_mem _ hb) st st'') h,
        hstep a (List.mem_cons_self _ _) init st' hb, List.map_cons, List.sum_cons, add_assoc]

theorem sum_map_single {α : Type} (g : α → F) (a : α) :
    ∀ l : List α, l.Nodup → a ∈ l → (∀ x ∈ l, x ≠ a → g x = 0) → (l.map g).sum = g a := by
  intro l
  induction l with
  | nil => exact fun _ h _ => absurd h (List.not_mem_nil a)
  | cons b rest ih =>
    intro hnd ha hz
    rw [List.nodup_cons] at hnd
    rw [List.map_cons, List.sum_cons]
    rcases List.mem_cons.mp ha with rfl | hmem
    · have hrest : (rest.map g).sum = 0 := by
        apply List.sum_eq_zero
        intro v hv
        obtain ⟨x, hx, rfl⟩ := List.mem_map.mp hv
        exact hz x (List.mem_cons_of_mem _ hx) (fun h => hnd.1 (h ▸ hx))
      rw [hrest, add_zero]
    · have hb : g b = 0 := hz b (List.mem_cons_self _ _) (fun h => hnd.1 (h ▸ hmem))
      rw [hb, zero_add]
      exact ih hnd.2 hmem (fun x hx => hz x (List.mem_cons_of_mem _ hx))

/-- A counting loop with at least one iteration, each of which strictly lowers `val`, strictly
lowers `val`. -/
theorem forN_lt {σ : Type} (val : σ → F) (n : Int) (hn : 1 ≤ n) (body : Int → σ → σ)
    (h : ∀ i : Int, 0 ≤ i → i < n → ∀ st, val (body i st) < val st) (init : σ) :
    val (forN n body init) < val init := by
  unfold forN
  obtain ⟨m, hm⟩ : ∃ m : Nat, n.toNat = m + 1 := ⟨n.toNat - 1, by omega⟩
  have key : ∀ k : Nat, k ≤ m →
      val ((List.range (k + 1)).foldl (fun st (i : Nat) => body (i : Int) st) init) < val init := by
    intro k
    induction k with
    | zero =>
      intro _
      simpa using h 0 le_rfl (by omega) init
    | succ k ih =>
      intro hk
      rw [List.range_succ, List.foldl_append]
      exact lt_trans (h _ (by omega) (by omega) _) (ih (by omega))
  rw [hm]
  exact key m le_rfl

end

end Mag
namespace Mag

section

variable {F : Type} [LinearOrderedField F] [FloorRing F]

theorem cellField_fieldAt (env : MathEnv F) (cellsize : Fin 3 → F) (L accuracy : F) (s : Fin 3)
    (x y z : Int) :
    cellField env cellsize L accuracy s x y z = .ok (fieldAt env cellsize L accuracy s x y z) := by
  unfold fieldAt
  rw [cellField_eq]

omit [FloorRing F] in
/-- The loop over `d` of lines 187-189 adds `B[j]` to the component `(s, j)`, `j >= s`, at the
wrapped index, and changes nothing else. -/
theorem dLoop_value (s : Fin 3) (zw yw xw : Int) (B : Fin 3 → F) (kernel kernel' : Kernel F)
    (h : forEach (upFrom s) (fun d kernel => addAt kernel s d zw yw xw (B d)) kernel
      = .ok kernel')
    (i j : Fin 3) (z0 y0 x0 : Int) :
    valueAt kernel' i j z0 y0 x0 =
      valueAt kernel i j z0 y0 x0 +
        (if s = i ∧ i ≤ j ∧ zw = z0 ∧ yw = y0 ∧ xw = x0 then B j else 0) := by
  rw [forEach_sum (fun k => valueAt k i j z0 y0 x0)
    (fun d => if i = s ∧ j = d ∧ z0 = zw ∧ y0 = yw ∧ x0 = xw then B d else 0) _ _ _ _
    (fun d _ st st' hst => addAt_value st st' s d zw yw xw (B d) hst i j z0 y0 x0) h]
  congr 1
  by_cases hP : s = i ∧ zw = z0 ∧ yw = y0 ∧ xw = x0
  · obtain ⟨rfl, rfl, rfl, rfl⟩ := hP
    by_cases hij : s ≤ j
    · rw [sum_map_single _ j (upFrom s)
        ((List.nodup_finRange 3).filter _) ((mem_upFrom s j).mpr hij)
        (fun d _ hd => by simp [Ne.symm hd])]
      simp [hij]
    · rw [List.sum_eq_zero]
      · simp [hij]
      · intro v hv
        obtain ⟨d, hd, rfl⟩ := List.mem_map.mp hv
        have : j ≠ d := fun hjd => hij (hjd ▸ (mem_upFrom s d).mp hd)
        simp [this]
  · rw [List.sum_eq_zero]
    · rw [if_neg]
      exact fun hc => hP ⟨hc.1, hc.2.2⟩
    · intro v hv
      obtain ⟨d, -, rfl⟩ := List.mem_map.mp hv
      rw [if_neg]
      exact fun hc => hP ⟨hc.1.symm, hc.2.2.1.symm, hc.2.2.2.1.symm, hc.2.2.2.2.symm⟩

/-- The contribution of one visit `(s, z, y, x)` of the nested loops to the component `(i, j)` at
the index `[z0][y0][x0]`. -/
theorem xBody_value (fuel : Nat) (env : MathEnv F) (size : Fin 3 → Int) (cellsize : Fin 3 → F)
    (L accuracy : F) (s : Fin 3) (z zw y yw x : Int) (kernel kernel' : Kernel F)
    (hn : 0 < size X)
    (h : xBody fuel env size cellsize L accuracy s z zw y yw x kernel = .ok kernel')
    (i j : Fin 3) (z0 y0 x0 : Int) :
    valueAt kernel' i j z0 y0 x0 =
      valueAt kernel i j z0 y0 x0 +
        (if s = i ∧ i ≤ j ∧ zw = z0 ∧ yw = y0 ∧ x % size X = x0
          then fieldAt env cellsize L accuracy s x y z j else 0) := by
  unfold xBody at h
  cases hw : wrap fuel x (size X) with
  | none => simp [hw] at h
  | some xw =>
    rw [hw, cellField_fieldAt] at h
    rw [dLoop_value s zw yw xw _ kernel kernel' h i j z0 y0 x0,
      wrap_some fuel x (size X) xw hn hw]

theorem yBody_value (fuel : Nat) (env : MathEnv F) (size : Fin 3 → Int) (cellsize : Fin 3 → F)
    (L accuracy : F) (rg : Ranges) (s : Fin 3) (z zw y : Int) (kernel kernel' : Kernel F)
    (hnx : 0 < size X) (hny : 0 < size Y)
    (h : yBody fuel env size cellsize L accuracy rg s z zw y kernel = .ok kernel')
    (i j : Fin 3) (z0 y0 x0 : Int) :
    valueAt kernel' i j z0 y0 x0 =
      valueAt kernel i j z0 y0 x0 +
        ((intRange rg.x1 rg.x2).map (fun x =>
          if s = i ∧ i ≤ j ∧ zw = z0 ∧ y % size Y = y0 ∧ x % size X = x0
            then fieldAt env cellsize L accuracy s x y z j else 0)).sum := by
  unfold yBody at h
  cases hw : wrap fuel y (size Y) with
  | none => simp [hw] at h
  | some yw =>
    rw [hw] at h
    rw [← wrap_some fuel y (size Y) yw hny hw]
    exact forEach_sum (fun k => valueAt k i j z0 y0 x0) _ _ _ _ _
      (fun x _ st st' hst =>
        xBody_value fuel env size cellsize L accuracy s z zw y yw x st st' hnx hst i j z0 y0 x0) h

theorem zBody_value (fuel : Nat) (env : MathEnv F) (size : Fin 3 → Int) (cellsize : Fin 3 → F)
    (L accuracy : F) (rg : Ranges) (s : Fin 3) (z : Int) (kernel kernel' : Kernel F)
    (hnx : 0 < size X) (hny : 0 < size Y) (hnz : 0 < size Z)
    (h : zBody fuel env size cellsize L accuracy rg s z kernel = .ok kernel')
    (i j : Fin 3) (z0 y0 x0 : Int) :
    valueAt kernel' i j z0 y0 x0 =
      valueAt kernel i j z0 y0 x0 +
        ((intRange rg.y1 rg.y2).map (fun y =>
          ((intRange rg.x1 rg.x2).map (fun x =>
            if s = i ∧ i ≤ j ∧ z % size Z = z0 ∧ y % size Y = y0 ∧ x % size X = x0
              then fieldAt env cellsize L accuracy s x y z j else 0)).sum)).sum := by
  unfold zBody at h
  cases hw : wrap fuel z (size Z) with
  | none => simp [hw] at h
  | some zw =>
    rw [hw] at h
    rw [← wrap_some fuel z (size Z) zw hnz hw]
    exact forEach_sum (fun k => valueAt k i j z0 y0 x0) _ _ _ _ _
      (fun y _ st st' hst =>
        yBody_value fuel env size cellsize L accuracy rg s z zw y st st' hnx hny hst
          i j z0 y0 x0) h

/-- What the integration leaves in the tensor: the value of the component `(i, j)` at the index
`[z0][y0][x0]` grows by the sum, over the source directions and the offsets of the three ranges,
of the fields `B[j]` of the visits with `s = i <= j` whose wrapped index is `[z0][y0][x0]`. -/
theorem integrate_value (fuel : Nat) (env : MathEnv F) (size : Fin 3 → Int)
    (cellsize : Fin 3 → F) (pbc : Fin 3 → Int) (accuracy : F) (kernel kernel' : Kernel F)
    (hnx : 0 < size X) (hny : 0 < size Y) (hnz : 0 < size Z)
    (h : integrate fuel env size cellsize pbc accuracy kernel = .ok kernel')
    (i j : Fin 3) (z0 y0 x0 : Int) :
    valueAt kernel' i j z0 y0 x0 =
      valueAt kernel i j z0 y0 x0 +
        ((List.finRange 3).map (fun s =>
          ((intRange (ranges size pbc).z1 (ranges size pbc).z2).map (fun z =>
            ((intRange (ranges size pbc).y1 (ranges size pbc).y2).map (fun y =>
              ((intRange (ranges size pbc).x1 (ranges size pbc).x2).map (fun x =>
                if s = i ∧ i ≤ j ∧ z % size Z = z0 ∧ y % size Y = y0 ∧ x % size X = x0
                  then fieldAt env cellsize (lengthScale cellsize) accuracy s x y z j
                  else 0)).sum)).sum)).sum)).sum := by
  unfold integrate at h
  refine forEach_sum (fun k => valueAt k i j z0 y0 x0) _ _ _ _ _ (fun s _ st st' hst => ?_) h
  unfold sBody at hst
  exact forEach_sum (fun k => valueAt k i j z0 y0 x0) _ _ _ _ _
    (fun z _ st1 st2 hst1 =>
      zBody_value fuel env size cellsize _ accuracy _ s z st1 st2 hnx hny hnz hst1
        i j z0 y0 x0) hst

end

end Mag
namespace Mag

/-! ## The sign of the self-interaction -/

section

variable {F : Type} [LinearOrderedField F]

/-- A positive pole at `pu` and a negative pole at `-pu` both push the field component along their
axis down at a point whose coordinate `a` on that axis lies strictly between them. -/
theorem pole_pair_lt (env : MathEnv F) (hsqrt : ∀ v, 0 < v → 0 < env.sqrt v) (hpi : 0 < env.pi)
    (charge : F) (hc : 0 < charge) (a pu S1 S2 Bu : F) (hlo : -pu < a) (hhi : a < pu)
    (h1 : 0 < S1) (h2 : 0 < S2) :
    Bu + ((a - pu) * (charge / (4 * env.pi * env.sqrt S1 * env.sqrt S1 * env.sqrt S1))
      + (a - -pu) * (-charge / (4 * env.pi * env.sqrt S2 * env.sqrt S2 * env.sqrt S2))) < Bu := by
  have r1 := hsqrt S1 h1
  have r2 := hsqrt S2 h2
  have d1 : 0 < 4 * env.pi * env.sqrt S1 * env.sqrt S1 * env.sqrt S1 := by positivity
  have d2 : 0 < 4 * env.pi * env.sqrt S2 * env.sqrt S2 * env.sqrt S2 := by positivity
  have t1 : (a - pu) * (charge / (4 * env.pi * env.sqrt S1 * env.sqrt S1 * env.sqrt S1)) < 0 :=
    mul_neg_of_neg_of_pos (by linarith) (div_pos hc d1)
  have t2 : (a - -pu) * (-charge / (4 * env.pi * env.sqrt S2 * env.sqrt S2 * env.sqrt S2)) < 0 :=
    mul_neg_of_pos_of_neg (by linarith) (div_neg_of_neg_of_pos (by linarith) d2)
  linarith

/-- One execution of lines 166-180 strictly lowers `B[u]` when the destination point lies
strictly between the two poles along the source direction `u`. -/
theorem addPoles_lt (env : MathEnv F) (hsqrt : ∀ v, 0 < v → 0 < env.sqrt v) (hpi : 0 < env.pi)
    (u : Fin 3) (charge pu1 : F) (hc : 0 < charge) (pole : Fin 3 → F) (rx ry rz : F)
    (hlo : -pu1 < vec3 rx ry rz u) (hhi : vec3 rx ry rz u < pu1) (B : Fin 3 → F) :
    addPoles env u charge pu1 (-pu1) pole rx ry rz B u < B u := by
  fin_cases u
  · have hlo' : -pu1 < rx := hlo
    have hhi' : rx < pu1 := hhi
    exact pole_pair_lt env hsqrt hpi charge hc rx pu1 _ _ (B 0) hlo' hhi'
      (add_pos_of_pos_of_nonneg (add_pos_of_pos_of_nonneg
        (mul_self_pos.mpr (by linarith : rx - pu1 ≠ 0)) (mul_self_nonneg _)) (mul_self_nonneg _))
      (add_pos_of_pos_of_nonneg (add_pos_of_pos_of_nonneg
        (mul_self_pos.mpr (by linarith : rx - -pu1 ≠ 0)) (mul_self_nonneg _)) (mul_self_nonneg _))
  · have hlo' : -pu1 < ry := hlo
    have hhi' : ry < pu1 := hhi
    exact pole_pair_lt env hsqrt hpi charge hc ry pu1 _ _ (B 1) hlo' hhi'
      (add_pos_of_pos_of_nonneg (add_pos_of_nonneg_of_pos (mul_self_nonneg _)
        (mul_self_pos.mpr (by linarith : ry - pu1 ≠ 0))) (mul_self_nonneg _))
      (add_pos_of_pos_of_nonneg (add_pos_of_nonneg_of_pos (mul_self_nonneg _)
        (mul_self_pos.mpr (by linarith : ry - -pu1 ≠ 0))) (mul_self_nonneg _))
  · have hlo' : -pu1 < rz := hlo
    have hhi' : rz < pu1 := hhi
    exact pole_pair_lt env hsqrt hpi charge hc rz pu1 _ _ (B 2) hlo' hhi'
      (add_pos_of_nonneg_of_pos (add_nonneg (mul_self_nonneg _) (mul_self_nonneg _))
        (mul_self_pos.mpr (by linarith : rz - pu1 ≠ 0)))
      (add_pos_of_nonneg_of_pos (add_nonneg (mul_self_nonneg _) (mul_self_nonneg _))
        (mul_self_pos.mpr (by linarith : rz - -pu1 ≠ 0)))

end

end Mag
namespace Mag

section

variable {F : Type} [LinearOrderedField F]

/-- A sample point of a cell of size `c` centred at the origin, one of `n` equally spaced points
`-c/2 + c/(2n) + (c/n) k`, `0 <= k < n`, lies strictly inside the cell. -/
theorem sample_inside (c : F) (hc : 0 < c) (n k : Int) (hk0 : 0 ≤ k) (hk : k < n) :
    -(c / 2) < 0 - c / 2 + c / ((2 * n : Int) : F) + (c / ((n : Int) : F)) * ((k : Int) : F) ∧
    0 - c / 2 + c / ((2 * n : Int) : F) + (c / ((n : Int) : F)) * ((k : Int) : F) < c / 2 := by
  have hN : (0 : F) < ((n : Int) : F) := by exact_mod_cast lt_of_le_of_lt hk0 hk
  have hK0 : (0 : F) ≤ ((k : Int) : F) := by exact_mod_cast hk0
  have hK : ((k : Int) : F) + 1 ≤ ((n : Int) : F) := by exact_mod_cast hk
  have e : c / ((2 * n : Int) : F) + (c / ((n : Int) : F)) * ((k : Int) : F)
      = c * ((2 * ((k : Int) : F) + 1) / (2 * ((n : Int) : F))) := by
    push_cast
    field_simp
    ring
  have t0 : 0 < (2 * ((k : Int) : F) + 1) / (2 * ((n : Int) : F)) := by positivity
  have t1 : (2 * ((k : Int) : F) + 1) / (2 * ((n : Int) : F)) < 1 := by
    rw [div_lt_one (by positivity)]
    linarith
  have p0 : 0 < c * ((2 * ((k : Int) : F) + 1) / (2 * ((n : Int) : F))) := mul_pos hc t0
  have p1 : c * ((2 * ((k : Int) : F) + 1) / (2 * ((n : Int) : F))) < c := by
    have := mul_lt_mul_of_pos_left t1 hc
    linarith
  constructor <;> linarith

/-- The field of a cell on itself: with the destination cell centred on the source cell (along the
source direction `s`), positive cell sizes and at least one integration point per axis, the
component `B[s]` of the integral is strictly negative. -/
theorem integral_neg (env : MathEnv F) (hsqrt : ∀ v, 0 < v → 0 < env.sqrt v) (hpi : 0 < env.pi)
    (cellsize : Fin 3 → F) (hcs : ∀ a, 0 < cellsize a) (s : Fin 3) (RX RY RZ : F)
    (hR : vec3 RX RY RZ s = 0) (nv nw nx ny nz : Int) (hnv : 1 ≤ nv) (hnw : 1 ≤ nw)
    (hnx : 1 ≤ nx) (hny : 1 ≤ ny) (hnz : 1 ≤ nz) :
    integral env cellsize s RX RY RZ nv nw nx ny nz s < 0 := by
  have hprod : (0 : F) < ((nv * nw * nx * ny * nz : Int) : F) := by
    have : 0 < nv * nw * nx * ny * nz := by positivity
    exact_mod_cast this
  have hcharge : 0 < cellsize (s + 1) * cellsize (s + 2)
      * (1 / ((nv * nw * nx * ny * nz : Int) : F)) :=
    mul_pos (mul_pos (hcs _) (hcs _)) (one_div_pos.mpr hprod)
  unfold integral
  refine forN_lt (fun B : Fin 3 → F => B s) nv hnv _ (fun i _ _ B => ?_) _
  refine forN_lt (fun B : Fin 3 → F => B s) nw hnw _ (fun j _ _ B => ?_) _
  refine forN_lt (fun B : Fin 3 → F => B s) nx hnx _ (fun α hα0 hα B => ?_) _
  refine forN_lt (fun B : Fin 3 → F => B s) ny hny _ (fun β hβ0 hβ B => ?_) _
  refine forN_lt (fun B : Fin 3 → F => B s) nz hnz _ (fun γ hγ0 hγ B => ?_) _
  have bx := sample_inside (cellsize X) (hcs X) nx α hα0 hα
  have by' := sample_inside (cellsize Y) (hcs Y) ny β hβ0 hβ
  have bz := sample_inside (cellsize Z) (hcs Z) nz γ hγ0 hγ
  refine addPoles_lt env hsqrt hpi s _ _ hcharge _ _ _ _ ?_ ?_ B
  · fin_cases s
    · have h0 : RX = 0 := hR
      subst h0
      exact bx.1
    · have h0 : RY = 0 := hR
      subst h0
      exact by'.1
    · have h0 : RZ = 0 := hR
      subst h0
      exact bz.1
  · fin_cases s
    · have h0 : RX = 0 := hR
      subst h0
      exact bx.2
    · have h0 : RY = 0 := hR
      subst h0
      exact by'.2
    · have h0 : RZ = 0 := hR
      subst h0
      exact bz.2

end

end Mag
namespace Mag

section

variable {F : Type} [LinearOrderedField F]

theorem sum_map_zero {α : Type} (g : α → F) (l : List α) (h : ∀ x ∈ l, g x = 0) :
    (l.map g).sum = 0 := by
  apply List.sum_eq_zero
  intro v hv
  obtain ⟨x, hx, rfl⟩ := List.mem_map.mp hv
  exact h x hx

/-- On an open axis of `n >= 1` cells, the only offset of the destination range that wraps to the
index 0 is the offset 0. -/
theorem open_axis_zero (n x : Int) (hn : 1 ≤ n) (h1 : Int.tdiv (-(n - 1)) 2 ≤ x)
    (h2 : x ≤ Int.tdiv (n - 1) 2) (h0 : x % n = 0) : x = 0 := by
  rw [(tdiv_open n hn).1] at h1
  rw [(tdiv_open n hn).2] at h2
  apply Int.eq_zero_of_abs_lt_dvd (Int.dvd_of_emod_eq_zero h0)
  rw [abs_lt]
  constructor <;> omega

theorem open_axis_mem (n : Int) (hn : 1 ≤ n) :
    (0 : Int) ∈ intRange (Int.tdiv (-(n - 1)) 2) (Int.tdiv (n - 1) 2) := by
  rw [mem_intRange, (tdiv_open n hn).1, (tdiv_open n hn).2]
  constructor <;> omega

/-- The sum over one open axis of a family that vanishes at every offset not wrapped to the index
0 is its value at the offset 0. -/
theorem sum_open_axis (n : Int) (hn : 1 ≤ n) (g : Int → F)
    (hg : ∀ x, x % n ≠ 0 → g x = 0) :
    ((intRange (Int.tdiv (-(n - 1)) 2) (Int.tdiv (n - 1) 2)).map g).sum = g 0 := by
  refine sum_map_single g 0 _ (nodup_intRange _ _) (open_axis_mem n hn) (fun x hx hne => ?_)
  rw [mem_intRange] at hx
  exact hg x (fun h0 => hne (open_axis_zero n x hn hx.1 hx.2 h0))

theorem ranges_open (size pbc : Fin 3 → Int) (hpbc : ∀ a, pbc a = 0) :
    ranges size pbc =
      { x1 := Int.tdiv (-(size X - 1)) 2, x2 := Int.tdiv (size X - 1) 2
        y1 := Int.tdiv (-(size Y - 1)) 2, y2 := Int.tdiv (size Y - 1) 2
        z1 := Int.tdiv (-(size Z - 1)) 2, z2 := Int.tdiv (size Z - 1) 2 } := by
  rw [ranges_eq]
  simp only [hpbc, if_true, and_true]
  by_cases h : size Z = 1
  · simp [h]
  · simp [h]

end

end Mag
namespace Mag

section

variable {F : Type} [LinearOrderedField F] [FloorRing F]

/-- On a mesh without periodicity the integration adds to the diagonal component `(s, s)` at the
index `[0][0][0]` exactly the field `B[s]` of the visit with offset `(0, 0, 0)`. -/
theorem integrate_origin (fuel : Nat) (env : MathEnv F) (size : Fin 3 → Int)
    (cellsize : Fin 3 → F) (pbc : Fin 3 → Int) (accuracy : F) (kernel kernel' : Kernel F)
    (hsize : ∀ a, 1 ≤ size a) (hpbc : ∀ a, pbc a = 0)
    (h : integrate fuel env size cellsize pbc accuracy kernel = .ok kernel') (s : Fin 3) :
    valueAt kernel' s s 0 0 0 =
      valueAt kernel s s 0 0 0 +
        fieldAt env cellsize (lengthScale cellsize) accuracy s 0 0 0 s := by
  rw [integrate_value fuel env size cellsize pbc accuracy kernel kernel' (hsize X) (hsize Y)
    (hsize Z) h s s 0 0 0, ranges_open size pbc hpbc]
  congr 1
  rw [sum_map_single _ s (List.finRange 3) (List.nodup_finRange 3) (List.mem_finRange s)]
  · rw [sum_open_axis (size Z) (hsize Z), sum_open_axis (size Y) (hsize Y),
      sum_open_axis (size X) (hsize X)]
    · simp
    · intro x hx
      rw [if_neg]
      exact fun hc => hx hc.2.2.2.2
    · intro y hy
      refine sum_map_zero _ _ (fun x _ => ?_)
      rw [if_neg]
      exact fun hc => hy hc.2.2.2.1
    · intro z hz
      refine sum_map_zero _ _ (fun y _ => sum_map_zero _ _ (fun x _ => ?_))
      rw [if_neg]
      exact fun hc => hz hc.2.2.1
  · intro s' _ hne
    refine sum_map_zero _ _ (fun z _ => sum_map_zero _ _ (fun y _ =>
      sum_map_zero _ _ (fun x _ => ?_)))
    rw [if_neg]
    exact fun hc => hne hc.1

/-- The field of a cell on itself along the source direction is strictly negative. -/
theorem fieldAt_origin_neg (env : MathEnv F) (hsqrt : ∀ v, 0 < v → 0 < env.sqrt v)
    (hpi : 0 < env.pi) (cellsize : Fin 3 → F) (hcs : ∀ a, 0 < cellsize a) (L accuracy : F)
    (s : Fin 3) : fieldAt env cellsize L accuracy s 0 0 0 s < 0 := by
  unfold fieldAt
  rw [cellField_eq]
  have hv := subdivisions_pos (cellsize (s + 1)) (refDistance env cellsize L 0 0 0 / accuracy)
  have hw := subdivisions_pos (cellsize (s + 2)) (refDistance env cellsize L 0 0 0 / accuracy)
  refine integral_neg env hsqrt hpi cellsize hcs s _ _ _ ?_ _ _ _ _ _ (by omega) (by omega)
    (subdivisions_pos _ _) (subdivisions_pos _ _) (subdivisions_pos _ _)
  fin_cases s <;> simp [vec3, X, Y, Z]

theorem xBody_allocated (fuel : Nat) (env : MathEnv F) (size : Fin 3 → Int)
    (cellsize : Fin 3 → F) (L accuracy : F) (s : Fin 3) (z zw y yw x : Int)
    (kernel kernel' : Kernel F) (hk : Allocated size kernel)
    (h : xBody fuel env size cellsize L accuracy s z zw y yw x kernel = .ok kernel') :
    Allocated size kernel' := by
  unfold xBody at h
  cases hw : wrap fuel x (size X) with
  | none => simp [hw] at h
  | some xw =>
    rw [hw, cellField_fieldAt] at h
    exact forEach_inv (Allocated size) _ _ kernel kernel' hk
      (fun d _ st st' hst hb => addAt_allocated size st st' s d zw yw xw _ hst hb) h

theorem yBody_allocated (fuel : Nat) (env : MathEnv F) (size : Fin 3 → Int)
    (cellsize : Fin 3 → F) (L accuracy : F) (rg : Ranges) (s : Fin 3) (z zw y : Int)
    (kernel kernel' : Kernel F) (hk : Allocated size kernel)
    (h : yBody fuel env size cellsize L accuracy rg s z zw y kernel = .ok kernel') :
    Allocated size kernel' := by
  unfold yBody at h
  cases hw : wrap fuel y (size Y) with
  | none => simp [hw] at h
  | some yw =>
    rw [hw] at h
    exact forEach_inv (Allocated size) _ _ kernel kernel' hk
      (fun x _ st st' hst hb =>
        xBody_allocated fuel env size cellsize L accuracy s z zw y yw x st st' hst hb) h

theorem zBody_allocated (fuel : Nat) (env : MathEnv F) (size : Fin 3 → Int)
    (cellsize : Fin 3 → F) (L accuracy : F) (rg : Ranges) (s : Fin 3) (z : Int)
    (kernel kernel' : Kernel F) (hk : Allocated size kernel)
    (h : zBody fuel env size cellsize L accuracy rg s z kernel = .ok kernel') :
    Allocated size kernel' := by
  unfold zBody at h
  cases hw : wrap fuel z (size Z) with
  | none => simp [hw] at h
  | some zw =>
    rw [hw] at h
    exact forEach_inv (Allocated size) _ _ kernel kernel' hk
      (fun y _ st st' hst hb =>
        yBody_allocated fuel env size cellsize L accuracy rg s z zw y st st' hst hb) h

/-- The integration keeps the six arrays of the upper triangle in place. -/
theorem integrate_allocated (fuel : Nat) (env : MathEnv F) (size : Fin 3 → Int)
    (cellsize : Fin 3 → F) (pbc : Fin 3 → Int) (accuracy : F) (kernel kernel' : Kernel F)
    (hk : Allocated size kernel)
    (h : integrate fuel env size cellsize pbc accuracy kernel = .ok kernel') :
    Allocated size kernel' := by
  unfold integrate at h
  refine forEach_inv (Allocated size) _ _ kernel kernel' hk (fun s _ st st' hst hb => ?_) h
  unfold sBody at hb
  exact forEach_inv (Allocated size) _ _ st st' hst
    (fun z _ st1 st2 hst1 hb1 =>
      zBody_allocated fuel env size cellsize _ accuracy _ s z st1 st2 hst1 hb1) hb

/-- On a mesh without periodicity every returned tensor holds, in the diagonal component
`(s, s)` at the index `[0][0][0]`, the field `B[s]` that the source direction `s` produces at the
destination offset `(0, 0, 0)`; and the mesh passed the sanity check. -/
theorem self_term_eq (fuel : Nat) (env : MathEnv F) (mesh : Mesh F) (accuracy : F)
    (hpbc : ∀ a, mesh.pbc a = 0) (kernel : Kernel F)
    (h : (BruteKernel fuel env mesh accuracy).result = .ok kernel) (s : Fin 3) :
    (∀ a, 0 < (paddedMesh mesh).cellSize a) ∧
    ∃ sl, kernel s s = some sl ∧
      sl.data 0 0 0 =
        fieldAt env (paddedMesh mesh).cellSize (lengthScale (paddedMesh mesh).cellSize)
          accuracy s 0 0 0 s := by
  obtain ⟨hs, kernel0, hint, rfl⟩ := BruteKernel_result fuel env mesh accuracy kernel h
  obtain ⟨⟨hz, hy, hx⟩, ⟨cx, cy, cz⟩, -⟩ := (sanityCheck_ok_iff _ _ _ _).mp hs
  have hsize : ∀ a, 1 ≤ (paddedMesh mesh).size a :=
    forall_fin3 _ (by omega) (by omega) (by omega)
  have hval := integrate_origin fuel env _ _ _ accuracy _ kernel0 hsize hpbc hint s
  have h0 : valueAt (allocate (F := F) (paddedMesh mesh).size).1 s s 0 0 0 = 0 := by
    unfold valueAt
    rw [allocate_fst, if_pos le_rfl]
    rfl
  rw [h0, zero_add] at hval
  have hne : (paddedMesh mesh).size 0 ≠ 1 := by
    have : (2 : Int) ≤ (paddedMesh mesh).size 0 := hx
    omega
  obtain ⟨sl, hsl, -⟩ := integrate_allocated fuel env _ _ _ accuracy _ kernel0
    (allocated_allocate _) hint s s le_rfl
  refine ⟨forall_fin3 _ cx cy cz, sl, ?_, ?_⟩
  · rw [finish_upper _ _ hne s s le_rfl, hsl]
  · rw [← hval]
    unfold valueAt
    rw [hsl]

end

end Mag
namespace Mag

section

variable {F : Type} [LinearOrderedField F]

theorem sanityCheck_mesh888 (accuracy : F) (h : 0 < accuracy) :
    sanityCheck (paddedMesh (mesh888 (F := F))).size (paddedMesh (mesh888 (F := F))).cellSize
      (paddedMesh (mesh888 (F := F))).pbc accuracy = .ok () := by
  rw [sanityCheck_ok_iff, size_mesh888, paddedMesh_cellSize, paddedMesh_pbc]
  refine ⟨by simp [vec3, X, Y, Z], by simp [mesh888, vec3, X, Y, Z],
    by simp [mesh888, vec3, X, Y, Z], h, ?_, ?_⟩
  · simp only [vec3, X, Y, Z]
    decide
  · intro _
    simp only [vec3, X, Y, Z]
    decide

variable [FloorRing F]

/-- C9 as stated fails on the 4 x 4 x 1 mesh (cell size (1,1,1), no periodicity, accuracy 4), in
real arithmetic: `BruteKernel` returns a tensor whose component (X, X) is present and is not
non-negative at the index `[0][0][0]`. -/
theorem self_term_not_nonneg :
    ∃ (kernel : Kernel ℝ) (sl : Slice ℝ),
      (BruteKernel 1 ⟨Real.sqrt, Real.pi⟩ mesh441 4).result = .ok kernel ∧
      kernel X X = some sl ∧ ¬ (0 ≤ sl.data 0 0 0) := by
  obtain ⟨kernel0, -, -, hres, -⟩ := BruteKernel_returns 1 ⟨Real.sqrt, Real.pi⟩
    (mesh441 (F := ℝ)) 4 (sanityCheck_mesh441 4 (by norm_num)) le_rfl
    (fun a => by rw [pbc_mesh441]; decide)
  obtain ⟨hcs, sl, hsl, hval⟩ := self_term_eq 1 ⟨Real.sqrt, Real.pi⟩ mesh441 4 pbc_mesh441 _
    hres X
  refine ⟨_, sl, hres, hsl, not_le.mpr ?_⟩
  rw [hval]
  exact fieldAt_origin_neg ⟨Real.sqrt, Real.pi⟩ (fun v hv => Real.sqrt_pos.mpr hv) Real.pi_pos
    _ hcs _ 4 X

/-- C9, amended: for every mesh without periodicity and every accuracy on which `BruteKernel`
returns, in exact arithmetic (with a square root that is positive on positive arguments and a
positive `pi`), the diagonal component `tensor[s][s]` is present and strictly negative at the
array index `[0][0][0]`, for each `s`. -/
theorem BruteKernel_self_term_neg (fuel : Nat) (env : MathEnv F)
    (hsqrt : ∀ v, 0 < v → 0 < env.sqrt v) (hpi : 0 < env.pi) (mesh : Mesh F) (accuracy : F)
    (hpbc : ∀ a, mesh.pbc a = 0) (kernel : Kernel F)
    (h : (BruteKernel fuel env mesh accuracy).result = .ok kernel) :
    ∀ s : Fin 3, ∃ sl, kernel s s = some sl ∧ sl.data 0 0 0 < 0 := by
  intro s
  obtain ⟨hcs, sl, hsl, hval⟩ := self_term_eq fuel env mesh accuracy hpbc kernel h s
  refine ⟨sl, hsl, ?_⟩
  rw [hval]
  exact fieldAt_origin_neg env hsqrt hpi _ hcs _ accuracy s

/-- Witness for C9, amended: the 8 x 8 x 8 mesh with accuracy 6, in real arithmetic. -/
theorem BruteKernel_self_term_neg_witness :
    ∃ kernel : Kernel ℝ,
      (BruteKernel 1 ⟨Real.sqrt, Real.pi⟩ mesh888 6).result = .ok kernel ∧
      ∀ s : Fin 3, ∃ sl, kernel s s = some sl ∧ sl.data 0 0 0 < 0 := by
  obtain ⟨kernel0, -, -, hres, -⟩ := BruteKernel_returns 1 ⟨Real.sqrt, Real.pi⟩
    (mesh888 (F := ℝ)) 6 (sanityCheck_mesh888 6 (by norm_num)) le_rfl
    (fun a => by rw [pbc_mesh888]; decide)
  exact ⟨_, hres, BruteKernel_self_term_neg 1 ⟨Real.sqrt, Real.pi⟩
    (fun v hv => Real.sqrt_pos.mpr hv) Real.pi_pos mesh888 6 pbc_mesh888 _ hres⟩

end

end Mag
namespace Mag

/-! ## Termination of `wrap` -/

theorem ceil_fuel (number max : Int) (hmax : 0 < max) :
    (number / max).natAbs ≤ ⌈(|number| : ℚ) / (max : ℚ)⌉.toNat + 1 := by
  have hq : (0 : ℚ) < (max : ℚ) := by exact_mod_cast hmax
  have hc0 : 0 ≤ ⌈(|number| : ℚ) / (max : ℚ)⌉ :=
    Int.ceil_nonneg (div_nonneg (abs_nonneg _) hq.le)
  have hle : (|number| : ℚ) / (max : ℚ) ≤ (⌈(|number| : ℚ) / (max : ℚ)⌉ : ℚ) := Int.le_ceil _
  rw [div_le_iff₀ hq] at hle
  have hle' : |number| ≤ ⌈(|number| : ℚ) / (max : ℚ)⌉ * max := by exact_mod_cast hle
  have habs := abs_le.mp hle'
  have hb := quot_bound max number (⌈(|number| : ℚ) / (max : ℚ)⌉ + 1) hmax
    (by nlinarith [habs.1]) (by nlinarith [habs.2])
  omega

end Mag
namespace Mag

/-! ## Flat meshes -/

theorem ranges_z_flat (size pbc : Fin 3 → Int) (hz : size Z = 1) (hp : pbc Z = 0) :
    (ranges size pbc).z1 = 0 ∧ (ranges size pbc).z2 = 0 := by
  rw [ranges_eq]
  simp [hz, hp]

section

variable {F : Type} [LinearOrderedField F] [FloorRing F]

/-- C12: when the kernel mesh has depth 1 and the Z axis is open, the Z range computed by
`BruteKernel` is the single offset 0 (`z1 == z2 == 0`), that offset wraps to the Z index 0, and
the integration leaves every array element with another Z index unchanged. -/
theorem flat_mesh_z_range (size pbc : Fin 3 → Int) (hz : size Z = 1) (hp : pbc Z = 0) :
    (ranges size pbc).z1 = 0 ∧ (ranges size pbc).z2 = 0 ∧
    intRange (ranges size pbc).z1 (ranges size pbc).z2 = [0] ∧
    (∀ fuel : Nat, wrap fuel 0 (size Z) = some 0) ∧
    ∀ (fuel : Nat) (env : MathEnv F) (cellsize : Fin 3 → F) (accuracy : F)
      (kernel kernel' : Kernel F), 0 < size X → 0 < size Y →
      integrate fuel env size cellsize pbc accuracy kernel = .ok kernel' →
      ∀ (i j : Fin 3) (z0 y0 x0 : Int), z0 ≠ 0 →
        valueAt kernel' i j z0 y0 x0 = valueAt kernel i j z0 y0 x0 := by
  obtain ⟨h1, h2⟩ := ranges_z_flat size pbc hz hp
  refine ⟨h1, h2, by rw [h1, h2]; decide, fun fuel => ?_, ?_⟩
  · rw [hz]
    cases fuel <;> rfl
  · intro fuel env cellsize accuracy kernel kernel' hx hy hint i j z0 y0 x0 hz0
    rw [integrate_value fuel env size cellsize pbc accuracy kernel kernel' hx hy
      (by rw [hz]; decide) hint i j z0 y0 x0]
    refine (add_right_eq_self).mpr (sum_map_zero _ _ (fun s _ => sum_map_zero _ _ (fun z hzr =>
      sum_map_zero _ _ (fun y _ => sum_map_zero _ _ (fun x _ => ?_)))))
    rw [mem_intRange, h1, h2] at hzr
    have hz' : z = 0 := le_antisymm hzr.2 hzr.1
    rw [if_neg]
    rintro ⟨-, -, hc, -⟩
    rw [hz', hz] at hc
    exact hz0 hc.symm

/-- Witness for C12: the kernel mesh of 8 x 8 x 1 cells without periodicity. -/
theorem flat_mesh_z_range_witness :
    (ranges (vec3 8 8 1) (vec3 0 0 0)).z1 = 0 ∧ (ranges (vec3 8 8 1) (vec3 0 0 0)).z2 = 0 ∧
    intRange (ranges (vec3 8 8 1) (vec3 0 0 0)).z1 (ranges (vec3 8 8 1) (vec3 0 0 0)).z2 = [0] ∧
    (∀ fuel : Nat, wrap fuel 0 (vec3 8 8 1 Z) = some 0) :=
  have h := flat_mesh_z_range (F := ℝ) (vec3 8 8 1) (vec3 0 0 0) (by decide) (by decide)
  ⟨h.1, h.2.1, h.2.2.1, h.2.2.2.1⟩

end

end Mag
namespace Mag

/-! ## The integration counts -/

section

variable {F : Type} [LinearOrderedField F] [FloorRing F]

theorem subdivisions_eq_spec (c m : F) : subdivisions c m = subdivisionsSpec (c / m) := by
  unfold subdivisions subdivisionsSpec roundHalfUp toInt
  have h0 : (0 : F) ≤ max (c / m) 1 + 1 / 2 := by
    have h1 := le_max_right (c / m) 1
    have h2 : (0 : F) ≤ 1 / 2 := by positivity
    linarith
  rw [if_pos h0]
  rcases le_total 1 (c / m) with h | h
  · rw [max_eq_left h, max_eq_right]
    exact Int.le_floor.mpr (by push_cast; linarith [show (0 : F) ≤ 1 / 2 by positivity])
  · rw [max_eq_right h, max_eq_left]
    · rw [Int.floor_eq_iff]
      constructor <;> norm_num
    · have : ⌊c / m + 1 / 2⌋ < 2 := by
        rw [Int.floor_lt]
        push_cast
        have : (1 : F) / 2 < 1 := by norm_num
        linarith
      omega

/-- C13: the count `int(math.Max(q, 1) + 0.5)` computed by `BruteKernel` equals
`max(1, round(q))` for every `q` (in particular every `q >= 0`), `round` rounding half up, which
is also the `round` of the library; and the counts that `BruteKernel` integrates with are, for the
two source-face axes `v` and `w`, exactly twice that value, and for X, Y, Z that value. -/
theorem subdivisions_refines_spec :
    (∀ c m : F, subdivisions c m = subdivisionsSpec (c / m)) ∧
    (∀ q : F, subdivisionsSpec q = max 1 (round q)) ∧
    ∀ (env : MathEnv F) (cellsize : Fin 3 → F) (L accuracy : F) (s : Fin 3) (x y z : Int),
      cellField env cellsize L accuracy s x y z =
        .ok (integral env cellsize s ((x : F) * cellsize X) ((y : F) * cellsize Y)
          ((z : F) * cellsize Z)
          (2 * subdivisionsSpec (cellsize (s + 1) / (refDistance env cellsize L x y z / accuracy)))
          (2 * subdivisionsSpec (cellsize (s + 2) / (refDistance env cellsize L x y z / accuracy)))
          (subdivisionsSpec (cellsize X / (refDistance env cellsize L x y z / accuracy)))
          (subdivisionsSpec (cellsize Y / (refDistance env cellsize L x y z / accuracy)))
          (subdivisionsSpec (cellsize Z / (refDistance env cellsize L x y z / accuracy)))) := by
  refine ⟨subdivisions_eq_spec, fun q => ?_, fun env cellsize L accuracy s x y z => ?_⟩
  · unfold subdivisionsSpec roundHalfUp
    rw [round_eq]
  · rw [cellField_eq]
    simp only [subdivisions_eq_spec, mul_comm (subdivisionsSpec _) 2]

end

end Mag
namespace Mag

/-! ## The reference distance -/

section

variable {F : Type} [LinearOrderedField F]

theorem delta_eq_zero_iff (d : Int) : (delta d : F) = 0 ↔ |d| ≤ 1 := by
  simp only [delta]
  rw [Int.cast_eq_zero, abs_le]
  split_ifs <;> omega

theorem lengthScale_eq_min (cellsize : Fin 3 → F) :
    lengthScale cellsize = min (cellsize X) (min (cellsize Y) (cellsize Z)) := by
  simp only [lengthScale]
  rcases le_total (cellsize X) (cellsize Y) with h1 | h1 <;>
    rcases le_total (cellsize X) (cellsize Z) with h2 | h2 <;>
    rcases le_total (cellsize Y) (cellsize Z) with h3 | h3 <;>
    split_ifs <;>
    simp only [min_def] <;> split_ifs <;> first | rfl | linarith

theorem lengthScale_pos (cellsize : Fin 3 → F) (hcs : ∀ a, 0 < cellsize a) :
    0 < lengthScale cellsize := by
  rw [lengthScale_eq_min]
  exact lt_min (hcs X) (lt_min (hcs Y) (hcs Z))

theorem sumsq_nonneg (a b c : F) : 0 ≤ a * a + b * b + c * c :=
  add_nonneg (add_nonneg (mul_self_nonneg a) (mul_self_nonneg b)) (mul_self_nonneg c)

theorem sumsq_eq_zero_iff (a b c : F) : a * a + b * b + c * c = 0 ↔ a = 0 ∧ b = 0 ∧ c = 0 := by
  constructor
  · intro h
    have ha := mul_self_nonneg a
    have hb := mul_self_nonneg b
    have hc := mul_self_nonneg c
    exact ⟨mul_self_eq_zero.mp (by linarith), mul_self_eq_zero.mp (by linarith),
      mul_self_eq_zero.mp (by linarith)⟩
  · rintro ⟨rfl, rfl, rfl⟩
    simp

/-- The reference distance is positive when the square root is non-negative and the length scale
positive. -/
theorem refDistance_pos (env : MathEnv F) (hsqrt : ∀ v, 0 ≤ v → 0 ≤ env.sqrt v)
    (cellsize : Fin 3 → F) (L : F) (hL : 0 < L) (x y z : Int) :
    0 < refDistance env cellsize L x y z := by
  simp only [refDistance]
  split_ifs with h
  · exact hL
  · exact lt_of_le_of_ne (hsqrt _ (sumsq_nonneg _ _ _)) (Ne.symm h)

end

end Mag
namespace Mag

section

variable {F : Type} [LinearOrderedField F] [FloorRing F]

/-- C14: in exact arithmetic (a non-negative square root), for every mesh with all cell sizes
positive, every positive accuracy, every source direction and every destination offset, the
target sub-cell size `d / accuracy` is positive and the five counts of `BruteKernel` satisfy
`nx, ny, nz >= 1` and `nv, nw >= 2` with `nv`, `nw` even, so the assertion of line 138 passes:
`cellField` returns the integral with these counts. -/
theorem counts_positive (env : MathEnv F) (hsqrt : ∀ v, 0 ≤ v → 0 ≤ env.sqrt v)
    (cellsize : Fin 3 → F) (hcs : ∀ a, 0 < cellsize a) (accuracy : F) (hacc : 0 < accuracy)
    (s : Fin 3) (x y z : Int) :
    ∃ (maxSize : F) (nv nw nx ny nz : Int),
      maxSize = refDistance env cellsize (lengthScale cellsize) x y z / accuracy ∧
      0 < maxSize ∧
      nv = subdivisions (cellsize (s + 1)) maxSize * 2 ∧
      nw = subdivisions (cellsize (s + 2)) maxSize * 2 ∧
      nx = subdivisions (cellsize X) maxSize ∧
      ny = subdivisions (cellsize Y) maxSize ∧
      nz = subdivisions (cellsize Z) maxSize ∧
      1 ≤ nx ∧ 1 ≤ ny ∧ 1 ≤ nz ∧ 2 ≤ nv ∧ 2 ≤ nw ∧ nv % 2 = 0 ∧ nw % 2 = 0 ∧
      (nv > 0 ∧ nw > 0 ∧ nx > 0 ∧ ny > 0 ∧ nz > 0) ∧
      cellField env cellsize (lengthScale cellsize) accuracy s x y z =
        .ok (integral env cellsize s ((x : F) * cellsize X) ((y : F) * cellsize Y)
          ((z : F) * cellsize Z) nv nw nx ny nz) := by
  have hd := refDistance_pos env hsqrt cellsize (lengthScale cellsize)
    (lengthScale_pos cellsize hcs) x y z
  have hv := subdivisions_pos (cellsize (s + 1))
    (refDistance env cellsize (lengthScale cellsize) x y z / accuracy)
  have hw := subdivisions_pos (cellsize (s + 2))
    (refDistance env cellsize (lengthScale cellsize) x y z / accuracy)
  have hx := subdivisions_pos (cellsize X)
    (refDistance env cellsize (lengthScale cellsize) x y z / accuracy)
  have hy := subdivisions_pos (cellsize Y)
    (refDistance env cellsize (lengthScale cellsize) x y z / accuracy)
  have hz := subdivisions_pos (cellsize Z)
    (refDistance env cellsize (lengthScale cellsize) x y z / accuracy)
  refine ⟨_, _, _, _, _, _, rfl, div_pos hd hacc, rfl, rfl, rfl, rfl, rfl, hx, hy, hz,
    by omega, by omega, by omega, by omega, ⟨by omega, by omega, by omega, by omega, by omega⟩,
    cellField_eq env cellsize _ accuracy s x y z⟩

/-- Witness for C14: unit cells, accuracy 6, real arithmetic, source direction X, offset
`(1, 2, 0)`. -/
theorem counts_positive_witness :
    ∃ (maxSize : ℝ) (nv nw nx ny nz : Int),
      maxSize = refDistance ⟨Real.sqrt, Real.pi⟩ (vec3 1 1 1) (lengthScale (vec3 1 1 1)) 1 2 0
        / 6 ∧
      0 < maxSize ∧
      nv = subdivisions ((vec3 1 1 1 : Fin 3 → ℝ) (X + 1)) maxSize * 2 ∧
      nw = subdivisions ((vec3 1 1 1 : Fin 3 → ℝ) (X + 2)) maxSize * 2 ∧
      nx = subdivisions ((vec3 1 1 1 : Fin 3 → ℝ) X) maxSize ∧
      ny = subdivisions ((vec3 1 1 1 : Fin 3 → ℝ) Y) maxSize ∧
      nz = subdivisions ((vec3 1 1 1 : Fin 3 → ℝ) Z) maxSize ∧
      1 ≤ nx ∧ 1 ≤ ny ∧ 1 ≤ nz ∧ 2 ≤ nv ∧ 2 ≤ nw ∧ nv % 2 = 0 ∧ nw % 2 = 0 ∧
      (nv > 0 ∧ nw > 0 ∧ nx > 0 ∧ ny > 0 ∧ nz > 0) ∧
      cellField ⟨Real.sqrt, Real.pi⟩ (vec3 1 1 1) (lengthScale (vec3 1 1 1)) 6 X 1 2 0 =
        .ok (integral ⟨Real.sqrt, Real.pi⟩ (vec3 1 1 1) X (((1 : Int) : ℝ) * vec3 1 1 1 X)
          (((2 : Int) : ℝ) * vec3 1 1 1 Y) (((0 : Int) : ℝ) * vec3 1 1 1 Z) nv nw nx ny nz) :=
  counts_positive ⟨Real.sqrt, Real.pi⟩ (fun v _ => Real.sqrt_nonneg v) (vec3 1 1 1)
    (fun a => by fin_cases a <;> simp [vec3, X, Y, Z]) 6 (by norm_num) X 1 2 0

end

section

variable {F : Type} [LinearOrderedField F]

/-- C15: with positive cell sizes, in exact arithmetic (a square root that vanishes at zero and is
positive on positive arguments), the closest-approach distance
`sqrt((delta(x)*cx)^2 + (delta(y)*cy)^2 + (delta(z)*cz)^2)` is zero exactly when `|x| <= 1`,
`|y| <= 1` and `|z| <= 1`; then the reference distance is `L = min(cx, cy, cz)`; and for every
offset the reference distance `d` and, for a positive accuracy, the target sub-cell size
`d / accuracy` are strictly positive. -/
theorem refDistance_spec (env : MathEnv F) (hsqrt0 : env.sqrt 0 = 0)
    (hsqrt : ∀ v, 0 < v → 0 < env.sqrt v) (cellsize : Fin 3 → F) (hcs : ∀ a, 0 < cellsize a)
    (accuracy : F) (hacc : 0 < accuracy) (x y z : Int) :
    (env.sqrt (delta x * cellsize X * (delta x * cellsize X)
        + delta y * cellsize Y * (delta y * cellsize Y)
        + delta z * cellsize Z * (delta z * cellsize Z)) = 0 ↔
      |x| ≤ 1 ∧ |y| ≤ 1 ∧ |z| ≤ 1) ∧
    (|x| ≤ 1 ∧ |y| ≤ 1 ∧ |z| ≤ 1 →
      refDistance env cellsize (lengthScale cellsize) x y z = lengthScale cellsize) ∧
    (¬ (|x| ≤ 1 ∧ |y| ≤ 1 ∧ |z| ≤ 1) →
      refDistance env cellsize (lengthScale cellsize) x y z =
        env.sqrt (delta x * cellsize X * (delta x * cellsize X)
          + delta y * cellsize Y * (delta y * cellsize Y)
          + delta z * cellsize Z * (delta z * cellsize Z))) ∧
    lengthScale cellsize = min (cellsize X) (min (cellsize Y) (cellsize Z)) ∧
    0 < refDistance env cellsize (lengthScale cellsize) x y z ∧
    0 < refDistance env cellsize (lengthScale cellsize) x y z / accuracy := by
  have hiff : env.sqrt (delta x * cellsize X * (delta x * cellsize X)
        + delta y * cellsize Y * (delta y * cellsize Y)
        + delta z * cellsize Z * (delta z * cellsize Z)) = 0 ↔
      |x| ≤ 1 ∧ |y| ≤ 1 ∧ |z| ≤ 1 := by
    rw [← delta_eq_zero_iff (F := F) x, ← delta_eq_zero_iff (F := F) y,
      ← delta_eq_zero_iff (F := F) z]
    constructor
    · intro h
      have hS : delta x * cellsize X * (delta x * cellsize X)
          + delta y * cellsize Y * (delta y * cellsize Y)
          + delta z * cellsize Z * (delta z * cellsize Z) = 0 := by
        by_contra hne
        exact absurd h (hsqrt _ (lt_of_le_of_ne (sumsq_nonneg _ _ _) (Ne.symm hne))).ne'
      obtain ⟨h1, h2, h3⟩ := (sumsq_eq_zero_iff _ _ _).mp hS
      exact ⟨(mul_eq_zero.mp h1).resolve_right (hcs X).ne',
        (mul_eq_zero.mp h2).resolve_right (hcs Y).ne',
        (mul_eq_zero.mp h3).resolve_right (hcs Z).ne'⟩
    · rintro ⟨h1, h2, h3⟩
      rw [h1, h2, h3]
      simpa using hsqrt0
  have hnn : ∀ v, 0 ≤ v → 0 ≤ env.sqrt v := by
    intro v hv
    rcases eq_or_lt_of_le hv with h | h
    · rw [← h, hsqrt0]
    · exact (hsqrt v h).le
  have hd := refDistance_pos env hnn cellsize (lengthScale cellsize)
    (lengthScale_pos cellsize hcs) x y z
  refine ⟨hiff, fun h => ?_, fun h => ?_, lengthScale_eq_min cellsize, hd, div_pos hd hacc⟩
  · simp only [refDistance]
    rw [if_pos (hiff.mpr h)]
  · simp only [refDistance]
    rw [if_neg (fun hc => h (hiff.mp hc))]

/-- Witness for C15: unit cells, accuracy 6, real arithmetic, offset `(1, -1, 0)`. -/
theorem refDistance_spec_witness :
    refDistance ⟨Real.sqrt, Real.pi⟩ (vec3 1 1 1) (lengthScale (vec3 1 1 1)) 1 (-1) 0
      = lengthScale (vec3 1 1 1 : Fin 3 → ℝ) ∧
    (0 : ℝ) < refDistance ⟨Real.sqrt, Real.pi⟩ (vec3 1 1 1) (lengthScale (vec3 1 1 1)) 1 (-1) 0
      / 6 :=
  have h := refDistance_spec ⟨Real.sqrt, Real.pi⟩ Real.sqrt_zero
    (fun v hv => Real.sqrt_pos.mpr hv) (vec3 1 1 1)
    (fun a => by fin_cases a <;> simp [vec3, X, Y, Z]) 6 (by norm_num) 1 (-1) 0
  ⟨h.2.1 (by decide), h.2.2.2.2.2⟩

end

end Mag
namespace Mag

/-! ## No division by zero in the integration -/

section

variable {F : Type} [LinearOrderedField F]

/-- The integral of lines 140-186 in terms of its sample points. -/
theorem integral_eq_points (env : MathEnv F) (cellsize : Fin 3 → F) (s : Fin 3) (RX RY RZ : F)
    (nv nw nx ny nz : Int) :
    integral env cellsize s RX RY RZ nv nw nx ny nz =
      forN nv (fun i B => forN nw (fun j B => forN nx (fun α B => forN ny (fun β B =>
        forN nz (fun γ B =>
          addPoles env s
            (cellsize (s + 1) * cellsize (s + 2) * (1 / ((nv * nw * nx * ny * nz : Int) : F)))
            (cellsize s / 2) (-(cellsize s / 2))
            (Function.update (Function.update (fun _ => 0) (s + 1)
              (facePoint (cellsize (s + 1)) nv i)) (s + 2) (facePoint (cellsize (s + 2)) nw j))
            (volumePoint RX (cellsize X) nx α) (volumePoint RY (cellsize Y) ny β)
            (volumePoint RZ (cellsize Z) nz γ) B) B) B) B) B) (fun _ => 0) :=
  rfl

/-- The statements of lines 166-180 in terms of the two distances `r`: each term divides by
`4 * math.Pi * r * r * r`. -/
theorem addPoles_eq_distance (env : MathEnv F) (u : Fin 3) (charge pu1 pu2 : F)
    (pole : Fin 3 → F) (rx ry rz : F) (B : Fin 3 → F) (c : Fin 3) :
    addPoles env u charge pu1 pu2 pole rx ry rz B c =
      B c +
        ((vec3 rx ry rz c - Function.update pole u pu1 c) *
            (charge / (4 * env.pi * poleDistance env (Function.update pole u pu1) rx ry rz
              * poleDistance env (Function.update pole u pu1) rx ry rz
              * poleDistance env (Function.update pole u pu1) rx ry rz))
          + (vec3 rx ry rz c - Function.update (Function.update pole u pu1) u pu2 c) *
            (-charge / (4 * env.pi
              * poleDistance env (Function.update (Function.update pole u pu1) u pu2) rx ry rz
              * poleDistance env (Function.update (Function.update pole u pu1) u pu2) rx ry rz
              * poleDistance env (Function.update (Function.update pole u pu1) u pu2)
                  rx ry rz))) := by
  fin_cases c <;> rfl

theorem poleDistance_pos (env : MathEnv F) (hsqrt : ∀ v, 0 < v → 0 < env.sqrt v)
    (pole : Fin 3 → F) (rx ry rz : F) (u : Fin 3) (h : vec3 rx ry rz u - pole u ≠ 0) :
    0 < poleDistance env pole rx ry rz := by
  apply hsqrt
  fin_cases u
  · exact add_pos_of_pos_of_nonneg (add_pos_of_pos_of_nonneg (mul_self_pos.mpr h)
      (mul_self_nonneg _)) (mul_self_nonneg _)
  · exact add_pos_of_pos_of_nonneg (add_pos_of_nonneg_of_pos (mul_self_nonneg _)
      (mul_self_pos.mpr h)) (mul_self_nonneg _)
  · exact add_pos_of_nonneg_of_pos (add_nonneg (mul_self_nonneg _) (mul_self_nonneg _))
      (mul_self_pos.mpr h)

/-- A destination sample point never lies in the plane of a pole sheet: its coordinate along the
source direction differs from `c/2` and from `-c/2`, whatever the offset `x` of the destination
cell (an odd number is not even). -/
theorem volumePoint_ne_pole (c : F) (hc : 0 < c) (x n k : Int) (hn : 1 ≤ n) :
    volumePoint ((x : F) * c) c n k - c / 2 ≠ 0 ∧
    volumePoint ((x : F) * c) c n k - -(c / 2) ≠ 0 := by
  have hN : (0 : F) < ((n : Int) : F) := by exact_mod_cast hn
  have e1 : (volumePoint ((x : F) * c) c n k - c / 2) * (2 * ((n : Int) : F))
      = c * ((2 * (n * x) - 2 * n + 2 * k + 1 : Int) : F) := by
    unfold volumePoint
    push_cast
    field_simp
    ring
  have e2 : (volumePoint ((x : F) * c) c n k - -(c / 2)) * (2 * ((n : Int) : F))
      = c * ((2 * (n * x) + 2 * k + 1 : Int) : F) := by
    unfold volumePoint
    push_cast
    field_simp
    ring
  constructor
  · intro h
    rw [h, zero_mul] at e1
    have h0 := (mul_eq_zero.mp e1.symm).resolve_left hc.ne'
    have h1 : (2 * (n * x) - 2 * n + 2 * k + 1 : Int) = 0 := by exact_mod_cast h0
    omega
  · intro h
    rw [h, zero_mul] at e2
    have h0 := (mul_eq_zero.mp e2.symm).resolve_left hc.ne'
    have h1 : (2 * (n * x) + 2 * k + 1 : Int) = 0 := by exact_mod_cast h0
    omega

end

end Mag
namespace Mag

section

variable {F : Type} [LinearOrderedField F] [FloorRing F]

/-- C11: in exact arithmetic (a square root that is positive on positive arguments, a positive
`pi`), for every mesh and accuracy that pass the sanity check, every source direction, every
destination offset and every pair of a source-face sample point `(i, j)` and a
destination-volume sample point `(α, β, γ)` of the counts that `BruteKernel` computes, the
distances `r` from the destination sample point to the positive and to the negative pole are
strictly positive, so both divisors `4 * math.Pi * r * r * r` are non-zero. -/
theorem poles_at_distance (env : MathEnv F) (hsqrt : ∀ v, 0 < v → 0 < env.sqrt v)
    (hpi : 0 < env.pi) (mesh : Mesh F) (accuracy : F)
    (hs : sanityCheck (paddedMesh mesh).size (paddedMesh mesh).cellSize (paddedMesh mesh).pbc
      accuracy = .ok ())
    (s : Fin 3) (x y z : Int) (maxSize : F) (nv nw nx ny nz : Int)
    (hm : maxSize = refDistance env (paddedMesh mesh).cellSize
      (lengthScale (paddedMesh mesh).cellSize) x y z / accuracy)
    (hnv : nv = subdivisions ((paddedMesh mesh).cellSize (s + 1)) maxSize * 2)
    (hnw : nw = subdivisions ((paddedMesh mesh).cellSize (s + 2)) maxSize * 2)
    (hnx : nx = subdivisions ((paddedMesh mesh).cellSize X) maxSize)
    (hny : ny = subdivisions ((paddedMesh mesh).cellSize Y) maxSize)
    (hnz : nz = subdivisions ((paddedMesh mesh).cellSize Z) maxSize)
    (i j α β γ : Int) (pole : Fin 3 → F) (rx ry rz : F)
    (hpole : pole = Function.update (Function.update (fun _ => 0) (s + 1)
      (facePoint ((paddedMesh mesh).cellSize (s + 1)) nv i)) (s + 2)
      (facePoint ((paddedMesh mesh).cellSize (s + 2)) nw j))
    (hrx : rx = volumePoint ((x : F) * (paddedMesh mesh).cellSize X)
      ((paddedMesh mesh).cellSize X) nx α)
    (hry : ry = volumePoint ((y : F) * (paddedMesh mesh).cellSize Y)
      ((paddedMesh mesh).cellSize Y) ny β)
    (hrz : rz = volumePoint ((z : F) * (paddedMesh mesh).cellSize Z)
      ((paddedMesh mesh).cellSize Z) nz γ) :
    0 < poleDistance env (Function.update pole s ((paddedMesh mesh).cellSize s / 2)) rx ry rz ∧
    0 < poleDistance env (Function.update
      (Function.update pole s ((paddedMesh mesh).cellSize s / 2)) s
      (-((paddedMesh mesh).cellSize s / 2))) rx ry rz ∧
    4 * env.pi
      * poleDistance env (Function.update pole s ((paddedMesh mesh).cellSize s / 2)) rx ry rz
      * poleDistance env (Function.update pole s ((paddedMesh mesh).cellSize s / 2)) rx ry rz
      * poleDistance env (Function.update pole s ((paddedMesh mesh).cellSize s / 2)) rx ry rz
      ≠ 0 ∧
    4 * env.pi
      * poleDistance env (Function.update
          (Function.update pole s ((paddedMesh mesh).cellSize s / 2)) s
          (-((paddedMesh mesh).cellSize s / 2))) rx ry rz
      * poleDistance env (Function.update
          (Function.update pole s ((paddedMesh mesh).cellSize s / 2)) s
          (-((paddedMesh mesh).cellSize s / 2))) rx ry rz
      * poleDistance env (Function.update
          (Function.update pole s ((paddedMesh mesh).cellSize s / 2)) s
          (-((paddedMesh mesh).cellSize s / 2))) rx ry rz
      ≠ 0 := by
  obtain ⟨-, ⟨cx, cy, cz⟩, -⟩ := (sanityCheck_ok_iff _ _ _ _).mp hs
  subst hm hnv hnw
  have px := volumePoint_ne_pole ((paddedMesh mesh).cellSize X) cx x nx α
    (hnx ▸ subdivisions_pos _ _)
  have py := volumePoint_ne_pole ((paddedMesh mesh).cellSize Y) cy y ny β
    (hny ▸ subdivisions_pos _ _)
  have pz := volumePoint_ne_pole ((paddedMesh mesh).cellSize Z) cz z nz γ
    (hnz ▸ subdivisions_pos _ _)
  rw [← hrx] at px
  rw [← hry] at py
  rw [← hrz] at pz
  have h1 : vec3 rx ry rz s
      - Function.update pole s ((paddedMesh mesh).cellSize s / 2) s ≠ 0 := by
    rw [Function.update_same]
    fin_cases s
    · exact px.1
    · exact py.1
    · exact pz.1
  have h2 : vec3 rx ry rz s
      - Function.update (Function.update pole s ((paddedMesh mesh).cellSize s / 2)) s
        (-((paddedMesh mesh).cellSize s / 2)) s ≠ 0 := by
    rw [Function.update_same]
    fin_cases s
    · exact px.2
    · exact py.2
    · exact pz.2
  have r1 := poleDistance_pos env hsqrt _ rx ry rz s h1
  have r2 := poleDistance_pos env hsqrt _ rx ry rz s h2
  exact ⟨r1, r2, by positivity, by positivity⟩

end

/-- Witness for C11: the 8 x 8 x 8 mesh of unit cells without periodicity, accuracy 6, real
arithmetic; source direction X, destination offset `(0, 0, 0)`, the first sample point of the
source face and of the destination volume. -/
theorem poles_at_distance_witness :
    0 < poleDistance (⟨Real.sqrt, Real.pi⟩ : MathEnv ℝ)
      (Function.update
        (Function.update (Function.update (fun _ => 0) (X + 1)
          (facePoint ((paddedMesh (mesh888 (F := ℝ))).cellSize (X + 1))
            (subdivisions ((paddedMesh (mesh888 (F := ℝ))).cellSize (X + 1))
              (refDistance ⟨Real.sqrt, Real.pi⟩ (paddedMesh (mesh888 (F := ℝ))).cellSize
                (lengthScale (paddedMesh (mesh888 (F := ℝ))).cellSize) 0 0 0 / 6) * 2) 0))
          (X + 2)
          (facePoint ((paddedMesh (mesh888 (F := ℝ))).cellSize (X + 2))
            (subdivisions ((paddedMesh (mesh888 (F := ℝ))).cellSize (X + 2))
              (refDistance ⟨Real.sqrt, Real.pi⟩ (paddedMesh (mesh888 (F := ℝ))).cellSize
                (lengthScale (paddedMesh (mesh888 (F := ℝ))).cellSize) 0 0 0 / 6) * 2) 0))
        X ((paddedMesh (mesh888 (F := ℝ))).cellSize X / 2))
      (volumePoint (((0 : Int) : ℝ) * (paddedMesh (mesh888 (F := ℝ))).cellSize X)
        ((paddedMesh (mesh888 (F := ℝ))).cellSize X)
        (subdivisions ((paddedMesh (mesh888 (F := ℝ))).cellSize X)
          (refDistance ⟨Real.sqrt, Real.pi⟩ (paddedMesh (mesh888 (F := ℝ))).cellSize
            (lengthScale (paddedMesh (mesh888 (F := ℝ))).cellSize) 0 0 0 / 6)) 0)
      (volumePoint (((0 : Int) : ℝ) * (paddedMesh (mesh888 (F := ℝ))).cellSize Y)
        ((paddedMesh (mesh888 (F := ℝ))).cellSize Y)
        (subdivisions ((paddedMesh (mesh888 (F := ℝ))).cellSize Y)
          (refDistance ⟨Real.sqrt, Real.pi⟩ (paddedMesh (mesh888 (F := ℝ))).cellSize
            (lengthScale (paddedMesh (mesh888 (F := ℝ))).cellSize) 0 0 0 / 6)) 0)
      (volumePoint (((0 : Int) : ℝ) * (paddedMesh (mesh888 (F := ℝ))).cellSize Z)
        ((paddedMesh (mesh888 (F := ℝ))).cellSize Z)
        (subdivisions ((paddedMesh (mesh888 (F := ℝ))).cellSize Z)
          (refDistance ⟨Real.sqrt, Real.pi⟩ (paddedMesh (mesh888 (F := ℝ))).cellSize
            (lengthScale (paddedMesh (mesh888 (F := ℝ))).cellSize) 0 0 0 / 6)) 0) :=
  (poles_at_distance ⟨Real.sqrt, Real.pi⟩ (fun v hv => Real.sqrt_pos.mpr hv) Real.pi_pos
    (mesh888 (F := ℝ)) 6 (sanityCheck_mesh888 6 (by norm_num)) X 0 0 0 _ _ _ _ _ _
    rfl rfl rfl rfl rfl rfl 0 0 0 0 0 _ _ _ _ rfl rfl rfl rfl).1

end Mag
namespace Mag

/-! ## Which array elements the integration reaches -/

/-- On an open axis of `n >= 1` cells two offsets of the destination range with the same wrapped
index are equal. -/
theorem open_axis_inj (n x x' : Int) (hn : 1 ≤ n)
    (h1 : Int.tdiv (-(n - 1)) 2 ≤ x) (h2 : x ≤ Int.tdiv (n - 1) 2)
    (h1' : Int.tdiv (-(n - 1)) 2 ≤ x') (h2' : x' ≤ Int.tdiv (n - 1) 2)
    (h : x % n = x' % n) : x = x' := by
  rw [(tdiv_open n hn).1] at h1 h1'
  rw [(tdiv_open n hn).2] at h2 h2'
  have hd : n ∣ x - x' := Int.dvd_of_emod_eq_zero (Int.emod_eq_emod_iff_emod_sub_eq_zero.mp h)
  have h0 : x - x' = 0 := by
    apply Int.eq_zero_of_abs_lt_dvd hd
    rw [abs_lt]
    constructor <;> omega
  omega

theorem emod_of_range (n x : Int) (h1 : -n ≤ x) (h2 : x < n) :
    x % n = if 0 ≤ x then x else x + n := by
  split_ifs with h
  · exact Int.emod_eq_of_lt h h2
  · rw [← Int.add_emod_self]
    exact Int.emod_eq_of_lt (by omega) (by omega)

/-- On an open axis of an even number `n >= 2` of cells the wrapped indices of the offsets of the
destination range are the indices `0, ..., n-1` other than `n/2`. -/
theorem open_axis_image (n r : Int) (hn : 2 ≤ n) (he : n % 2 = 0) :
    (∃ x, Int.tdiv (-(n - 1)) 2 ≤ x ∧ x ≤ Int.tdiv (n - 1) 2 ∧ x % n = r) ↔
      (0 ≤ r ∧ r < n ∧ r ≠ n / 2) := by
  rw [(tdiv_open n (by omega)).1, (tdiv_open n (by omega)).2]
  constructor
  · rintro ⟨x, h1, h2, rfl⟩
    rw [emod_of_range n x (by omega) (by omega)]
    split_ifs <;> refine ⟨?_, ?_, ?_⟩ <;> omega
  · rintro ⟨h1, h2, h3⟩
    by_cases hr : r < n / 2
    · exact ⟨r, by omega, by omega, Int.emod_eq_of_lt h1 h2⟩
    · refine ⟨r - n, by omega, by omega, ?_⟩
      rw [emod_of_range n (r - n) (by omega) (by omega), if_neg (by omega)]
      omega

section

variable {F : Type} [LinearOrderedField F]

/-- The sum over one open axis of a family that vanishes at every offset not wrapped to the index
of the offset `a` of the range is its value at `a`. -/
theorem sum_open_axis_at (n : Int) (hn : 1 ≤ n) (g : Int → F) (a : Int)
    (ha : a ∈ intRange (Int.tdiv (-(n - 1)) 2) (Int.tdiv (n - 1) 2))
    (hg : ∀ x, x % n ≠ a % n → g x = 0) :
    ((intRange (Int.tdiv (-(n - 1)) 2) (Int.tdiv (n - 1) 2)).map g).sum = g a := by
  refine sum_map_single g a _ (nodup_intRange _ _) ha (fun x hx hne => ?_)
  rw [mem_intRange] at hx ha
  exact hg x (fun h0 => hne (open_axis_inj n x a hn hx.1 hx.2 ha.1 ha.2 h0))

theorem valueAt_finish (size : Fin 3 → Int) (kernel : Kernel F) (h : size 0 ≠ 1) (i j : Fin 3)
    (z y x : Int) :
    valueAt (finish size kernel) i j z y x = valueAt kernel (min i j) (max i j) z y x := by
  unfold valueAt
  rcases le_total i j with hij | hij
  · rw [finish_upper size kernel h i j hij, min_eq_left hij, max_eq_right hij]
  · rw [finish_lower size kernel h j i hij, min_eq_right hij, max_eq_left hij]

variable [FloorRing F]

/-- On a mesh without periodicity the integration adds to the component `(s, d)`, `s <= d`, at
the wrapped index of an offset `(x, y, z)` of the ranges exactly the field `B[d]` of that one
visit. -/
theorem integrate_cell (fuel : Nat) (env : MathEnv F) (size : Fin 3 → Int)
    (cellsize : Fin 3 → F) (pbc : Fin 3 → Int) (accuracy : F) (kernel kernel' : Kernel F)
    (hsize : ∀ a, 1 ≤ size a) (hpbc : ∀ a, pbc a = 0)
    (h : integrate fuel env size cellsize pbc accuracy kernel = .ok kernel')
    (s d : Fin 3) (hsd : s ≤ d) (x y z : Int)
    (hx : x ∈ intRange (ranges size pbc).x1 (ranges size pbc).x2)
    (hy : y ∈ intRange (ranges size pbc).y1 (ranges size pbc).y2)
    (hz : z ∈ intRange (ranges size pbc).z1 (ranges size pbc).z2) :
    valueAt kernel' s d (z % size Z) (y % size Y) (x % size X) =
      valueAt kernel s d (z % size Z) (y % size Y) (x % size X) +
        fieldAt env cellsize (lengthScale cellsize) accuracy s x y z d := by
  rw [integrate_value fuel env size cellsize pbc accuracy kernel kernel' (hsize X) (hsize Y)
    (hsize Z) h s d _ _ _]
  rw [ranges_open size pbc hpbc] at hx hy hz ⊢
  congr 1
  rw [sum_map_single _ s (List.finRange 3) (List.nodup_finRange 3) (List.mem_finRange s)]
  · rw [sum_open_axis_at (size Z) (hsize Z) _ z hz, sum_open_axis_at (size Y) (hsize Y) _ y hy,
      sum_open_axis_at (size X) (hsize X) _ x hx]
    · simp [hsd]
    · intro x' hx'
      rw [if_neg]
      exact fun hc => hx' hc.2.2.2.2
    · intro y' hy'
      refine sum_map_zero _ _ (fun x' _ => ?_)
      rw [if_neg]
      exact fun hc => hy' hc.2.2.2.1
    · intro z' hz'
      refine sum_map_zero _ _ (fun y' _ => sum_map_zero _ _ (fun x' _ => ?_))
      rw [if_neg]
      exact fun hc => hz' hc.2.2.1
  · intro s' _ hne
    refine sum_map_zero _ _ (fun z' _ => sum_map_zero _ _ (fun y' _ =>
      sum_map_zero _ _ (fun x' _ => ?_)))
    rw [if_neg]
    exact fun hc => hne hc.1

/-- The integration leaves unchanged every array element whose index along some axis is not the
wrapped index of any offset of the range of that axis. -/
theorem integrate_unreached (fuel : Nat) (env : MathEnv F) (size : Fin 3 → Int)
    (cellsize : Fin 3 → F) (pbc : Fin 3 → Int) (accuracy : F) (kernel kernel' : Kernel F)
    (hsize : ∀ a, 1 ≤ size a)
    (h : integrate fuel env size cellsize pbc accuracy kernel = .ok kernel')
    (i j : Fin 3) (z0 y0 x0 : Int)
    (hun : (∀ x ∈ intRange (ranges size pbc).x1 (ranges size pbc).x2, x % size X ≠ x0) ∨
      (∀ y ∈ intRange (ranges size pbc).y1 (ranges size pbc).y2, y % size Y ≠ y0) ∨
      (∀ z ∈ intRange (ranges size pbc).z1 (ranges size pbc).z2, z % size Z ≠ z0)) :
    valueAt kernel' i j z0 y0 x0 = valueAt kernel i j z0 y0 x0 := by
  rw [integrate_value fuel env size cellsize pbc accuracy kernel kernel' (hsize X) (hsize Y)
    (hsize Z) h i j z0 y0 x0]
  refine (add_right_eq_self).mpr (sum_map_zero _ _ (fun s _ => sum_map_zero _ _ (fun z hz =>
    sum_map_zero _ _ (fun y hy => sum_map_zero _ _ (fun x hx => ?_)))))
  rw [if_neg]
  rintro ⟨-, -, hcz, hcy, hcx⟩
  rcases hun with hu | hu | hu
  · exact hu x hx hcx
  · exact hu y hy hcy
  · exact hu z hz hcz

end

end Mag
namespace Mag

section

variable {F : Type} [LinearOrderedField F]

theorem size_meshPeriodicX : (paddedMesh (meshPeriodicX (F := F))).size = vec3 2 4 1 := by
  rw [paddedMesh_size]
  funext a
  rw [padSize_apply]
  fin_cases a <;> simp [meshPeriodicX, vec3, X, Y, Z]

theorem sanityCheck_meshPeriodicX (accuracy : F) (h : 0 < accuracy) :
    sanityCheck (paddedMesh (meshPeriodicX (F := F))).size
      (paddedMesh (meshPeriodicX (F := F))).cellSize
      (paddedMesh (meshPeriodicX (F := F))).pbc accuracy = .ok () := by
  rw [sanityCheck_ok_iff, size_meshPeriodicX, paddedMesh_cellSize, paddedMesh_pbc]
  refine ⟨by simp [vec3, X, Y, Z], by simp [meshPeriodicX, vec3, X, Y, Z],
    by simp [meshPeriodicX, vec3, X, Y, Z], h, ?_, by simp [vec3, X, Y, Z]⟩
  simp only [vec3, X, Y, Z]
  decide

end

/-- C16 as stated fails on the mesh of 2 x 2 x 1 unit cells with one periodic repeat along X
(accuracy 4, real arithmetic): it passes the sanity check, its kernel mesh has 2 x 4 x 1 cells, the
distinct offset triples `(-1, 0, 0)` and `(1, 0, 0)` both lie in the destination ranges, and both
are wrapped to the index triple `[0][0][1]`. -/
theorem periodic_offsets_collide :
    sanityCheck (paddedMesh (meshPeriodicX (F := ℝ))).size
      (paddedMesh (meshPeriodicX (F := ℝ))).cellSize
      (paddedMesh (meshPeriodicX (F := ℝ))).pbc 4 = .ok () ∧
    (paddedMesh (meshPeriodicX (F := ℝ))).size = vec3 2 4 1 ∧
    ((-1 : Int) ∈ intRange
        (ranges (paddedMesh (meshPeriodicX (F := ℝ))).size
          (paddedMesh (meshPeriodicX (F := ℝ))).pbc).x1
        (ranges (paddedMesh (meshPeriodicX (F := ℝ))).size
          (paddedMesh (meshPeriodicX (F := ℝ))).pbc).x2 ∧
      (1 : Int) ∈ intRange
        (ranges (paddedMesh (meshPeriodicX (F := ℝ))).size
          (paddedMesh (meshPeriodicX (F := ℝ))).pbc).x1
        (ranges (paddedMesh (meshPeriodicX (F := ℝ))).size
          (paddedMesh (meshPeriodicX (F := ℝ))).pbc).x2 ∧
      (0 : Int) ∈ intRange
        (ranges (paddedMesh (meshPeriodicX (F := ℝ))).size
          (paddedMesh (meshPeriodicX (F := ℝ))).pbc).y1
        (ranges (paddedMesh (meshPeriodicX (F := ℝ))).size
          (paddedMesh (meshPeriodicX (F := ℝ))).pbc).y2 ∧
      (0 : Int) ∈ intRange
        (ranges (paddedMesh (meshPeriodicX (F := ℝ))).size
          (paddedMesh (meshPeriodicX (F := ℝ))).pbc).z1
        (ranges (paddedMesh (meshPeriodicX (F := ℝ))).size
          (paddedMesh (meshPeriodicX (F := ℝ))).pbc).z2) ∧
    (wrap 1 (-1) ((paddedMesh (meshPeriodicX (F := ℝ))).size X) = some 1 ∧
      wrap 1 1 ((paddedMesh (meshPeriodicX (F := ℝ))).size X) = some 1 ∧
      wrap 1 0 ((paddedMesh (meshPeriodicX (F := ℝ))).size Y) = some 0 ∧
      wrap 1 0 ((paddedMesh (meshPeriodicX (F := ℝ))).size Z) = some 0) ∧
    ((-1, 0, 0) : Int × Int × Int) ≠ (1, 0, 0) := by
  refine ⟨sanityCheck_meshPeriodicX 4 (by norm_num), size_meshPeriodicX, ?_, ?_, by decide⟩
  · rw [size_meshPeriodicX, paddedMesh_pbc]
    decide
  · rw [size_meshPeriodicX]
    decide

end Mag
namespace Mag

theorem ranges_meshPeriodicX :
    ranges (vec3 2 4 1) (vec3 1 0 0) = { x1 := -1, x2 := 1, y1 := -1, y2 := 1, z1 := 0, z2 := 0 } := by
  decide

theorem intRange_neg_one_one : intRange (-1) 1 = [-1, 0, 1] := by decide

theorem intRange_zero_zero : intRange 0 0 = [0] := by decide

/-- On the mesh of 2 x 2 x 1 cells with one periodic repeat along X, the element `[0][0][1]` of
the component (X, X) receives two accumulations, from the offsets `(-1, 0, 0)` and `(1, 0, 0)`. -/
theorem periodic_two_accumulations (fuel : Nat) (accuracy : ℝ) (kernel kernel' : Kernel ℝ)
    (h : integrate fuel ⟨Real.sqrt, Real.pi⟩ (vec3 2 4 1) (vec3 1 1 1) (vec3 1 0 0) accuracy kernel
      = .ok kernel') :
    valueAt kernel' X X 0 0 1 =
      valueAt kernel X X 0 0 1 +
        (fieldAt ⟨Real.sqrt, Real.pi⟩ (vec3 1 1 1) (lengthScale (vec3 1 1 1)) accuracy X (-1) 0 0 X
          + fieldAt ⟨Real.sqrt, Real.pi⟩ (vec3 1 1 1) (lengthScale (vec3 1 1 1)) accuracy X 1 0 0
            X) := by
  rw [integrate_value fuel _ (vec3 2 4 1) (vec3 1 1 1) (vec3 1 0 0) accuracy kernel kernel'
    (by decide) (by decide) (by decide) h X X 0 0 1, ranges_meshPeriodicX, finRange_three,
    intRange_neg_one_one, intRange_zero_zero]
  simp [vec3, X, Y, Z, (by decide : ¬ (4 : Int) ∣ 1)]

/-- On the mesh of 2 x 2 x 1 cells with one periodic repeat along X (accuracy 4, real arithmetic)
`BruteKernel` returns a tensor whose component (X, X) holds at `[0][0][1]` the sum of the fields
of the two offsets `(-1, 0, 0)` and `(1, 0, 0)`. -/
theorem periodic_run_two_accumulations :
    ∃ kernel : Kernel ℝ,
      (BruteKernel 1 ⟨Real.sqrt, Real.pi⟩ meshPeriodicX 4).result = .ok kernel ∧
      valueAt kernel X X 0 0 1 =
        fieldAt ⟨Real.sqrt, Real.pi⟩ (vec3 1 1 1) (lengthScale (vec3 1 1 1)) 4 X (-1) 0 0 X
          + fieldAt ⟨Real.sqrt, Real.pi⟩ (vec3 1 1 1) (lengthScale (vec3 1 1 1)) 4 X 1 0 0 X := by
  obtain ⟨kernel0, hint, -, hres, -⟩ := BruteKernel_returns 1 ⟨Real.sqrt, Real.pi⟩
    (meshPeriodicX (F := ℝ)) 4 (sanityCheck_meshPeriodicX 4 (by norm_num)) le_rfl
    (fun a => by fin_cases a <;> simp [meshPeriodicX, vec3, X, Y, Z])
  refine ⟨_, hres, ?_⟩
  have hcs : (paddedMesh (meshPeriodicX (F := ℝ))).cellSize = vec3 1 1 1 := by
    rw [paddedMesh_cellSize]
    rfl
  have hpbc : (paddedMesh (meshPeriodicX (F := ℝ))).pbc = vec3 1 0 0 := rfl
  rw [size_meshPeriodicX, hcs, hpbc] at hint
  have h0 : valueAt (allocate (F := ℝ) (vec3 2 4 1)).1 X X 0 0 1 = 0 := by
    unfold valueAt
    rw [allocate_fst, if_pos le_rfl]
    rfl
  rw [size_meshPeriodicX, valueAt_finish _ _ (by decide), min_self, max_self,
    periodic_two_accumulations 1 4 _ kernel0 hint, h0, zero_add]

end Mag
namespace Mag

section

variable {F : Type} [LinearOrderedField F] [FloorRing F]

/-- C16, amended: for every mesh without periodicity that passes the sanity check, distinct
destination offset triples of the computed ranges are wrapped to distinct index triples (two
triples of the ranges with the same wrapped indices are equal), and for every source direction
`s` and every `d >= s` the integration adds to the element of the component `(s, d)` at the
wrapped index of an offset triple exactly the one field value `B[d]` of that triple: every
element receives at most one accumulation per component. On a periodic axis several offsets
share a wrapped index and their contributions are summed. -/
theorem offsets_injective_open (mesh : Mesh F) (accuracy : F)
    (hs : sanityCheck (paddedMesh mesh).size (paddedMesh mesh).cellSize (paddedMesh mesh).pbc
      accuracy = .ok ())
    (hpbc : ∀ a, mesh.pbc a = 0) (x y z x' y' z' : Int)
    (hx : x ∈ intRange (ranges (paddedMesh mesh).size (paddedMesh mesh).pbc).x1
      (ranges (paddedMesh mesh).size (paddedMesh mesh).pbc).x2)
    (hy : y ∈ intRange (ranges (paddedMesh mesh).size (paddedMesh mesh).pbc).y1
      (ranges (paddedMesh mesh).size (paddedMesh mesh).pbc).y2)
    (hz : z ∈ intRange (ranges (paddedMesh mesh).size (paddedMesh mesh).pbc).z1
      (ranges (paddedMesh mesh).size (paddedMesh mesh).pbc).z2)
    (hx' : x' ∈ intRange (ranges (paddedMesh mesh).size (paddedMesh mesh).pbc).x1
      (ranges (paddedMesh mesh).size (paddedMesh mesh).pbc).x2)
    (hy' : y' ∈ intRange (ranges (paddedMesh mesh).size (paddedMesh mesh).pbc).y1
      (ranges (paddedMesh mesh).size (paddedMesh mesh).pbc).y2)
    (hz' : z' ∈ intRange (ranges (paddedMesh mesh).size (paddedMesh mesh).pbc).z1
      (ranges (paddedMesh mesh).size (paddedMesh mesh).pbc).z2) :
    (∀ (fuel : Nat) (zw yw xw : Int),
      wrap fuel z ((paddedMesh mesh).size Z) = some zw →
      wrap fuel z' ((paddedMesh mesh).size Z) = some zw →
      wrap fuel y ((paddedMesh mesh).size Y) = some yw →
      wrap fuel y' ((paddedMesh mesh).size Y) = some yw →
      wrap fuel x ((paddedMesh mesh).size X) = some xw →
      wrap fuel x' ((paddedMesh mesh).size X) = some xw →
      (x, y, z) = (x', y', z')) ∧
    ∀ (fuel : Nat) (env : MathEnv F) (kernel kernel' : Kernel F),
      integrate fuel env (paddedMesh mesh).size (paddedMesh mesh).cellSize (paddedMesh mesh).pbc
        accuracy kernel = .ok kernel' →
      ∀ s d : Fin 3, s ≤ d →
        valueAt kernel' s d (z % (paddedMesh mesh).size Z) (y % (paddedMesh mesh).size Y)
            (x % (paddedMesh mesh).size X) =
          valueAt kernel s d (z % (paddedMesh mesh).size Z) (y % (paddedMesh mesh).size Y)
              (x % (paddedMesh mesh).size X) +
            fieldAt env (paddedMesh mesh).cellSize (lengthScale (paddedMesh mesh).cellSize)
              accuracy s x y z d := by
  obtain ⟨⟨sz, sy, sx⟩, -⟩ := (sanityCheck_ok_iff _ _ _ _).mp hs
  have hsize : ∀ a, 1 ≤ (paddedMesh mesh).size a :=
    forall_fin3 _ (by omega) (by omega) (by omega)
  refine ⟨fun fuel zw yw xw wz wz' wy wy' wx wx' => ?_,
    fun fuel env kernel kernel' hint s d hsd =>
      integrate_cell fuel env _ _ _ accuracy kernel kernel' hsize hpbc hint s d hsd x y z hx hy hz⟩
  rw [ranges_open (paddedMesh mesh).size (paddedMesh mesh).pbc hpbc] at hx hy hz hx' hy' hz'
  rw [mem_intRange] at hx hy hz hx' hy' hz'
  have ex : x = x' := open_axis_inj _ x x' (hsize X) hx.1 hx.2 hx'.1 hx'.2
    ((wrap_some fuel x _ xw (hsize X) wx).symm.trans (wrap_some fuel x' _ xw (hsize X) wx'))
  have ey : y = y' := open_axis_inj _ y y' (hsize Y) hy.1 hy.2 hy'.1 hy'.2
    ((wrap_some fuel y _ yw (hsize Y) wy).symm.trans (wrap_some fuel y' _ yw (hsize Y) wy'))
  have ez : z = z' := open_axis_inj _ z z' (hsize Z) hz.1 hz.2 hz'.1 hz'.2
    ((wrap_some fuel z _ zw (hsize Z) wz).symm.trans (wrap_some fuel z' _ zw (hsize Z) wz'))
  rw [ex, ey, ez]

end

section

variable {F : Type} [LinearOrderedField F]

theorem ranges_mesh441 :
    ranges (paddedMesh (mesh441 (F := F))).size (paddedMesh (mesh441 (F := F))).pbc =
      { x1 := -3, x2 := 3, y1 := -3, y2 := 3, z1 := 0, z2 := 0 } := by
  have hp : (mesh441 (F := F)).pbc = vec3 0 0 0 := rfl
  rw [size_mesh441, paddedMesh_pbc, hp]
  decide

end

/-- Witness for C16, amended: the 4 x 4 x 1 mesh with accuracy 4 in real arithmetic and the offset
triple `(3, -2, 0)` of its ranges: the integration returns, and adds to the component (X, X) at
the wrapped index of the triple the one field value of that triple. -/
theorem offsets_injective_open_witness :
    ∃ kernel' : Kernel ℝ,
      integrate 1 ⟨Real.sqrt, Real.pi⟩ (paddedMesh (mesh441 (F := ℝ))).size
        (paddedMesh (mesh441 (F := ℝ))).cellSize (paddedMesh (mesh441 (F := ℝ))).pbc 4
        (allocate (paddedMesh (mesh441 (F := ℝ))).size).1 = .ok kernel' ∧
      valueAt kernel' X X (0 % (paddedMesh (mesh441 (F := ℝ))).size Z)
          (-2 % (paddedMesh (mesh441 (F := ℝ))).size Y)
          (3 % (paddedMesh (mesh441 (F := ℝ))).size X) =
        valueAt (allocate (paddedMesh (mesh441 (F := ℝ))).size).1 X X
            (0 % (paddedMesh (mesh441 (F := ℝ))).size Z)
            (-2 % (paddedMesh (mesh441 (F := ℝ))).size Y)
            (3 % (paddedMesh (mesh441 (F := ℝ))).size X) +
          fieldAt ⟨Real.sqrt, Real.pi⟩ (paddedMesh (mesh441 (F := ℝ))).cellSize
            (lengthScale (paddedMesh (mesh441 (F := ℝ))).cellSize) 4 X 3 (-2) 0 X := by
  obtain ⟨kernel0, hint, -, -, -⟩ := BruteKernel_returns 1 ⟨Real.sqrt, Real.pi⟩
    (mesh441 (F := ℝ)) 4 (sanityCheck_mesh441 4 (by norm_num)) le_rfl
    (fun a => by rw [pbc_mesh441]; decide)
  exact ⟨kernel0, hint,
    (offsets_injective_open (mesh441 (F := ℝ)) 4 (sanityCheck_mesh441 4 (by norm_num))
      pbc_mesh441 3 (-2) 0 3 (-2) 0
      (by rw [ranges_mesh441]; decide) (by rw [ranges_mesh441]; decide)
      (by rw [ranges_mesh441]; decide) (by rw [ranges_mesh441]; decide)
      (by rw [ranges_mesh441]; decide) (by rw [ranges_mesh441]; decide)).2
      1 ⟨Real.sqrt, Real.pi⟩ _ kernel0 hint X X le_rfl⟩

end Mag
namespace Mag

theorem even_of_tmod (n : Int) (hn : 0 ≤ n) (he : Int.tmod n 2 = 0) :
    n % 2 = 0 ∧ Int.tdiv n 2 = n / 2 := by
  rw [Int.tmod_eq_emod hn (by decide)] at he
  exact ⟨he, Int.tdiv_eq_ediv hn (by decide)⟩

/-- On an open axis of an even number `n >= 2` of cells no offset of the destination range is
wrapped to the index `n/2`. -/
theorem open_axis_middle (n : Int) (hn : 2 ≤ n) (he : Int.tmod n 2 = 0) :
    ∀ x ∈ intRange (Int.tdiv (-(n - 1)) 2) (Int.tdiv (n - 1) 2), x % n ≠ Int.tdiv n 2 := by
  intro x hx
  rw [mem_intRange] at hx
  obtain ⟨he', hd⟩ := even_of_tmod n (by omega) he
  rw [hd]
  exact ((open_axis_image n (x % n) hn he').mp ⟨x, hx.1, hx.2, rfl⟩).2.2

section

variable {F : Type} [LinearOrderedField F]

theorem valueAt_allocate (size : Fin 3 → Int) (i j : Fin 3) (z y x : Int) :
    valueAt (allocate (F := F) size).1 i j z y x = 0 := by
  unfold valueAt
  rw [allocate_fst]
  split_ifs <;> rfl

variable [FloorRing F]

/-- C17: for an open axis of an even number `n >= 2` of cells, `wrap` maps the offsets of the
destination range `-(n-1)/2 .. (n-1)/2` (Go's division) injectively onto the indices
`0, ..., n-1` other than `n/2`. Hence every tensor that `BruteKernel` returns for a mesh without
periodicity holds, in the component `(s, d)`, `s <= d`, at the wrapped index of an offset triple
of the ranges, the one field value `B[d]` of the visit `(s, x, y, z)` (one write per source
direction), and holds the initial value zero at every index that equals `n/2` along X, along Y,
or along Z when the depth is more than one. -/
theorem open_axis_wrap :
    (∀ n : Int, 2 ≤ n → Int.tmod n 2 = 0 →
      (∀ x, Int.tdiv (-(n - 1)) 2 ≤ x → x ≤ Int.tdiv (n - 1) 2 →
        wrap 1 x n = some (x % n)) ∧
      (∀ x x', Int.tdiv (-(n - 1)) 2 ≤ x → x ≤ Int.tdiv (n - 1) 2 →
        Int.tdiv (-(n - 1)) 2 ≤ x' → x' ≤ Int.tdiv (n - 1) 2 →
        ∀ (fuel : Nat) (r : Int), wrap fuel x n = some r → wrap fuel x' n = some r → x = x') ∧
      (∀ r : Int,
        (∃ x, Int.tdiv (-(n - 1)) 2 ≤ x ∧ x ≤ Int.tdiv (n - 1) 2 ∧ wrap 1 x n = some r) ↔
          (0 ≤ r ∧ r < n ∧ r ≠ Int.tdiv n 2))) ∧
    (∀ (fuel : Nat) (env : MathEnv F) (mesh : Mesh F) (accuracy : F) (kernel : Kernel F),
      (∀ a, mesh.pbc a = 0) →
      (BruteKernel fuel env mesh accuracy).result = .ok kernel →
      (∀ (s d : Fin 3) (x y z : Int), s ≤ d →
        x ∈ intRange (ranges (paddedMesh mesh).size (paddedMesh mesh).pbc).x1
          (ranges (paddedMesh mesh).size (paddedMesh mesh).pbc).x2 →
        y ∈ intRange (ranges (paddedMesh mesh).size (paddedMesh mesh).pbc).y1
          (ranges (paddedMesh mesh).size (paddedMesh mesh).pbc).y2 →
        z ∈ intRange (ranges (paddedMesh mesh).size (paddedMesh mesh).pbc).z1
          (ranges (paddedMesh mesh).size (paddedMesh mesh).pbc).z2 →
        valueAt kernel s d (z % (paddedMesh mesh).size Z) (y % (paddedMesh mesh).size Y)
            (x % (paddedMesh mesh).size X) =
          fieldAt env (paddedMesh mesh).cellSize (lengthScale (paddedMesh mesh).cellSize)
            accuracy s x y z d) ∧
      (∀ (i j : Fin 3) (z0 y0 x0 : Int),
        (x0 = Int.tdiv ((paddedMesh mesh).size X) 2 ∨
          y0 = Int.tdiv ((paddedMesh mesh).size Y) 2 ∨
          ((paddedMesh mesh).size Z > 1 ∧ z0 = Int.tdiv ((paddedMesh mesh).size Z) 2)) →
        valueAt kernel i j z0 y0 x0 = 0)) := by
  constructor
  · intro n hn he
    have hb : ∀ x, Int.tdiv (-(n - 1)) 2 ≤ x → x ≤ Int.tdiv (n - 1) 2 →
        wrap 1 x n = some (x % n) := by
      intro x h1 h2
      apply wrap_eq_emod 1 x n (by omega)
      rw [(tdiv_open n (by omega)).1] at h1
      rw [(tdiv_open n (by omega)).2] at h2
      simpa using quot_bound n x 1 (by omega) (by omega) (by omega)
    refine ⟨hb, fun x x' h1 h2 h1' h2' fuel r hw hw' => ?_, fun r => ?_⟩
    · exact open_axis_inj n x x' (by omega) h1 h2 h1' h2'
        ((wrap_some fuel x n r (by omega) hw).symm.trans (wrap_some fuel x' n r (by omega) hw'))
    · obtain ⟨he', hd⟩ := even_of_tmod n (by omega) he
      rw [hd, ← open_axis_image n r hn he']
      constructor
      · rintro ⟨x, h1, h2, hw⟩
        exact ⟨x, h1, h2, (wrap_some 1 x n r (by omega) hw).symm⟩
      · rintro ⟨x, h1, h2, rfl⟩
        exact ⟨x, h1, h2, hb x h1 h2⟩
  · intro fuel env mesh accuracy kernel hpbc h
    obtain ⟨hs, kernel0, hint, rfl⟩ := BruteKernel_result fuel env mesh accuracy kernel h
    obtain ⟨⟨sz, sy, sx⟩, -, -, -, ⟨ex, ey⟩, ez⟩ := (sanityCheck_ok_iff _ _ _ _).mp hs
    have hsize : ∀ a, 1 ≤ (paddedMesh mesh).size a :=
      forall_fin3 _ (by omega) (by omega) (by omega)
    have hne : (paddedMesh mesh).size 0 ≠ 1 := by
      have : (2 : Int) ≤ (paddedMesh mesh).size 0 := sx
      omega
    constructor
    · intro s d x y z hsd hx hy hz
      rw [valueAt_finish _ _ hne, min_eq_left hsd, max_eq_right hsd,
        integrate_cell fuel env _ _ _ accuracy _ kernel0 hsize hpbc hint s d hsd x y z hx hy hz,
        valueAt_allocate, zero_add]
    · intro i j z0 y0 x0 hidx
      rw [valueAt_finish _ _ hne,
        integrate_unreached fuel env _ _ _ accuracy _ kernel0 hsize hint _ _ z0 y0 x0 ?_,
        valueAt_allocate]
      rw [ranges_open (paddedMesh mesh).size (paddedMesh mesh).pbc hpbc]
      rcases hidx with rfl | rfl | ⟨hz1, rfl⟩
      · exact Or.inl (open_axis_middle _ sx ex)
      · exact Or.inr (Or.inl (open_axis_middle _ sy ey))
      · exact Or.inr (Or.inr (open_axis_middle _ (by omega) (ez hz1)))

end

end Mag
namespace Mag

/-- Witness for C17: the axis of 8 cells, and the run on the 4 x 4 x 1 mesh with accuracy 4 in
real arithmetic, whose tensor is zero at every index with X index 4. -/
theorem open_axis_wrap_witness :
    (∀ r : Int,
      (∃ x, Int.tdiv (-(8 - 1)) 2 ≤ x ∧ x ≤ Int.tdiv (8 - 1) 2 ∧ wrap 1 x 8 = some r) ↔
        (0 ≤ r ∧ r < 8 ∧ r ≠ Int.tdiv 8 2)) ∧
    ∃ kernel : Kernel ℝ,
      (BruteKernel 1 ⟨Real.sqrt, Real.pi⟩ mesh441 4).result = .ok kernel ∧
      ∀ (i j : Fin 3) (z0 y0 : Int),
        valueAt kernel i j z0 y0 (Int.tdiv ((paddedMesh (mesh441 (F := ℝ))).size X) 2) = 0 := by
  refine ⟨((open_axis_wrap (F := ℝ)).1 8 (by decide) (by decide)).2.2, ?_⟩
  obtain ⟨kernel0, -, -, hres, -⟩ := BruteKernel_returns 1 ⟨Real.sqrt, Real.pi⟩
    (mesh441 (F := ℝ)) 4 (sanityCheck_mesh441 4 (by norm_num)) le_rfl
    (fun a => by rw [pbc_mesh441]; decide)
  exact ⟨_, hres, fun i j z0 y0 =>
    ((open_axis_wrap (F := ℝ)).2 1 _ mesh441 4 _ pbc_mesh441 hres).2 i j z0 y0 _ (Or.inl rfl)⟩

end Mag
namespace Mag

/-! ## `delta` and `wrap` on Go's 64-bit `int` -/

theorem int64_of_range (v : Int) (h1 : -2 ^ 63 ≤ v) (h2 : v < 2 ^ 63) : int64 v = v := by
  unfold int64
  omega

section

variable {F : Type} [LinearOrderedField F]

/-- For every `int` other than `math.MinInt64` the source's `delta` does not overflow: `delta64`
and `delta` agree. -/
theorem delta64_eq_delta (d : Int) (h1 : -2 ^ 63 < d) (h2 : d < 2 ^ 63) :
    (delta64 d : F) = delta d := by
  simp only [delta64, delta]
  congr 1
  by_cases h : d < 0
  · have e : int64 (-d) = -d := int64_of_range _ (by omega) (by omega)
    have e' : int64 (-d - 1) = -d - 1 := int64_of_range _ (by omega) (by omega)
    rw [if_pos h, if_pos h, e]
    split_ifs
    · exact e'
    · rfl
  · rw [if_neg h, if_neg h]
    split_ifs
    · exact int64_of_range _ (by omega) (by omega)
    · rfl

/-- C7 as stated fails at `d = math.MinInt64 = -2^63`: there `d = -d` wraps around to `-2^63`,
which is not positive, and `delta` returns `-2^63`, not `max(|d| - 1, 0) = 2^63 - 1`. -/
theorem delta64_minInt :
    (delta64 (-2 ^ 63) : ℚ) = -2 ^ 63 ∧
    ((max (|(-2 ^ 63 : Int)| - 1) 0 : Int) : ℚ) = 2 ^ 63 - 1 ∧
    ¬ ((delta64 (-2 ^ 63) : ℚ) = ((max (|(-2 ^ 63 : Int)| - 1) 0 : Int) : ℚ)) := by
  have h1 : (delta64 (-2 ^ 63) : ℚ) = -2 ^ 63 := by
    have e : (if (if (-2 ^ 63 : Int) < 0 then int64 (-(-2 ^ 63)) else -2 ^ 63) > 0
        then int64 ((if (-2 ^ 63 : Int) < 0 then int64 (-(-2 ^ 63)) else -2 ^ 63) - 1)
        else (if (-2 ^ 63 : Int) < 0 then int64 (-(-2 ^ 63)) else -2 ^ 63)) = -2 ^ 63 := by
      decide
    simp only [delta64]
    rw [e]
    norm_num
  have h2 : ((max (|(-2 ^ 63 : Int)| - 1) 0 : Int) : ℚ) = 2 ^ 63 - 1 := by
    have e : (max (|(-2 ^ 63 : Int)| - 1) 0 : Int) = 2 ^ 63 - 1 := by decide
    rw [e]
    norm_num
  refine ⟨h1, h2, ?_⟩
  rw [h1, h2]
  norm_num

/-- C7, amended: for every `int` `d` other than `math.MinInt64` (`-2^63 < d < 2^63`),
`delta(d) == max(|d| - 1, 0)`, so `delta(-d) == delta(d)`; and `delta(0) == 0`, `delta(1) == 0`,
`delta(-1) == 0`, `delta(2) == 1`, `delta(-2) == 1`. -/
theorem delta64_spec :
    (∀ d : Int, -2 ^ 63 < d → d < 2 ^ 63 →
      (delta64 d : F) = ((max (|d| - 1) 0 : Int) : F) ∧ (delta64 (-d) : F) = delta64 d) ∧
    (delta64 0 : F) = 0 ∧ (delta64 1 : F) = 0 ∧ (delta64 (-1) : F) = 0 ∧
    (delta64 2 : F) = 1 ∧ (delta64 (-2) : F) = 1 := by
  have key : ∀ d : Int, -2 ^ 63 < d → d < 2 ^ 63 →
      (delta64 d : F) = ((max (|d| - 1) 0 : Int) : F) := by
    intro d h1 h2
    rw [delta64_eq_delta d h1 h2, delta_eq_max]
  refine ⟨fun d h1 h2 => ⟨key d h1 h2, ?_⟩, ?_, ?_, ?_, ?_, ?_⟩
  · rw [key d h1 h2, key (-d) (by omega) (by omega), abs_neg]
  · rw [key 0 (by decide) (by decide)]
    simp
  · rw [key 1 (by decide) (by decide)]
    simp
  · rw [key (-1) (by decide) (by decide)]
    simp
  · rw [key 2 (by decide) (by decide)]
    simp
  · rw [key (-2) (by decide) (by decide)]
    simp

end

/-- Witness for C7, amended: `d = -5` and `d = 2^63 - 1`, the largest `int`. -/
theorem delta64_spec_witness :
    ((delta64 (-5) : ℚ) = ((max (|(-5 : Int)| - 1) 0 : Int) : ℚ) ∧
      (delta64 (-(-5)) : ℚ) = delta64 (-5)) ∧
    ((delta64 (2 ^ 63 - 1) : ℚ) = ((max (|(2 ^ 63 - 1 : Int)| - 1) 0 : Int) : ℚ) ∧
      (delta64 (-(2 ^ 63 - 1)) : ℚ) = delta64 (2 ^ 63 - 1)) :=
  ⟨(delta64_spec (F := ℚ)).1 (-5) (by decide) (by decide),
    (delta64_spec (F := ℚ)).1 (2 ^ 63 - 1) (by decide) (by decide)⟩

theorem wrapUp64_eq (max : Int) (h0 : 0 < max) (hmax : max < 2 ^ 63) (fuel : Nat) :
    ∀ number : Int, -2 ^ 63 ≤ number → number < 2 ^ 63 →
      wrapUp64 fuel number max = wrapUp fuel number max := by
  induction fuel with
  | zero =>
    intro number _ _
    rfl
  | succ fuel ih =>
    intro number h1 h2
    rw [wrapUp64, wrapUp]
    split_ifs with h
    · rw [int64_of_range _ (by omega) (by omega)]
      exact ih _ (by omega) (by omega)
    · rfl

theorem wrapDown64_eq (max : Int) (h0 : 0 < max) (fuel : Nat) :
    ∀ number : Int, number < 2 ^ 63 →
      wrapDown64 fuel number max = wrapDown fuel number max := by
  induction fuel with
  | zero =>
    intro number _
    rfl
  | succ fuel ih =>
    intro number h2
    rw [wrapDown64, wrapDown]
    split_ifs with h
    · rw [int64_of_range _ (by omega) (by omega)]
      exact ih _ (by omega)
    · rfl

/-- For `max > 0` the source's `wrap` does not overflow: on Go's `int` values `wrap64` and `wrap`
agree. -/
theorem wrap64_eq_wrap (fuel : Nat) (number max : Int) (h1 : -2 ^ 63 ≤ number)
    (h2 : number < 2 ^ 63) (h0 : 0 < max) (hmax : max < 2 ^ 63) :
    wrap64 fuel number max = wrap fuel number max := by
  unfold wrap64 wrap
  rw [wrapUp64_eq max h0 hmax fuel number h1 h2]
  cases hup : wrapUp fuel number max with
  | none => rfl
  | some p =>
    obtain ⟨n1, f1⟩ := p
    obtain ⟨-, -, a3, a4⟩ := wrapUp_some max fuel number n1 f1 hup
    have hn1 : n1 < 2 ^ 63 := by
      rcases lt_or_le number 0 with h | h
      · exact lt_trans (a3 h) hmax
      · rw [a4 h]
        exact h2
    exact wrapDown64_eq max h0 f1 n1 hn1

theorem wrapUp64_zero (fuel : Nat) :
    ∀ number : Int, -2 ^ 63 ≤ number → number < 0 → wrapUp64 fuel number 0 = none := by
  induction fuel with
  | zero =>
    intro number _ h
    simp [wrapUp64, h]
  | succ fuel ih =>
    intro number h1 h
    rw [wrapUp64, if_pos h, add_zero, int64_of_range _ h1 (by omega)]
    exact ih number h1 h

/-- C18 as stated fails at `max = -2^62`, `number = -1`: on Go's 64-bit `int` the first loop
leaves after two additions, the second of which wraps around to `2^63 - 1`, the second loop after
one subtraction, which wraps around to `-2^62 - 1`; `wrap` returns after three loop-body
executions (and not after two). -/
theorem wrap64_negative_max_returns :
    (-2 ^ 62 : Int) ≤ 0 ∧ (-1 : Int) < 0 ∧
    wrap64 3 (-1) (-2 ^ 62) = some (-2 ^ 62 - 1) ∧
    wrap64 2 (-1) (-2 ^ 62) = none := by
  decide

/-- C18, amended: on Go's 64-bit `int`, for every `number` and every `max > 0` both loops of
`wrap` terminate within `ceil(|number| / max) + 1` loop-body executions in total, so `wrap`
returns (the remainder of `number` modulo `max`); for `max = 0` and any `number < 0` no number
of loop-body executions suffices. -/
theorem wrap64_terminates_iff :
    (∀ number max : Int, -2 ^ 63 ≤ number → number < 2 ^ 63 → 0 < max → max < 2 ^ 63 →
      ∀ fuel : Nat, ⌈(|number| : ℚ) / (max : ℚ)⌉.toNat + 1 ≤ fuel →
        wrap64 fuel number max = some (number % max)) ∧
    (∀ number : Int, -2 ^ 63 ≤ number → number < 0 →
      ∀ fuel : Nat, wrap64 fuel number 0 = none) := by
  refine ⟨fun number max h1 h2 h0 hmax fuel hfuel => ?_, fun number h1 hnum fuel => ?_⟩
  · rw [wrap64_eq_wrap fuel number max h1 h2 h0 hmax]
    exact wrap_eq_emod fuel number max h0 (le_trans (ceil_fuel number max h0) hfuel)
  · unfold wrap64
    rw [wrapUp64_zero fuel number h1 hnum]

/-- Witness for C18, amended: `wrap(-19, 8)` returns 5 within `ceil(19/8) + 1 = 4` loop-body
executions, and `wrap(-1, 0)` does not return within any number of them. -/
theorem wrap64_terminates_iff_witness :
    wrap64 4 (-19) 8 = some 5 ∧ ∀ fuel : Nat, wrap64 fuel (-1) 0 = none :=
  ⟨wrap64_terminates_iff.1 (-19) 8 (by decide) (by decide) (by decide) (by decide) 4 (by
      have h : ⌈(|(-19 : Int)| : ℚ) / ((8 : Int) : ℚ)⌉ = 3 := by
        rw [Int.ceil_eq_iff]
        norm_num
      rw [h]
      decide),
    wrap64_terminates_iff.2 (-1) (by decide) (by decide)⟩

end Mag
